import Mathlib

/-!
# CasioEmuNeo: register file, control-transfer handlers and CFG builder

A shallow embedding of `emulator/Chipset/CPU.hpp` and
`emulator/Chipset/CPUControl.cpp`.

Conventions of the embedding:

* unsigned machine integers are `Nat`; every conversion to an unsigned type of
  `w` bits is written `toUInt w`, which reduces modulo `2 ^ w`;
* an argument handed to a register operator is an arbitrary C++ integer and is
  therefore an `Int`; the conversion to the parameter type `value_type`
  happens inside the operator, as it does at the C++ call boundary;
* heap objects created by `new` live in two arenas (`bbHeap`, `insHeap`); a
  pointer is `Option Nat`, `none` being `nullptr` and `some p` the `p`-th
  object allocated;
* `assert` is active (debug build): a failing assertion and a dereference of a
  pointer that designates no object both end the handler with a `Fault`.
-/

namespace casioemu

/-! ## Integer conversions -/

/-- Conversion of an integer to an unsigned integer type of `w` bits. -/
def toUInt (w : Nat) (v : Int) : Nat := (v % 2 ^ w).toNat

/-- Conversion of an integer to `int` (32 bits, two's complement wrap). -/
def toInt32 (v : Int) : Int := (v + 2 ^ 31) % 2 ^ 32 - 2 ^ 31

/-! ## Registers (`CPU::RegisterStub`, `CPU::Register<value_type>`) -/

/-- The struct `RegisterStub`; `raw` is a `uint16_t`. -/
structure RegisterStub where
  type_size : Nat
  name : String
  raw : Nat
deriving DecidableEq, Repr

namespace Register

/-- The conversion `operator value_type()`: `return raw;`. -/
def read (w : Nat) (r : RegisterStub) : Nat := toUInt w r.raw

/-- The store `operator =(value_type value)`: `raw = value;`. -/
def assign (w : Nat) (r : RegisterStub) (v : Int) : RegisterStub :=
  { r with raw := toUInt 16 (toUInt w v) }

/-- The combine `operator &=`: `return *this = raw & value;`. -/
def andAssign (w : Nat) (r : RegisterStub) (v : Int) : RegisterStub :=
  assign w r ((r.raw &&& toUInt w v : Nat) : Int)

/-- The combine `operator |=`: `return *this = raw | value;`. -/
def orAssign (w : Nat) (r : RegisterStub) (v : Int) : RegisterStub :=
  assign w r ((r.raw ||| toUInt w v : Nat) : Int)

/-- The combine `operator ^=`: `return *this = raw ^ value;`. -/
def xorAssign (w : Nat) (r : RegisterStub) (v : Int) : RegisterStub :=
  assign w r ((r.raw ^^^ toUInt w v : Nat) : Int)

/-- The combine `operator +=`: `return *this = raw + value;`. -/
def addAssign (w : Nat) (r : RegisterStub) (v : Int) : RegisterStub :=
  assign w r ((r.raw : Int) + (toUInt w v : Int))

/-- The combine `operator -=`: `return *this = raw - value;`. -/
def subAssign (w : Nat) (r : RegisterStub) (v : Int) : RegisterStub :=
  assign w r ((r.raw : Int) - (toUInt w v : Int))

end Register

/-! ## Status flags (`CPU::StatusFlag`) and opcode hints (`CPU::OpcodeHint`) -/

def PSW_C : Nat := 0x80
def PSW_Z : Nat := 0x40
def PSW_S : Nat := 0x20
def PSW_OV : Nat := 0x10
def PSW_MIE : Nat := 0x8
def PSW_HC : Nat := 0x4
def PSW_ELEVEL : Nat := 0x3

def H_IE : Nat := 0x0001
def H_ST : Nat := 0x0002
def H_DW : Nat := 0x0004
def H_DS : Nat := 0x0008
def H_IA : Nat := 0x0010
def H_TI : Nat := 0x0020
def H_WB : Nat := 0x0040

/-! ## CFG nodes and the processor state -/

/-- The struct `CPU::Instruction`. -/
structure Instruction where
  address : Nat
  code : String
  next_instruction : Option Nat
deriving DecidableEq, Repr

/-- The anonymous enum of `CPU::BasicBlock`. -/
inductive BBType where
  | BB_TYPE_UNKNOWN
  | BB_TYPE_FUNCTION
  | BB_TYPE_BRANCH
deriving DecidableEq, Repr

/-- The struct `CPU::BasicBlock`. -/
structure BasicBlock where
  type : BBType
  address : Nat
  bb_name : String
  first_instruction : Option Nat
  last_instruction : Option Nat
  first_basic_block : Option Nat
  last_basic_block : Option Nat
deriving DecidableEq, Repr

/-- The struct `CPU::Operand`; `value` is a `uint64_t`. -/
structure Operand where
  value : Nat
  register_index : Nat
  register_size : Nat
deriving DecidableEq, Repr

/-- The struct `CPU::StackFrame`. -/
structure StackFrame where
  lr_pushed : Bool
  lr_push_address : Nat
  new_csr : Nat
  new_pc : Nat
deriving DecidableEq, Repr

/-- The ways a handler can end without completing. -/
inductive Fault where
  | assertion
  | badPointer
deriving DecidableEq, Repr

/-- The data members of `class CPU` that the control handlers touch, together
with the two object arenas and the file-level flag `bBranchWorkaround`.
The reference members `reg_lr`, `reg_lcsr` and `reg_psw` are not fields: see
`CPU.reg_lr`, `CPU.reg_lcsr`, `CPU.reg_psw`. The maps are kept in ascending
key order, as `std::map` iterates them. An assignment of one register to
another (`reg_lr = reg_pc;`) is the implicit copy assignment of the class, so
it copies the whole stub; a register field is therefore replaced as a whole. -/
structure CPU where
  impl_flags_in : Nat
  impl_opcode : Nat
  impl_long_imm : Nat
  impl_operands : Fin 2 → Operand
  impl_hint : Nat
  reg_r : Fin 16 → RegisterStub
  reg_cr : Fin 16 → RegisterStub
  reg_pc : RegisterStub
  reg_elr : Fin 4 → RegisterStub
  reg_csr : RegisterStub
  reg_ecsr : Fin 4 → RegisterStub
  reg_epsw : Fin 4 → RegisterStub
  reg_sp : RegisterStub
  reg_ea : RegisterStub
  reg_dsr : RegisterStub
  bbHeap : List BasicBlock
  insHeap : List Instruction
  basic_blocks : List (Nat × Nat)
  instructions : List (Nat × Nat)
  current_basic_block : Option Nat
  stack : List StackFrame
  bBranchWorkaround : Bool

namespace CPU

/-- Modelled from the spec: the binding of the reference member `reg_lr`, made
in the constructor (not in the sources at hand); the spec makes it a view over
bank index 0 of `reg_elr`. -/
def reg_lr (s : CPU) : RegisterStub := s.reg_elr 0

/-- Modelled from the spec: the binding of the reference member `reg_lcsr`, a
view over bank index 0 of `reg_ecsr`. -/
def reg_lcsr (s : CPU) : RegisterStub := s.reg_ecsr 0

/-- Modelled from the spec: the binding of the reference member `reg_psw`, a
view over bank index 0 of `reg_epsw`. -/
def reg_psw (s : CPU) : RegisterStub := s.reg_epsw 0

/-! ## Conditional relative branch (`CPU::OP_BC`) -/

/-- The local `branch` of `OP_BC` once the switch has run. -/
def OP_BC_branch (s : CPU) : Bool :=
  let c : Bool := decide (s.impl_flags_in &&& PSW_C ≠ 0)
  let z : Bool := decide (s.impl_flags_in &&& PSW_Z ≠ 0)
  let sg : Bool := decide (s.impl_flags_in &&& PSW_S ≠ 0)
  let ov : Bool := decide (s.impl_flags_in &&& PSW_OV ≠ 0)
  let le : Bool := z || c
  let lts : Bool := xor ov sg
  let les : Bool := lts || z
  match (s.impl_opcode >>> 8) &&& 0x000F with
  | 0 => !c
  | 1 => c
  | 2 => !le
  | 3 => le
  | 4 => !lts
  | 5 => lts
  | 6 => !les
  | 7 => les
  | 8 => !z
  | 9 => z
  | 10 => !ov
  | 11 => ov
  | 12 => !sg
  | 13 => sg
  | _ => true

/-- The value of `impl_operands[0].value` after the or-assignment of `OP_BC`. -/
def OP_BC_displacement (value : Nat) : Nat :=
  value ||| (if value &&& 0x80 ≠ 0 then 0x7F00 else 0)

/-- The handler `OP_BC`. -/
def OP_BC (s : CPU) : CPU :=
  if OP_BC_branch s then
    let value := OP_BC_displacement (s.impl_operands 0).value
    let s1 := { s with
      impl_operands := Function.update s.impl_operands 0 { s.impl_operands 0 with value := value } }
    { s1 with reg_pc := Register.addAssign 16 s1.reg_pc (toUInt 64 ((value <<< 1 : Nat) : Int)) }
  else s

end CPU

/-! ## Registries and arenas (`std::map`, `new`) -/

/-- The lookup `m.find(k)`: the mapped pointer, or `none` for `m.end()`. -/
def mapFind (m : List (Nat × Nat)) (k : Nat) : Option Nat :=
  match m with
  | [] => none
  | (k1, v) :: rest => if k1 = k then some v else mapFind rest k

/-- The statement `m[k] = v;` on a map kept in ascending key order. -/
def mapAssign (m : List (Nat × Nat)) (k v : Nat) : List (Nat × Nat) :=
  match m with
  | [] => [(k, v)]
  | (k1, v1) :: rest =>
    if k < k1 then (k, v) :: (k1, v1) :: rest
    else if k = k1 then (k, v) :: rest
    else (k1, v1) :: mapAssign rest k v

/-- The constructor `BasicBlock(size_t address)`. -/
def BasicBlock.new (address : Nat) : BasicBlock :=
  { type := BBType.BB_TYPE_BRANCH, address := address, bb_name := "",
    first_instruction := none, last_instruction := none,
    first_basic_block := none, last_basic_block := none }

/-- The constructor `Instruction(size_t address = 0)`. -/
def Instruction.new (address : Nat) : Instruction :=
  { address := address, code := "", next_instruction := none }

/-- One upper-case hexadecimal digit. -/
def hexDigitUpper (d : Nat) : Char :=
  match d with
  | 0 => '0' | 1 => '1' | 2 => '2' | 3 => '3' | 4 => '4' | 5 => '5' | 6 => '6' | 7 => '7'
  | 8 => '8' | 9 => '9' | 10 => 'A' | 11 => 'B' | 12 => 'C' | 13 => 'D' | 14 => 'E' | _ => 'F'

/-- The digits of `n` in base 16, most significant first (at most `fuel` of them). -/
def hexDigitsUpper : Nat → Nat → List Char → List Char
  | 0, _, acc => acc
  | fuel + 1, n, acc =>
    if n / 16 = 0 then hexDigitUpper (n % 16) :: acc
    else hexDigitsUpper fuel (n / 16) (hexDigitUpper (n % 16) :: acc)

/-- The stream output `std::hex << std::setfill('0') << std::uppercase << std::setw(6) << address`
of a `size_t` (at most 16 digits). -/
def hexUpperWidth6 (address : Nat) : String :=
  let digits := hexDigitsUpper 16 address []
  String.mk (List.replicate (6 - digits.length) '0' ++ digits)

namespace CPU

/-- The member function `GetBasicBlock`. -/
def GetBasicBlock (s : CPU) (address : Nat) : Option Nat :=
  mapFind s.basic_blocks address

/-- The member function `CreateBasicBlock`: the pointer returned and the state after. -/
def CreateBasicBlock (s : CPU) (address : Nat) : Nat × CPU :=
  match s.GetBasicBlock address with
  | some bb => (bb, s)
  | none =>
    (s.bbHeap.length,
      { s with
        bbHeap := s.bbHeap ++ [BasicBlock.new address]
        basic_blocks := mapAssign s.basic_blocks address s.bbHeap.length })

/-- The member function `GetInstruction`. -/
def GetInstruction (s : CPU) (address : Nat) : Option Nat :=
  mapFind s.instructions address

/-- The member function `CreateInstruction`: `new Instruction()`, then the
address is stored and the node registered. -/
def CreateInstruction (s : CPU) (address : Nat) : Nat × CPU :=
  match s.GetInstruction address with
  | some instruction => (instruction, s)
  | none =>
    (s.insHeap.length,
      { s with
        insHeap := s.insHeap ++ [{ Instruction.new 0 with address := address }]
        instructions := mapAssign s.instructions address s.insHeap.length })

/-- A write through a `BasicBlock *`: the object is replaced by `f` of it. -/
def modifyBasicBlock (s : CPU) (bb : Nat) (f : BasicBlock → BasicBlock) : Except Fault CPU :=
  match s.bbHeap[bb]? with
  | none => Except.error Fault.badPointer
  | some b => Except.ok { s with bbHeap := s.bbHeap.set bb (f b) }

/-- A write through an `Instruction *`. -/
def modifyInstruction (s : CPU) (ins : Nat) (f : Instruction → Instruction) : Except Fault CPU :=
  match s.insHeap[ins]? with
  | none => Except.error Fault.badPointer
  | some i => Except.ok { s with insHeap := s.insHeap.set ins (f i) }

/-- A read through a `BasicBlock *`. -/
def readBasicBlock (s : CPU) (bb : Nat) : Except Fault BasicBlock :=
  match s.bbHeap[bb]? with
  | none => Except.error Fault.badPointer
  | some b => Except.ok b

/-- The member function `BasicBlockAddInstruction`. -/
def BasicBlockAddInstruction (s : CPU) (bb : Nat) (instruction : Nat) : Except Fault CPU := do
  let b ← s.readBasicBlock bb
  match b.first_instruction with
  | none =>
    s.modifyBasicBlock bb fun x =>
      { x with first_instruction := some instruction, last_instruction := some instruction }
  | some _ =>
    match b.last_instruction with
    | none => Except.error Fault.badPointer
    | some l =>
      let s1 ← s.modifyInstruction l fun i => { i with next_instruction := some instruction }
      s1.modifyBasicBlock bb fun x => { x with last_instruction := some instruction }

/-- The member function `BasicBlockAppendBasicBlock`. -/
def BasicBlockAppendBasicBlock (s : CPU) (bb : Nat) (next_bb : Nat) : Except Fault CPU := do
  let b ← s.readBasicBlock bb
  match b.last_basic_block with
  | none =>
    s.modifyBasicBlock bb fun x =>
      { x with first_basic_block := some next_bb, last_basic_block := some next_bb }
  | some l =>
    let s1 ← s.modifyBasicBlock l fun x => { x with last_basic_block := some next_bb }
    s1.modifyBasicBlock bb fun x => { x with last_basic_block := some next_bb }

/-- The member function `MakeBasicBlockFunction`. -/
def MakeBasicBlockFunction (s : CPU) (bb : Nat) : Except Fault CPU :=
  s.modifyBasicBlock bb fun x => { x with type := BBType.BB_TYPE_FUNCTION }

/-- The member function `CreateFunctionName`. -/
def CreateFunctionName (address : Nat) : String :=
  "fun_" ++ hexUpperWidth6 address

/-- The member function `CreateLabelName`. -/
def CreateLabelName (address : Nat) : String :=
  "label_" ++ hexUpperWidth6 address

/-- The `int` expression `csr.raw << 16 | pc.raw`: both operands are promoted
to `int`, so the shift wraps at 32 bits. -/
def segmentedAddress (csr pc : RegisterStub) : Int :=
  Int.lor (toInt32 ((csr.raw <<< 16 : Nat) : Int)) (pc.raw : Int)

/-! ## Branch, call and return (`CPU::OP_B`, `CPU::OP_BL`, `CPU::OP_RT`, `CPU::OP_RTI`) -/

/-- The `size_t` initialiser `(reg_csr.raw << 16 | reg_pc.raw) - length`: the
subtraction is done on `int` (taken to wrap at 32 bits) and the result is
converted to `size_t`, so a negative `int` lands just below `2 ^ 64`. -/
def instructionAddress (s : CPU) (length : Nat) : Nat :=
  toUInt 64 (toInt32 (segmentedAddress s.reg_csr s.reg_pc - length))

/-- The `size_t` initialiser `(reg_csr.raw << 16 | reg_pc.raw)`. -/
def location (s : CPU) : Nat :=
  toUInt 64 (segmentedAddress s.reg_csr s.reg_pc)

/-- The argument `reg_lcsr.raw << 16 | reg_lr.raw` of `OP_RT`, as a `size_t`. -/
def linkAddress (s : CPU) : Nat :=
  toUInt 64 (segmentedAddress s.reg_lcsr s.reg_lr)

/-- The register part of `OP_B`: the statements before `if (!bBranchWorkaround)`. -/
def OP_B_transfer (s : CPU) : CPU :=
  if s.impl_hint &&& H_TI ≠ 0 then
    { s with
      reg_csr := Register.assign 16 s.reg_csr ((s.impl_operands 1).value : Int)
      reg_pc := Register.assign 16 s.reg_pc (s.impl_long_imm : Int) }
  else
    { s with reg_pc := Register.assign 16 s.reg_pc ((s.impl_operands 1).value : Int) }

/-- The block `if (!ins) { ... }` of `OP_B`, entered when no instruction is
registered at `currentAddress`; `bb` is the target block. -/
def OP_B_record (s : CPU) (bb currentAddress : Nat) : Except Fault CPU := do
  let r := s.CreateInstruction currentAddress
  let b ← r.2.readBasicBlock bb
  let s5 ← r.2.modifyInstruction r.1 fun i => { i with code := "goto " ++ b.bb_name ++ ";\n" }
  match s5.current_basic_block with
  | none => Except.error Fault.assertion
  | some cur => do
    let s6 ← s5.BasicBlockAddInstruction cur r.1
    s6.BasicBlockAppendBasicBlock cur bb

/-- The block `if (!bBranchWorkaround) { ... }` of `OP_B`. -/
def OP_B_trace (s : CPU) (currentAddress : Nat) : Except Fault CPU := do
  let newAddress : Nat := s.location
  let r := s.CreateBasicBlock newAddress
  let s3 ← r.2.modifyBasicBlock r.1 fun x => { x with bb_name := CreateLabelName newAddress }
  let s7 ←
    (match s3.GetInstruction currentAddress with
      | some _ => Except.ok s3
      | none => s3.OP_B_record r.1 currentAddress)
  pure { s7 with current_basic_block := some r.1 }

/-- The handler `OP_B`. -/
def OP_B (s : CPU) : Except Fault CPU :=
  let currentAddress : Nat := s.instructionAddress 4
  let s1 := s.OP_B_transfer
  if s1.bBranchWorkaround then Except.ok s1 else s1.OP_B_trace currentAddress

/-- The local `targetAddress` of `OP_BL`, a `size_t`. -/
def OP_BL_targetAddress (s : CPU) : Nat :=
  if s.impl_hint &&& H_TI ≠ 0 then
    toUInt 64 (((s.impl_operands 1).value <<< 16 : Nat) : Int) ||| s.impl_long_imm
  else
    (s.impl_operands 1).value

/-- The block `if (!ins) { ... }` of `OP_BL`, entered when no instruction is
registered at `currentAddress`; `bb` is the target block. -/
def OP_BL_record (s : CPU) (bb currentAddress targetAddress : Nat) : Except Fault CPU := do
  let r := s.CreateInstruction currentAddress
  let functionName := CreateFunctionName targetAddress
  let s4 ← r.2.modifyBasicBlock bb fun x => { x with bb_name := functionName }
  let s5 ← s4.modifyInstruction r.1 fun i => { i with code := functionName ++ "();\n" }
  match s5.current_basic_block with
  | none => pure s5
  | some cur => s5.BasicBlockAddInstruction cur r.1

/-- The statements of `OP_BL` from `current_basic_block = bb;` to the end:
the link registers are copied, `OP_B` runs with the workaround flag up, and
a frame is pushed on the shadow stack. -/
def OP_BL_link (s : CPU) (bb : Nat) : Except Fault CPU := do
  let s6 := { s with current_basic_block := some bb }
  let s7 := { s6 with reg_elr := Function.update s6.reg_elr 0 s6.reg_pc }
  let s8 := { s7 with reg_ecsr := Function.update s7.reg_ecsr 0 s7.reg_csr }
  let s9 ← OP_B { s8 with bBranchWorkaround := true }
  let s10 := { s9 with bBranchWorkaround := false }
  pure { s10 with
    stack := s10.stack ++
      [{ lr_pushed := false, lr_push_address := 0,
         new_csr := Register.read 16 s10.reg_csr, new_pc := Register.read 16 s10.reg_pc }] }

/-- The handler `OP_BL`. -/
def OP_BL (s : CPU) : Except Fault CPU := do
  let currentAddress : Nat := s.instructionAddress 4
  let targetAddress : Nat := s.OP_BL_targetAddress
  let r := s.CreateBasicBlock targetAddress
  let s2 ← r.2.MakeBasicBlockFunction r.1
  let s5 ←
    (match s2.GetInstruction currentAddress with
      | some _ => Except.ok s2
      | none => s2.OP_BL_record r.1 currentAddress targetAddress)
  s5.OP_BL_link r.1

/-- The block `if (!ins) { ... }` of `OP_RT`, entered when no instruction is
registered at `absoluteAddress`. -/
def OP_RT_record (s : CPU) (absoluteAddress : Nat) : Except Fault CPU := do
  let r := s.CreateInstruction absoluteAddress
  let s2 ← r.2.modifyInstruction r.1 fun i => { i with code := "return;\n" }
  match s2.current_basic_block with
  | none => Except.error Fault.assertion
  | some cur => s2.BasicBlockAddInstruction cur r.1

/-- The statements of `OP_RT` after the block `if (!ins) { ... }`. -/
def OP_RT_return (s : CPU) : CPU :=
  let r := s.CreateBasicBlock s.linkAddress
  let s5 := { r.2 with current_basic_block := some r.1 }
  let s6 := { s5 with stack := if s5.stack.isEmpty then s5.stack else s5.stack.dropLast }
  let s7 := { s6 with reg_csr := s6.reg_lcsr }
  { s7 with reg_pc := s7.reg_lr }

/-- The handler `OP_RT`. -/
def OP_RT (s : CPU) : Except Fault CPU := do
  let absoluteAddress : Nat := s.instructionAddress 2
  let s3 ←
    (match s.GetInstruction absoluteAddress with
      | some _ => Except.ok s
      | none => s.OP_RT_record absoluteAddress)
  pure s3.OP_RT_return

/-- The index `reg_psw & PSW_ELEVEL` into a banked register array. -/
def elevel (s : CPU) : Fin 4 :=
  ⟨Register.read 8 s.reg_psw &&& PSW_ELEVEL, Nat.lt_succ_of_le Nat.and_le_right⟩

/-- The handler `OP_RTI`. -/
def OP_RTI (s : CPU) : CPU :=
  let s1 := { s with reg_csr := s.reg_ecsr s.elevel }
  let s2 := { s1 with reg_pc := s1.reg_elr s1.elevel }
  { s2 with reg_epsw := Function.update s2.reg_epsw 0 (s2.reg_epsw s2.elevel) }

end CPU

/-! ## Handlers run in sequence -/

/-- The control-transfer handlers that drive the CFG builder. -/
inductive Handler where
  | B
  | BL
  | RT
deriving DecidableEq, Repr

/-- The handler a dispatch entry stands for. -/
def Handler.exec : Handler → CPU → Except Fault CPU
  | Handler.B => CPU.OP_B
  | Handler.BL => CPU.OP_BL
  | Handler.RT => CPU.OP_RT

/-- The state a handler is entered with when the registers and decoder
outputs are those of `regs` and the CFG data (arenas, registries, current
block, shadow stack, workaround flag) are those of `t`. Between two
control-transfer handlers the other instructions change registers and decoder
outputs at will and leave the CFG data alone. -/
def CPU.withTrace (regs t : CPU) : CPU :=
  { regs with
    bbHeap := t.bbHeap
    insHeap := t.insHeap
    basic_blocks := t.basic_blocks
    instructions := t.instructions
    current_basic_block := t.current_basic_block
    stack := t.stack
    bBranchWorkaround := t.bBranchWorkaround }

/-- A scripted run: each step names the handler and the registers and decoder
outputs it is entered with; the CFG data are threaded from step to step. -/
def runScript (s : CPU) : List (Handler × CPU) → Except Fault CPU
  | [] => Except.ok s
  | (h, regs) :: rest =>
    match h.exec (regs.withTrace s) with
    | Except.ok s1 => runScript s1 rest
    | Except.error e => Except.error e

/-- The number of steps of a script that run handler `h`. -/
def countHandler (h : Handler) (script : List (Handler × CPU)) : Nat :=
  (script.filter fun step => decide (step.1 = h)).length

/-! ## Well-formed CFG data -/

/-- What holds of the CFG data of every state the handlers build from empty
registries: registry entries designate live nodes whose address field is the
key, keys are strictly ascending, every stored pointer designates a live
node, a block with a first instruction has a last one, and the workaround
flag is down between handlers. -/
def CPU.WF (s : CPU) : Prop :=
  (∀ e ∈ s.basic_blocks, (s.bbHeap[e.2]?).map BasicBlock.address = some e.1) ∧
  (∀ e ∈ s.instructions, (s.insHeap[e.2]?).map Instruction.address = some e.1) ∧
  (s.basic_blocks.map Prod.fst).Pairwise (fun a b => a < b) ∧
  (s.instructions.map Prod.fst).Pairwise (fun a b => a < b) ∧
  (∀ p ∈ s.current_basic_block, p < s.bbHeap.length) ∧
  (∀ b ∈ s.bbHeap,
    (∀ q ∈ b.first_basic_block, q < s.bbHeap.length) ∧
    (∀ q ∈ b.last_basic_block, q < s.bbHeap.length) ∧
    (∀ q ∈ b.first_instruction, q < s.insHeap.length) ∧
    (∀ q ∈ b.last_instruction, q < s.insHeap.length) ∧
    (b.first_instruction ≠ none → b.last_instruction ≠ none)) ∧
  (∀ i ∈ s.insHeap, ∀ q ∈ i.next_instruction, q < s.insHeap.length) ∧
  s.bBranchWorkaround = false

instance CPU.decidableWF (s : CPU) : Decidable s.WF := by
  unfold CPU.WF
  infer_instance

/-- The CFG data only grow from `s` to `t`: registry entries stay, nodes stay
where they are and keep their address, a `Function` block stays `Function`,
and the text of an instruction never changes. -/
def CPU.Grows (s t : CPU) : Prop :=
  (∀ k p, mapFind s.basic_blocks k = some p → mapFind t.basic_blocks k = some p) ∧
  (∀ k p, mapFind s.instructions k = some p → mapFind t.instructions k = some p) ∧
  (∀ (p : Nat) (b : BasicBlock), s.bbHeap[p]? = some b → ∃ b1 : BasicBlock, t.bbHeap[p]? = some b1 ∧ b1.address = b.address ∧
    (b.type = BBType.BB_TYPE_FUNCTION → b1.type = BBType.BB_TYPE_FUNCTION)) ∧
  (∀ (p : Nat) (i : Instruction), s.insHeap[p]? = some i → ∃ i1 : Instruction, t.insHeap[p]? = some i1 ∧ i1.address = i.address ∧
    i1.code = i.code)

/-- The CFG data grow from `s` to `t` and no block changes kind. -/
def CPU.Extends (s t : CPU) : Prop :=
  (∀ k p, mapFind s.basic_blocks k = some p → mapFind t.basic_blocks k = some p) ∧
  (∀ k p, mapFind s.instructions k = some p → mapFind t.instructions k = some p) ∧
  (∀ (p : Nat) (b : BasicBlock), s.bbHeap[p]? = some b → ∃ b1 : BasicBlock, t.bbHeap[p]? = some b1 ∧ b1.address = b.address ∧
    b1.type = b.type) ∧
  (∀ (p : Nat) (i : Instruction), s.insHeap[p]? = some i → ∃ i1 : Instruction, t.insHeap[p]? = some i1 ∧ i1.address = i.address ∧
    i1.code = i.code)

/-- From `s` to `t` nothing but the arenas and the registries has changed. -/
def CPU.TraceOnly (s t : CPU) : Prop :=
  t = { s with
    bbHeap := t.bbHeap
    insHeap := t.insHeap
    basic_blocks := t.basic_blocks
    instructions := t.instructions }

/-- The state once a new instruction with text `code` has been allocated and
registered at `address`. -/
def CPU.withInstruction (s : CPU) (address : Nat) (code : String) : CPU :=
  { s with
    insHeap := s.insHeap ++ [{ address := address, code := code, next_instruction := none }]
    instructions := mapAssign s.instructions address s.insHeap.length }

/-- From `s` to `t` the instruction `q` has been put at the end of the
instruction list of block `p`: it is the last instruction of the block, the
first one as well when the block had none, and otherwise the successor of the
instruction that was last. -/
def CPU.Appended (s t : CPU) (p q : Nat) : Prop :=
  ∃ b0 b1 : BasicBlock, s.bbHeap[p]? = some b0 ∧ t.bbHeap[p]? = some b1 ∧
    b1.last_instruction = some q ∧
    match b0.first_instruction with
    | none => b1.first_instruction = some q
    | some f => b1.first_instruction = some f ∧
        ∃ (l : Nat) (li : Instruction), b0.last_instruction = some l ∧ t.insHeap[l]? = some li ∧
          li.next_instruction = some q

/-- The kind of the block registered at `address`, when there is one. -/
def CPU.blockKind (s : CPU) (address : Nat) : Option BBType :=
  match s.GetBasicBlock address with
  | none => none
  | some p => (s.bbHeap[p]?).map BasicBlock.type

/-! ## Specification-side vocabulary -/

/-- An 8-bit pattern read as a two's-complement number in `-128 .. 127`. -/
def signed8 (d : Nat) : Int := if d % 256 < 128 then (d % 256 : Nat) else (d % 256 : Nat) - 256

/-- The carry flag (0x80) of a flag byte is set. -/
def carrySet (flags : Nat) : Prop := flags.testBit 7 = true

/-- The zero flag (0x40) of a flag byte is set. -/
def zeroSet (flags : Nat) : Prop := flags.testBit 6 = true

/-- The sign flag (0x20) of a flag byte is set. -/
def signSet (flags : Nat) : Prop := flags.testBit 5 = true

/-- The overflow flag (0x10) of a flag byte is set. -/
def overflowSet (flags : Nat) : Prop := flags.testBit 4 = true

/-- Exactly one of two propositions holds. -/
def exclusiveOr (a b : Prop) : Prop := (a ∧ ¬ b) ∨ (¬ a ∧ b)

/-- The condition the specification lists for condition code `c`. -/
def conditionHolds (c : Nat) (flags : Nat) : Prop :=
  match c with
  | 0 => ¬ carrySet flags
  | 1 => carrySet flags
  | 2 => ¬ (zeroSet flags ∨ carrySet flags)
  | 3 => zeroSet flags ∨ carrySet flags
  | 4 => ¬ exclusiveOr (overflowSet flags) (signSet flags)
  | 5 => exclusiveOr (overflowSet flags) (signSet flags)
  | 6 => ¬ (exclusiveOr (overflowSet flags) (signSet flags) ∨ zeroSet flags)
  | 7 => exclusiveOr (overflowSet flags) (signSet flags) ∨ zeroSet flags
  | 8 => ¬ zeroSet flags
  | 9 => zeroSet flags
  | 10 => ¬ overflowSet flags
  | 11 => overflowSet flags
  | 12 => ¬ signSet flags
  | 13 => signSet flags
  | _ => True

/-! ## Concrete states -/

/-- The constructor `Register<value_type>()`; the cell `raw`, which the
constructor leaves unset, is taken to be zero. -/
def Register.new (size : Nat) : RegisterStub := { type_size := size, name := "?", raw := 0 }

/-- A processor with zeroed registers and decoder outputs and empty CFG data. -/
def CPU.fresh : CPU :=
  { impl_flags_in := 0, impl_opcode := 0, impl_long_imm := 0,
    impl_operands := fun _ => { value := 0, register_index := 0, register_size := 0 },
    impl_hint := 0,
    reg_r := fun _ => Register.new 1, reg_cr := fun _ => Register.new 1,
    reg_pc := Register.new 2, reg_elr := fun _ => Register.new 2,
    reg_csr := Register.new 2, reg_ecsr := fun _ => Register.new 2,
    reg_epsw := fun _ => Register.new 1,
    reg_sp := Register.new 2, reg_ea := Register.new 2, reg_dsr := Register.new 1,
    bbHeap := [], insHeap := [], basic_blocks := [], instructions := [],
    current_basic_block := none, stack := [], bBranchWorkaround := false }

/-- A state about to take a conditional branch: condition code 14, program
counter 0x0100, displacement byte 0xFE (that is, -2). -/
def CPU.branchExample : CPU :=
  { CPU.fresh with
    impl_opcode := 0x0EFE
    impl_operands := fun _ => { value := 0xFE, register_index := 0, register_size := 0 }
    reg_pc := { Register.new 2 with raw := 0x0100 } }

/-- A state inside an exception handler of level 2: bank 2 holds the
interrupted program counter 0x1234, code segment 0x0001 and status word 0x41. -/
def CPU.interruptExample : CPU :=
  { CPU.fresh with
    reg_pc := { Register.new 2 with raw := 0x0040 }
    reg_elr := fun l => if l = 2 then { Register.new 2 with raw := 0x1234 } else Register.new 2
    reg_ecsr := fun l => if l = 2 then { Register.new 2 with raw := 0x0001 } else Register.new 2
    reg_epsw := fun l =>
      if l = 0 then { Register.new 1 with raw := 0x02 }
      else if l = 2 then { Register.new 1 with raw := 0x41 }
      else Register.new 1 }

/-- A state about to run the two-word `BL` to 0x1234 with the program counter
at 0x0100 in code segment 0, no CFG data recorded yet. -/
def CPU.coldCallExample : CPU :=
  { CPU.fresh with
    impl_hint := H_TI
    impl_long_imm := 0x1234
    reg_pc := { Register.new 2 with raw := 0x0100 } }

/-- The same call entered while a block at 0x00F0 is being filled. -/
def CPU.callExample : CPU :=
  { CPU.coldCallExample with
    bbHeap := [BasicBlock.new 0x00F0]
    basic_blocks := [(0x00F0, 0)]
    current_basic_block := some 0 }

/-- The same call entered with the program counter at 0x0104. -/
def CPU.lateCallExample : CPU :=
  { CPU.coldCallExample with reg_pc := { Register.new 2 with raw := 0x0104 } }

/-- Registers and decoder outputs inside the callee, two bytes past a `RT` at 0x1240. -/
def CPU.calleeExample : CPU :=
  { CPU.fresh with
    reg_pc := { Register.new 2 with raw := 0x1242 }
    reg_elr := fun l => if l = 0 then { Register.new 2 with raw := 0x0100 } else Register.new 2 }

/-- Registers and decoder outputs of an unconditional two-word branch to 0x0200. -/
def CPU.branchToExample : CPU :=
  { CPU.fresh with
    impl_hint := H_TI
    impl_long_imm := 0x0200
    reg_pc := { Register.new 2 with raw := 0x0104 }
    bbHeap := [BasicBlock.new 0x00F0]
    basic_blocks := [(0x00F0, 0)]
    current_basic_block := some 0 }

/-- Registers and decoder outputs of a two-word call to 0x0200. -/
def CPU.callToExample : CPU :=
  { CPU.fresh with
    impl_hint := H_TI
    impl_long_imm := 0x0200
    reg_pc := { Register.new 2 with raw := 0x0304 } }

/-- The state a handler ended in, or the fresh state when it stopped on a fault. -/
def CPU.outcome (r : Except Fault CPU) : CPU :=
  match r with
  | Except.ok t => t
  | Except.error _ => CPU.fresh

/-- The state after the branch of `branchToExample`. -/
def CPU.afterBranchExample : CPU := CPU.outcome CPU.branchToExample.OP_B

/-- The state after a call to 0x0200 that follows the branch of `branchToExample`. -/
def CPU.afterCallToExample : CPU :=
  CPU.outcome (CPU.callToExample.withTrace CPU.afterBranchExample).OP_BL

/-- The state after the call of `callExample`. -/
def CPU.afterCallExample : CPU := CPU.outcome CPU.callExample.OP_BL

/-! ## Effective address and control registers (`CPU::BumpEA`, `CPU::OP_CTRL`) -/

/-- The member function `BumpEA`; `~1` is the `int` -2. -/
def CPU.BumpEA (s : CPU) (value_size : Nat) : CPU :=
  let s1 := { s with reg_ea := Register.addAssign 16 s.reg_ea (value_size : Int) }
  if value_size ≠ 1 then
    { s1 with reg_ea := Register.andAssign 16 s1.reg_ea (Int.not 1) }
  else s1

/-- A register whose content is `v`, name and size kept. -/
def Register.setRaw (r : RegisterStub) (v : Nat) : RegisterStub := { r with raw := v }

/-- The statement `impl_operands[0].value = v;`. -/
def CPU.setOperand0 (s : CPU) (v : Nat) : CPU :=
  { s with impl_operands := Function.update s.impl_operands 0 { s.impl_operands 0 with value := v } }

/-- The handler `OP_CTRL`. -/
def CPU.OP_CTRL (s : CPU) : CPU :=
  match s.impl_hint >>> 8 with
  | 1 =>
    let r := Register.assign 16 (s.reg_ecsr s.elevel) ((s.impl_operands 1).value : Int)
    { s with reg_ecsr := Function.update s.reg_ecsr s.elevel r }
  | 2 =>
    let r := Register.assign 16 (s.reg_elr s.elevel) ((s.impl_operands 1).value : Int)
    { s with reg_elr := Function.update s.reg_elr s.elevel r }
  | 3 =>
    if Register.read 8 s.reg_psw &&& PSW_ELEVEL ≠ 0 then
      let r := Register.assign 8 (s.reg_epsw s.elevel) ((s.impl_operands 1).value : Int)
      { s with reg_epsw := Function.update s.reg_epsw s.elevel r }
    else s
  | 4 => s.setOperand0 (Register.read 16 (s.reg_elr s.elevel))
  | 5 => s.setOperand0 (Register.read 16 s.reg_sp)
  | 6 =>
    let r := Register.assign 8 s.reg_psw ((s.impl_operands 1).value : Int)
    { s with reg_epsw := Function.update s.reg_epsw 0 r }
  | 7 =>
    let r := Register.assign 8 s.reg_psw ((s.impl_operands 1).value : Int)
    { s with reg_epsw := Function.update s.reg_epsw 0 r }
  | 8 => s.setOperand0 (Register.read 16 (s.reg_ecsr s.elevel))
  | 9 =>
    if Register.read 8 s.reg_psw &&& PSW_ELEVEL ≠ 0 then
      s.setOperand0 (Register.read 8 (s.reg_epsw s.elevel))
    else s
  | 10 => s.setOperand0 (Register.read 8 s.reg_psw)
  | 11 =>
    let s1 := { s with reg_sp := Register.assign 16 s.reg_sp ((s.impl_operands 1).value : Int) }
    { s1 with reg_sp := Register.andAssign 16 s1.reg_sp 0xfffe }
  | _ => s

/-! ## Further concrete states -/

/-- The callee of `calleeExample` about to return while its block at 0x1234 is
being filled and the shadow stack is empty. -/
def CPU.returnExample : CPU :=
  { CPU.calleeExample with
    bbHeap := [BasicBlock.new 0x1234]
    basic_blocks := [(0x1234, 0)]
    current_basic_block := some 0 }

/-- Whether the walk from `first` through `next_instruction` down to the null
pointer visits exactly the nodes of `chain`, in this order (the walk of the loop
`for (ins = first_instruction; ins; ins = ins->next_instruction)`). -/
def isChain (heap : List Instruction) : Option Nat → List Nat → Bool
  | first, [] => first.isNone
  | first, p :: rest =>
    decide (first = some p) &&
      match heap[p]? with
      | some i => isChain heap i.next_instruction rest
      | none => false

/-- A block with two instructions recorded, at 0x0100 and 0x0102, and a third
instruction at 0x0104 not yet linked. -/
def CPU.chainExample : CPU :=
  { CPU.fresh with
    bbHeap := [{ BasicBlock.new 0x0100 with first_instruction := some 0, last_instruction := some 1 }]
    basic_blocks := [(0x0100, 0)]
    insHeap := [{ Instruction.new 0x0100 with next_instruction := some 1 },
                Instruction.new 0x0102, Instruction.new 0x0104]
    instructions := [(0x0100, 0), (0x0102, 1), (0x0104, 2)]
    current_basic_block := some 0 }

/-! ## Coprocessor data transfer (`CPU::OP_CR_EA`)

The memory management unit is outside the translated sources: its `ReadData`
is a function parameter and its `WriteData` calls are collected in a log of
(address, byte) pairs.  The array `reg_cr` has 16 elements; an index past the
end is the fault `badPointer`. -/

/-- The expression `(((size_t)reg_dsr) << 16) | (uint16_t)(reg_ea + ix)`. -/
def CPU.OP_CR_EA_address (s : CPU) (ix : Nat) : Nat :=
  (Register.read 8 s.reg_dsr <<< 16) ||| toUInt 16 (toUInt 64 (Register.read 16 s.reg_ea + ix : Nat))

/-- The store loop of `OP_CR_EA`, `ix` running from `count - 1` down to 0. -/
def CPU.OP_CR_EA_store (s : CPU) (op0_index : Nat) :
    Nat → List (Nat × Nat) → Except Fault (List (Nat × Nat))
  | 0, log => Except.ok log
  | ix + 1, log =>
    if h : op0_index + ix < 16 then
      CPU.OP_CR_EA_store s op0_index ix
        (log ++ [(s.OP_CR_EA_address ix, Register.read 8 (s.reg_cr ⟨op0_index + ix, h⟩))])
    else Except.error Fault.badPointer

/-- The load loop of `OP_CR_EA`, with `count` iterations left and `ix` the
current index. -/
def CPU.OP_CR_EA_load (readData : Nat → Nat) (op0_index : Nat) :
    Nat → Nat → CPU → Except Fault CPU
  | 0, _, s => Except.ok s
  | count + 1, ix, s =>
    if h : op0_index + ix < 16 then
      let r := Register.assign 8 (s.reg_cr ⟨op0_index + ix, h⟩) (readData (s.OP_CR_EA_address ix) : Nat)
      CPU.OP_CR_EA_load readData op0_index count (ix + 1)
        { s with reg_cr := Function.update s.reg_cr ⟨op0_index + ix, h⟩ r }
    else Except.error Fault.badPointer

/-- The handler `OP_CR_EA`; the result is the state and the log of `WriteData` calls. -/
def CPU.OP_CR_EA (s : CPU) (readData : Nat → Nat) : Except Fault (CPU × List (Nat × Nat)) := do
  let op0_index := (s.impl_opcode >>> 8) &&& 0x000F
  let register_size := s.impl_opcode >>> 8
  let r ← (if s.impl_hint &&& H_ST ≠ 0 then
      (s.OP_CR_EA_store op0_index register_size []).map fun log => (s, log)
    else
      (CPU.OP_CR_EA_load readData op0_index register_size 0 s).map fun s1 => (s1, []))
  if s.impl_hint &&& H_IA ≠ 0 then
    Except.ok (r.1.BumpEA register_size, r.2)
  else
    Except.ok r

/-- Decoder outputs of a load of the two-byte coprocessor register pair
starting at `cr[2]` with post-increment: opcode word 0xF23D, operand 0 of
register size 2 and index 2, `reg_ea` at 0x1000. -/
def CPU.coprocessorLoadExample : CPU :=
  { CPU.fresh with
    impl_opcode := 0xF23D
    impl_hint := H_IA
    impl_operands := fun k =>
      if k = 0 then { value := 0, register_index := 2, register_size := 2 }
      else { value := 0, register_index := 0, register_size := 0 }
    reg_ea := { Register.new 2 with raw := 0x1000 } }

/-- The same transfer as a store. -/
def CPU.coprocessorStoreExample : CPU :=
  { CPU.coprocessorLoadExample with impl_hint := H_ST ||| H_IA }

/-- A transfer whose opcode word has a zero upper nibble in its high byte:
opcode word 0x043D, operand 0 of register size 2 and index 4. -/
def CPU.coprocessorLowExample : CPU :=
  { CPU.fresh with
    impl_opcode := 0x043D
    impl_hint := H_IA
    impl_operands := fun k =>
      if k = 0 then { value := 0, register_index := 4, register_size := 2 }
      else { value := 0, register_index := 0, register_size := 0 }
    reg_ea := { Register.new 2 with raw := 0x1000 } }

/-- The state after the transfer of `coprocessorLowExample` from a memory that
reads 0xAA everywhere. -/
def CPU.afterCoprocessorLowExample : CPU :=
  match CPU.coprocessorLowExample.OP_CR_EA (fun _ => 0xAA) with
  | Except.ok r => r.1
  | Except.error _ => CPU.fresh

/-- Registers and decoder outputs right after the fetch of a one-word
register-form branch or call that starts at 0x0100 in code segment 0: no
long-immediate hint, operand 1 holding the target 0x0200, the program counter
at 0x0102, and a block at 0x00F0 being filled. -/
def CPU.registerBranchExample : CPU :=
  { CPU.fresh with
    impl_hint := 0
    impl_operands := fun k =>
      if k = 1 then { value := 0x0200, register_index := 2, register_size := 2 }
      else { value := 0, register_index := 0, register_size := 0 }
    reg_pc := { Register.new 2 with raw := 0x0102 }
    bbHeap := [BasicBlock.new 0x00F0]
    basic_blocks := [(0x00F0, 0)]
    current_basic_block := some 0 }

/-- Registers and decoder outputs right after the fetch of a one-word
register-form call in code segment 1: no long-immediate hint, operand 1 holding
the target offset 0x2000, the program counter at 0x0102, and a block at
0x0100F0 being filled. -/
def CPU.segmentCallExample : CPU :=
  { CPU.fresh with
    impl_hint := 0
    impl_operands := fun k =>
      if k = 1 then { value := 0x2000, register_index := 2, register_size := 2 }
      else { value := 0, register_index := 0, register_size := 0 }
    reg_csr := { Register.new 2 with raw := 0x0001 }
    reg_pc := { Register.new 2 with raw := 0x0102 }
    bbHeap := [BasicBlock.new 0x0100F0]
    basic_blocks := [(0x0100F0, 0)]
    current_basic_block := some 0 }

/-! ## Registers against CFG data -/

/-- The registers and decoder outputs of a state with the CFG data (arenas,
registries, current block, shadow stack, workaround flag) blanked: two states
hold the same registers and decoder outputs exactly when their register files
are equal. -/
def CPU.registerFile (s : CPU) : CPU := s.withTrace CPU.fresh

/-- The registers `OP_BL` leaves: the link registers are loaded, then the
transfer of `OP_B` is done. -/
def CPU.callRegisters (s : CPU) : CPU :=
  { s with
    reg_elr := Function.update s.reg_elr 0 s.reg_pc
    reg_ecsr := Function.update s.reg_ecsr 0 s.reg_csr
    reg_csr := s.OP_B_transfer.reg_csr
    reg_pc := s.OP_B_transfer.reg_pc }

/-- The registers `OP_RT` leaves. -/
def CPU.returnRegisters (s : CPU) : CPU :=
  { s with reg_csr := s.reg_lcsr, reg_pc := s.reg_lr }

/-- The registers a handler leaves, as a function of the registers it is
entered with. -/
def Handler.registers : Handler → CPU → CPU
  | Handler.B => CPU.OP_B_transfer
  | Handler.BL => CPU.callRegisters
  | Handler.RT => CPU.returnRegisters

/-! ## Re-visited instructions -/

/-- The state after the call of `callExample` and the return of `calleeExample`. -/
def CPU.afterReturnExample : CPU :=
  CPU.outcome (CPU.calleeExample.withTrace CPU.afterCallExample).OP_RT

/-- The state of `interruptExample`, at exception level 2, about to write
0x01AB to the saved status word of its level. -/
def CPU.controlExample : CPU :=
  { CPU.interruptExample with
    impl_hint := 0x0300
    impl_operands := fun k =>
      if k = 1 then { value := 0x01AB, register_index := 0, register_size := 1 }
      else { value := 0, register_index := 0, register_size := 0 } }

/-! ## Rendered names, in the specification's words -/

/-- Following the specification's words ("as 6 upper-case hex digits"): the
number `n` written in base 16 with upper-case digits, padded with zeros on the
left to six digits. -/
def upperHexPadded6 (n : Nat) : String :=
  String.mk (List.leftpad 6 '0' ((Nat.toDigits 16 n).map Char.toUpper))

/-! ## A branch and a call to the same place in code segment 1 -/

/-- Registers and decoder outputs of a two-word branch to 0x012000 taken in
code segment 1 (operand 1 holds the segment 1, the long immediate the offset
0x2000), with the program counter at 0x0104 and a block at 0x0100F0 being
filled. -/
def CPU.segmentBranchExample : CPU :=
  { CPU.segmentCallExample with
    impl_hint := H_TI
    impl_long_imm := 0x2000
    impl_operands := fun k =>
      if k = 1 then { value := 1, register_index := 0, register_size := 0 }
      else { value := 0, register_index := 0, register_size := 0 }
    reg_pc := { Register.new 2 with raw := 0x0104 } }

/-- The state after the branch of `segmentBranchExample`. -/
def CPU.afterSegmentBranchExample : CPU := CPU.outcome CPU.segmentBranchExample.OP_B

/-- Registers and decoder outputs of a one-word register-form call in code
segment 1 whose register operand holds the offset 0x2000, fetched at 0x012010
so that the program counter is at 0x2012. -/
def CPU.segmentRegisterCallExample : CPU :=
  { CPU.segmentCallExample with reg_pc := { Register.new 2 with raw := 0x2012 } }

/-- Registers and decoder outputs of a two-word call to 0x012000 fetched at
the same place, so that the program counter is at 0x2014. -/
def CPU.segmentLongCallExample : CPU :=
  { CPU.segmentBranchExample with reg_pc := { Register.new 2 with raw := 0x2014 } }

/-- The state after the branch of `segmentBranchExample` and the one-word call
of `segmentRegisterCallExample`. -/
def CPU.afterSegmentRegisterCallExample : CPU :=
  CPU.outcome (CPU.segmentRegisterCallExample.withTrace CPU.afterSegmentBranchExample).OP_BL

/-- The state after the branch of `segmentBranchExample` and the two-word call
of `segmentLongCallExample`. -/
def CPU.afterSegmentLongCallExample : CPU :=
  CPU.outcome (CPU.segmentLongCallExample.withTrace CPU.afterSegmentBranchExample).OP_BL

/-! # Theorems -/

/-! ## Integer conversions -/

theorem toUInt_lt (w : Nat) (v : Int) : toUInt w v < 2 ^ w := by
  unfold toUInt
  have hpos : (0 : Int) < 2 ^ w := by positivity
  have h1 := Int.emod_lt_of_pos v hpos
  have h0 := Int.emod_nonneg v (ne_of_gt hpos)
  have : ((v % 2 ^ w).toNat : Int) < ((2 ^ w : Nat) : Int) := by
    rw [Int.toNat_of_nonneg h0]; push_cast; exact h1
  exact_mod_cast this

theorem toUInt_cast (w : Nat) (v : Int) : ((toUInt w v : Nat) : Int) = v % 2 ^ w := by
  unfold toUInt
  exact Int.toNat_of_nonneg (Int.emod_nonneg v (by positivity))

theorem toUInt_natCast (w n : Nat) : toUInt w (n : Int) = n % 2 ^ w := by
  have h := toUInt_cast w (n : Int)
  have : ((n : Int) % 2 ^ w) = ((n % 2 ^ w : Nat) : Int) := by push_cast; rfl
  rw [this] at h
  exact_mod_cast h

theorem toUInt_testBit (w : Nat) (v : Int) (i : Nat) :
    (toUInt w v).testBit i = (decide (i < w) && v.testBit i) := by
  cases v with
  | ofNat n =>
    have : toUInt w (Int.ofNat n) = n % 2 ^ w := toUInt_natCast w n
    rw [this, Nat.testBit_mod_two_pow]
    rfl
  | negSucc n =>
    have hpos : (0 : Int) < 2 ^ w := by positivity
    have hlt : n % 2 ^ w < 2 ^ w := Nat.mod_lt _ (by positivity)
    have h : toUInt w (Int.negSucc n) = 2 ^ w - (n % 2 ^ w + 1) := by
      have h1 := toUInt_cast w (Int.negSucc n)
      rw [Int.negSucc_emod n hpos] at h1
      have : ((2 ^ w - (n % 2 ^ w + 1) : Nat) : Int) = 2 ^ w - 1 - (n : Int) % 2 ^ w := by
        rw [Nat.cast_sub (by omega)]; push_cast; ring
      rw [← this] at h1
      exact_mod_cast h1
    rw [h, Nat.testBit_two_pow_sub_succ hlt, Nat.testBit_mod_two_pow]
    show _ = (decide (i < w) && !(n.testBit i))
    cases decide (i < w) <;> simp

theorem toUInt_toUInt (w : Nat) (hw : w ≤ 16) (v : Int) :
    toUInt 16 ((toUInt w v : Nat) : Int) = toUInt w v := by
  rw [toUInt_natCast]
  apply Nat.mod_eq_of_lt
  exact lt_of_lt_of_le (toUInt_lt w v) (Nat.pow_le_pow_right (by decide) hw)

/-! ## Registers -/

theorem read_assign (w : Nat) (hw : w ≤ 16) (r : RegisterStub) (v : Int) :
    Register.read w (Register.assign w r v) = toUInt w v := by
  simp only [Register.read, Register.assign, toUInt_toUInt w hw]
  rw [toUInt_natCast]
  exact Nat.mod_eq_of_lt (toUInt_lt w v)

theorem raw_assign_lt (w : Nat) (hw : w ≤ 16) (r : RegisterStub) (v : Int) :
    (Register.assign w r v).raw < 2 ^ w := by
  simp only [Register.assign, toUInt_toUInt w hw]
  exact toUInt_lt w v

theorem toUInt_land (w : Nat) (x : Nat) (v : Int) :
    toUInt w ((x &&& toUInt w v : Nat) : Int)
      = toUInt w (Int.land ((toUInt w (x : Int) : Nat) : Int) v) := by
  apply Nat.eq_of_testBit_eq
  intro i
  simp only [toUInt_testBit, Int.testBit_land]
  show (decide (i < w) && (x &&& toUInt w v).testBit i)
    = (decide (i < w) && ((toUInt w (x : Int)).testBit i && v.testBit i))
  simp only [toUInt_testBit, Nat.testBit_and]
  show (decide (i < w) && (x.testBit i && (decide (i < w) && v.testBit i)))
    = (decide (i < w) && ((decide (i < w) && x.testBit i) && v.testBit i))
  cases decide (i < w) <;> simp

theorem toUInt_lor (w : Nat) (x : Nat) (v : Int) :
    toUInt w ((x ||| toUInt w v : Nat) : Int)
      = toUInt w (Int.lor ((toUInt w (x : Int) : Nat) : Int) v) := by
  apply Nat.eq_of_testBit_eq
  intro i
  simp only [toUInt_testBit, Int.testBit_lor]
  show (decide (i < w) && (x ||| toUInt w v).testBit i)
    = (decide (i < w) && ((toUInt w (x : Int)).testBit i || v.testBit i))
  simp only [toUInt_testBit, Nat.testBit_or]
  show (decide (i < w) && (x.testBit i || (decide (i < w) && v.testBit i)))
    = (decide (i < w) && ((decide (i < w) && x.testBit i) || v.testBit i))
  cases decide (i < w) <;> simp

theorem toUInt_xor (w : Nat) (x : Nat) (v : Int) :
    toUInt w ((x ^^^ toUInt w v : Nat) : Int)
      = toUInt w (Int.xor ((toUInt w (x : Int) : Nat) : Int) v) := by
  apply Nat.eq_of_testBit_eq
  intro i
  simp only [toUInt_testBit, Int.testBit_lxor]
  show (decide (i < w) && (x ^^^ toUInt w v).testBit i)
    = (decide (i < w) && (Bool.xor ((toUInt w (x : Int)).testBit i) (v.testBit i)))
  simp only [toUInt_testBit, Nat.testBit_xor]
  show (decide (i < w) && (Bool.xor (x.testBit i) (decide (i < w) && v.testBit i)))
    = (decide (i < w) && (Bool.xor (decide (i < w) && x.testBit i) (v.testBit i)))
  cases decide (i < w) <;> simp

theorem toUInt_add (w : Nat) (x : Nat) (v : Int) :
    toUInt w ((x : Int) + (toUInt w v : Int))
      = toUInt w (((toUInt w (x : Int) : Nat) : Int) + v) := by
  have h : ((toUInt w ((x : Int) + (toUInt w v : Int)) : Nat) : Int)
      = ((toUInt w (((toUInt w (x : Int) : Nat) : Int) + v) : Nat) : Int) := by
    simp only [toUInt_cast]
    rw [Int.add_emod, Int.emod_emod_of_dvd _ (dvd_refl _), ← Int.add_emod]
    conv_rhs => rw [Int.add_emod, Int.emod_emod_of_dvd _ (dvd_refl _), ← Int.add_emod]
  exact_mod_cast h

theorem toUInt_sub (w : Nat) (x : Nat) (v : Int) :
    toUInt w ((x : Int) - (toUInt w v : Int))
      = toUInt w (((toUInt w (x : Int) : Nat) : Int) - v) := by
  have h : ((toUInt w ((x : Int) - (toUInt w v : Int)) : Nat) : Int)
      = ((toUInt w (((toUInt w (x : Int) : Nat) : Int) - v) : Nat) : Int) := by
    simp only [toUInt_cast]
    rw [Int.sub_emod, Int.emod_emod_of_dvd _ (dvd_refl _), ← Int.sub_emod]
    conv_rhs => rw [Int.sub_emod, Int.emod_emod_of_dvd _ (dvd_refl _), ← Int.sub_emod]
  exact_mod_cast h

/-! ## Conditional branch -/

theorem and_mask_ne_zero (f i : Nat) : decide (f &&& 2 ^ i ≠ 0) = f.testBit i := by
  rw [Nat.and_two_pow]
  cases h : f.testBit i <;> simp

theorem condition_code_eq (op : Nat) : (op >>> 8) &&& 0x000F = op / 256 % 16 := by
  rw [Nat.shiftRight_eq_div_pow]
  exact Nat.and_pow_two_sub_one_eq_mod _ 4

theorem OP_BC_branch_iff (s : CPU) :
    s.OP_BC_branch = true ↔ conditionHolds (s.impl_opcode / 256 % 16) s.impl_flags_in := by
  unfold CPU.OP_BC_branch
  rw [condition_code_eq]
  have h7 := and_mask_ne_zero s.impl_flags_in 7
  have h6 := and_mask_ne_zero s.impl_flags_in 6
  have h5 := and_mask_ne_zero s.impl_flags_in 5
  have h4 := and_mask_ne_zero s.impl_flags_in 4
  simp only [PSW_C, PSW_Z, PSW_S, PSW_OV]
  norm_num at h7 h6 h5 h4
  have hc : s.impl_opcode / 256 % 16 < 16 := Nat.mod_lt _ (by decide)
  generalize s.impl_opcode / 256 % 16 = c at hc ⊢
  interval_cases c <;>
    simp [conditionHolds, h7, h6, h5, h4, exclusiveOr, carrySet, zeroSet, signSet, overflowSet] <;>
    cases s.impl_flags_in.testBit 4 <;> cases s.impl_flags_in.testBit 5 <;> simp

set_option maxRecDepth 100000 in
theorem OP_BC_displacement_byte : ∀ d, d < 256 →
    CPU.OP_BC_displacement d = if d < 128 then d else d + 0x7F00 := by
  decide

/-- C1: for every flag byte and every opcode word, with `c` the bits 11..8 of
the opcode word, `OP_BC` takes the branch exactly when the condition the
specification lists for `c` holds on the carry, zero, sign and overflow bits
of the input flags; a branch not taken leaves the whole state, the program
counter included, as it was, and a branch taken adds the shifted displacement
to the program counter. -/
theorem OP_BC_condition_table (s : CPU) :
    (s.OP_BC_branch = true ↔ conditionHolds (s.impl_opcode / 256 % 16) s.impl_flags_in) ∧
    s.impl_opcode / 256 % 16 < 16 ∧
    (s.OP_BC_branch = false → s.OP_BC = s) ∧
    (s.OP_BC_branch = true → s.OP_BC.reg_pc = Register.addAssign 16 s.reg_pc
        (toUInt 64 ((CPU.OP_BC_displacement (s.impl_operands 0).value <<< 1 : Nat) : Int))) := by
  refine ⟨OP_BC_branch_iff s, Nat.mod_lt _ (by decide), ?_, ?_⟩
  · intro h
    simp [CPU.OP_BC, h]
  · intro h
    simp [CPU.OP_BC, h]

/-- C2: for every 16-bit program counter and every displacement byte `d`, a
taken `OP_BC` leaves the program counter at `(pc + 2 * s) mod 2 ^ 16`, with
`s` the byte `d` read as a signed 8-bit number. -/
theorem OP_BC_taken_pc (s : CPU) (hpc : s.reg_pc.raw < 2 ^ 16)
    (hd : (s.impl_operands 0).value < 256) (hb : s.OP_BC_branch = true) :
    (s.OP_BC.reg_pc.raw : Int) =
      ((s.reg_pc.raw : Int) + 2 * signed8 (s.impl_operands 0).value) % 2 ^ 16 ∧
    Register.read 16 s.OP_BC.reg_pc = s.OP_BC.reg_pc.raw := by
  have key : (s.OP_BC.reg_pc.raw : Int) =
      ((s.reg_pc.raw : Int) + 2 * signed8 (s.impl_operands 0).value) % 2 ^ 16 := by
    simp only [CPU.OP_BC, hb, if_true, Register.addAssign, Register.assign, toUInt,
      OP_BC_displacement_byte _ hd, Nat.shiftLeft_eq, signed8]
    have hm : ((s.impl_operands 0).value % 256) = (s.impl_operands 0).value :=
      Nat.mod_eq_of_lt hd
    split <;> rename_i h
    · simp only [hm, h, if_true]
      push_cast
      omega
    · simp only [hm, h, if_false]
      push_cast
      omega
  refine ⟨key, ?_⟩
  have hlt : s.OP_BC.reg_pc.raw < 2 ^ 16 := by
    simp only [CPU.OP_BC, hb, if_true, Register.addAssign]
    exact raw_assign_lt 16 (le_refl _) _ _
  rw [Register.read, toUInt_natCast]
  exact Nat.mod_eq_of_lt hlt

/-- C2 at a concrete state: from 0x0100 the displacement byte 0xFE (-2) leads to 0x00FC. -/
theorem OP_BC_taken_pc_witness :
    CPU.branchExample.reg_pc.raw = 0x0100 ∧
    (CPU.branchExample.impl_operands 0).value = 0xFE ∧
    signed8 0xFE = -2 ∧
    (CPU.branchExample.OP_BC.reg_pc.raw : Int) = (0x0100 + 2 * signed8 0xFE) % 2 ^ 16 ∧
    CPU.branchExample.OP_BC.reg_pc.raw = 0x00FC :=
  ⟨rfl, rfl, by decide,
    (OP_BC_taken_pc CPU.branchExample (by decide) (by decide) (by decide)).1, by decide⟩

/-- C3: for a register of width 8 or 16 and every integer `v`, a store followed
by a read yields `v mod 2 ^ w`; each combine operation leaves the register
reading as `(x op v) mod 2 ^ w`, where `x` is what the register read before;
and after each of these operations the raw cell holds less than `2 ^ w`. -/
theorem Register_width_truncation (w : Nat) (hw : w = 8 ∨ w = 16) (r : RegisterStub) (v : Int) :
    ((Register.read w (Register.assign w r v) : Nat) : Int) = v % 2 ^ w ∧
    ((Register.read w (Register.andAssign w r v) : Nat) : Int)
      = Int.land (Register.read w r : Nat) v % 2 ^ w ∧
    ((Register.read w (Register.orAssign w r v) : Nat) : Int)
      = Int.lor (Register.read w r : Nat) v % 2 ^ w ∧
    ((Register.read w (Register.xorAssign w r v) : Nat) : Int)
      = Int.xor (Register.read w r : Nat) v % 2 ^ w ∧
    ((Register.read w (Register.addAssign w r v) : Nat) : Int)
      = ((Register.read w r : Nat) + v) % 2 ^ w ∧
    ((Register.read w (Register.subAssign w r v) : Nat) : Int)
      = ((Register.read w r : Nat) - v) % 2 ^ w ∧
    (Register.assign w r v).raw < 2 ^ w ∧
    (Register.andAssign w r v).raw < 2 ^ w ∧
    (Register.orAssign w r v).raw < 2 ^ w ∧
    (Register.xorAssign w r v).raw < 2 ^ w ∧
    (Register.addAssign w r v).raw < 2 ^ w ∧
    (Register.subAssign w r v).raw < 2 ^ w := by
  have hw16 : w ≤ 16 := by rcases hw with h | h <;> omega
  refine ⟨?_, ?_, ?_, ?_, ?_, ?_, raw_assign_lt w hw16 r v, raw_assign_lt w hw16 r _,
    raw_assign_lt w hw16 r _, raw_assign_lt w hw16 r _, raw_assign_lt w hw16 r _,
    raw_assign_lt w hw16 r _⟩
  · rw [read_assign w hw16, toUInt_cast]
  · rw [Register.andAssign, read_assign w hw16, toUInt_land, toUInt_cast]; rfl
  · rw [Register.orAssign, read_assign w hw16, toUInt_lor, toUInt_cast]; rfl
  · rw [Register.xorAssign, read_assign w hw16, toUInt_xor, toUInt_cast]; rfl
  · rw [Register.addAssign, read_assign w hw16, toUInt_add, toUInt_cast]; rfl
  · rw [Register.subAssign, read_assign w hw16, toUInt_sub, toUInt_cast]; rfl

/-- C3 at a concrete register: an 8-bit register holding 0xF0, stored to with
0x1234 and combined with -3. -/
theorem Register_width_truncation_witness :
    Register.read 8 (Register.assign 8 { type_size := 1, name := "?", raw := 0xF0 } 0x1234) = 0x34 ∧
    Register.read 8 (Register.subAssign 8 { type_size := 1, name := "?", raw := 0xF0 } (-3)) = 0xF3 ∧
    ((Register.read 8 (Register.assign 8 { type_size := 1, name := "?", raw := 0xF0 } 0x1234) : Nat) : Int)
      = 0x1234 % 2 ^ 8 :=
  ⟨by decide, by decide,
    (Register_width_truncation 8 (Or.inl rfl) { type_size := 1, name := "?", raw := 0xF0 } 0x1234).1⟩

/-! ## Registries -/

theorem mapFind_mapAssign_self (m : List (Nat × Nat)) (k v : Nat) :
    mapFind (mapAssign m k v) k = some v := by
  induction m with
  | nil => simp [mapAssign, mapFind]
  | cons e rest ih =>
    obtain ⟨k1, v1⟩ := e
    simp only [mapAssign]
    split
    · simp [mapFind]
    · split
      · simp [mapFind]
      · rename_i h1 h2
        simp only [mapFind]
        rw [if_neg (fun h => h2 h.symm)]
        exact ih

theorem mapFind_mapAssign_ne (m : List (Nat × Nat)) (k v j : Nat) (hj : j ≠ k) :
    mapFind (mapAssign m k v) j = mapFind m j := by
  induction m with
  | nil => simp [mapAssign, mapFind, hj.symm]
  | cons e rest ih =>
    obtain ⟨k1, v1⟩ := e
    simp only [mapAssign]
    split
    · simp [mapFind, hj.symm]
    · split
      · rename_i h1 h2
        subst h2
        simp [mapFind, hj.symm]
      · simp only [mapFind]
        rw [ih]

theorem mapFind_none_iff (m : List (Nat × Nat)) (k : Nat) :
    mapFind m k = none ↔ ∀ e ∈ m, e.1 ≠ k := by
  induction m with
  | nil => simp [mapFind]
  | cons e rest ih =>
    obtain ⟨k1, v1⟩ := e
    simp only [mapFind]
    by_cases h : k1 = k
    · simp [h]
    · simp [h, ih]

theorem mapFind_mem (m : List (Nat × Nat)) (k p : Nat) (h : mapFind m k = some p) :
    (k, p) ∈ m := by
  induction m with
  | nil => simp [mapFind] at h
  | cons e rest ih =>
    obtain ⟨k1, v1⟩ := e
    simp only [mapFind] at h
    by_cases hk : k1 = k
    · simp only [hk, if_true, Option.some.injEq] at h
      simp [hk, h]
    · simp only [hk, if_false] at h
      exact List.mem_cons_of_mem _ (ih h)

theorem mapAssign_perm (m : List (Nat × Nat)) (k v : Nat) (h : mapFind m k = none) :
    (mapAssign m k v).Perm ((k, v) :: m) := by
  induction m with
  | nil => simp [mapAssign]
  | cons e rest ih =>
    obtain ⟨k1, v1⟩ := e
    simp only [mapFind] at h
    by_cases hk : k1 = k
    · simp [hk] at h
    · simp only [hk, if_false] at h
      simp only [mapAssign]
      split
      · exact List.Perm.refl _
      · rw [if_neg (fun h2 => hk h2.symm)]
        exact ((ih h).cons _).trans (List.Perm.swap _ _ _)

theorem mapAssign_mem (m : List (Nat × Nat)) (k v : Nat) (e : Nat × Nat)
    (he : e ∈ mapAssign m k v) : e = (k, v) ∨ e ∈ m := by
  induction m with
  | nil => simpa [mapAssign] using he
  | cons e1 rest ih =>
    obtain ⟨k1, v1⟩ := e1
    simp only [mapAssign] at he
    split at he
    · simpa using he
    · split at he
      · rcases List.mem_cons.mp he with h | h
        · exact Or.inl h
        · exact Or.inr (List.mem_cons_of_mem _ h)
      · rcases List.mem_cons.mp he with h | h
        · exact Or.inr (h ▸ List.mem_cons_self _ _)
        · rcases ih h with h2 | h2
          · exact Or.inl h2
          · exact Or.inr (List.mem_cons_of_mem _ h2)

theorem mapAssign_sorted (m : List (Nat × Nat)) (k v : Nat)
    (h : (m.map Prod.fst).Pairwise (fun a b => a < b)) :
    ((mapAssign m k v).map Prod.fst).Pairwise (fun a b => a < b) := by
  induction m with
  | nil => simp [mapAssign]
  | cons e rest ih =>
    obtain ⟨k1, v1⟩ := e
    simp only [List.map_cons, List.pairwise_cons] at h
    obtain ⟨h1, h2⟩ := h
    simp only [mapAssign]
    split
    · rename_i hlt
      simp only [List.map_cons, List.pairwise_cons]
      refine ⟨?_, h1, h2⟩
      intro a ha
      rcases List.mem_cons.mp ha with h3 | h3
      · rw [h3]; exact hlt
      · exact lt_trans hlt (h1 a h3)
    · split
      · rename_i hlt heq
        subst heq
        simp only [List.map_cons, List.pairwise_cons]
        exact ⟨h1, h2⟩
      · rename_i hlt hne
        simp only [List.map_cons, List.pairwise_cons]
        refine ⟨?_, ih h2⟩
        intro a ha
        obtain ⟨e, he, rfl⟩ := List.mem_map.mp ha
        rcases mapAssign_mem rest k v e he with h3 | h3
        · rw [h3]
          show k1 < k
          omega
        · exact h1 _ (List.mem_map_of_mem _ h3)

theorem mapFind_of_mem_sorted (m : List (Nat × Nat)) (k p : Nat)
    (h : (m.map Prod.fst).Pairwise (fun a b => a < b)) (hmem : (k, p) ∈ m) :
    mapFind m k = some p := by
  induction m with
  | nil => simp at hmem
  | cons e rest ih =>
    obtain ⟨k1, v1⟩ := e
    simp only [List.map_cons, List.pairwise_cons] at h
    obtain ⟨h1, h2⟩ := h
    simp only [mapFind]
    rcases List.mem_cons.mp hmem with h3 | h3
    · simp only [Prod.mk.injEq] at h3
      simp [h3.1, h3.2]
    · have hlt : k1 < k := h1 k (List.mem_map_of_mem Prod.fst h3)
      rw [if_neg (by omega)]
      exact ih h2 h3

theorem sorted_filter_key (m : List (Nat × Nat)) (k p : Nat)
    (h : (m.map Prod.fst).Pairwise (fun a b => a < b)) (hf : mapFind m k = some p) :
    m.filter (fun e => decide (e.1 = k)) = [(k, p)] := by
  induction m with
  | nil => simp [mapFind] at hf
  | cons e rest ih =>
    obtain ⟨k1, v1⟩ := e
    simp only [List.map_cons, List.pairwise_cons] at h
    obtain ⟨h1, h2⟩ := h
    simp only [mapFind] at hf
    by_cases hk : k1 = k
    · simp only [hk, if_true, Option.some.injEq] at hf
      subst hk
      subst hf
      have hnone : rest.filter (fun e => decide (e.1 = k1)) = [] := by
        rw [List.filter_eq_nil_iff]
        intro e he
        have := h1 e.1 (List.mem_map_of_mem Prod.fst he)
        simp only [decide_eq_true_eq]
        omega
      simp [List.filter_cons, hnone]
    · simp only [hk, if_false] at hf
      simp [List.filter_cons, hk, ih h2 hf]

theorem CreateBasicBlock_of_some (s : CPU) (a p : Nat) (h : s.GetBasicBlock a = some p) :
    s.CreateBasicBlock a = (p, s) := by
  simp only [CPU.CreateBasicBlock, h]

theorem CreateBasicBlock_of_none (s : CPU) (a : Nat) (h : s.GetBasicBlock a = none) :
    s.CreateBasicBlock a = (s.bbHeap.length,
      { s with
        bbHeap := s.bbHeap ++ [BasicBlock.new a]
        basic_blocks := mapAssign s.basic_blocks a s.bbHeap.length }) := by
  simp only [CPU.CreateBasicBlock, h]

theorem CreateInstruction_of_some (s : CPU) (a p : Nat) (h : s.GetInstruction a = some p) :
    s.CreateInstruction a = (p, s) := by
  simp only [CPU.CreateInstruction, h]

theorem CreateInstruction_of_none (s : CPU) (a : Nat) (h : s.GetInstruction a = none) :
    s.CreateInstruction a = (s.insHeap.length,
      { s with
        insHeap := s.insHeap ++ [Instruction.new a]
        instructions := mapAssign s.instructions a s.insHeap.length }) := by
  simp only [CPU.CreateInstruction, h, Instruction.new]

theorem registry_idempotence_aux (s : CPU) (a : Nat) :
    (s.CreateBasicBlock a).2.GetBasicBlock a = some (s.CreateBasicBlock a).1 ∧
    (s.CreateInstruction a).2.GetInstruction a = some (s.CreateInstruction a).1 := by
  constructor
  · cases h : s.GetBasicBlock a with
    | some p => rw [CreateBasicBlock_of_some s a p h]; exact h
    | none =>
      rw [CreateBasicBlock_of_none s a h]
      exact mapFind_mapAssign_self _ _ _
  · cases h : s.GetInstruction a with
    | some p => rw [CreateInstruction_of_some s a p h]; exact h
    | none =>
      rw [CreateInstruction_of_none s a h]
      exact mapFind_mapAssign_self _ _ _

/-- C4: `CreateBasicBlock` and `CreateInstruction` on a registry that has an
entry at `a` return that node and leave the state as it was; on a registry
without one they allocate one node, whose address field is `a`, add the one
entry keyed `a` that designates it and leave every other key as it was; a
second call then returns the same node and changes nothing; and a lookup
after a create returns the created node. -/
theorem registry_idempotence (s : CPU) (a : Nat) :
    (∀ p, s.GetBasicBlock a = some p → s.CreateBasicBlock a = (p, s)) ∧
    (s.GetBasicBlock a = none →
      (s.CreateBasicBlock a).2.basic_blocks.Perm
        ((a, (s.CreateBasicBlock a).1) :: s.basic_blocks) ∧
      (s.CreateBasicBlock a).2.bbHeap = s.bbHeap ++ [BasicBlock.new a] ∧
      (s.CreateBasicBlock a).2.bbHeap[(s.CreateBasicBlock a).1]? = some (BasicBlock.new a) ∧
      (BasicBlock.new a).address = a ∧
      (∀ k, k ≠ a → (s.CreateBasicBlock a).2.GetBasicBlock k = s.GetBasicBlock k)) ∧
    (s.CreateBasicBlock a).2.GetBasicBlock a = some (s.CreateBasicBlock a).1 ∧
    (s.CreateBasicBlock a).2.CreateBasicBlock a = s.CreateBasicBlock a ∧
    (∀ p, s.GetInstruction a = some p → s.CreateInstruction a = (p, s)) ∧
    (s.GetInstruction a = none →
      (s.CreateInstruction a).2.instructions.Perm
        ((a, (s.CreateInstruction a).1) :: s.instructions) ∧
      (s.CreateInstruction a).2.insHeap = s.insHeap ++ [Instruction.new a] ∧
      (s.CreateInstruction a).2.insHeap[(s.CreateInstruction a).1]? = some (Instruction.new a) ∧
      (Instruction.new a).address = a ∧
      (∀ k, k ≠ a → (s.CreateInstruction a).2.GetInstruction k = s.GetInstruction k)) ∧
    (s.CreateInstruction a).2.GetInstruction a = some (s.CreateInstruction a).1 ∧
    (s.CreateInstruction a).2.CreateInstruction a = s.CreateInstruction a := by
  have hbb := (registry_idempotence_aux s a).1
  have hins := (registry_idempotence_aux s a).2
  refine ⟨CreateBasicBlock_of_some s a, ?_, hbb, ?_, CreateInstruction_of_some s a, ?_, hins, ?_⟩
  · intro h
    rw [CreateBasicBlock_of_none s a h]
    refine ⟨mapAssign_perm _ _ _ h, rfl, ?_, rfl, ?_⟩
    · exact List.getElem?_concat_length _ _
    · intro k hk
      exact mapFind_mapAssign_ne _ _ _ _ hk
  · exact CreateBasicBlock_of_some _ a _ hbb
  · intro h
    rw [CreateInstruction_of_none s a h]
    refine ⟨mapAssign_perm _ _ _ h, rfl, ?_, rfl, ?_⟩
    · exact List.getElem?_concat_length _ _
    · intro k hk
      exact mapFind_mapAssign_ne _ _ _ _ hk
  · exact CreateInstruction_of_some _ a _ hins

/-! ## Return from interrupt -/

/-- C9: with `l` the exception level of the pre-state, `OP_RTI` copies
`reg_ecsr[l]` into `reg_csr`, `reg_elr[l]` into `reg_pc` and `reg_epsw[l]`
into the status word (bank 0 of `reg_epsw`), all read from the pre-state, and
leaves every other register, both registries and arenas, the current block
and the shadow stack as they were; so the values held by bank `l` are the
ones restored. -/
theorem OP_RTI_restores_bank (s : CPU) :
    s.elevel.val = Register.read 8 s.reg_psw % 4 ∧
    s.OP_RTI =
      { s with
        reg_csr := s.reg_ecsr s.elevel
        reg_pc := s.reg_elr s.elevel
        reg_epsw := Function.update s.reg_epsw 0 (s.reg_epsw s.elevel) } ∧
    s.OP_RTI.reg_csr = s.reg_ecsr s.elevel ∧
    s.OP_RTI.reg_pc = s.reg_elr s.elevel ∧
    s.OP_RTI.reg_psw = s.reg_epsw s.elevel ∧
    (∀ l : Fin 4, l ≠ 0 → s.OP_RTI.reg_epsw l = s.reg_epsw l) ∧
    s.OP_RTI.reg_elr = s.reg_elr ∧ s.OP_RTI.reg_ecsr = s.reg_ecsr ∧
    s.OP_RTI.reg_r = s.reg_r ∧ s.OP_RTI.reg_cr = s.reg_cr ∧
    s.OP_RTI.reg_sp = s.reg_sp ∧ s.OP_RTI.reg_ea = s.reg_ea ∧ s.OP_RTI.reg_dsr = s.reg_dsr ∧
    s.OP_RTI.basic_blocks = s.basic_blocks ∧ s.OP_RTI.instructions = s.instructions ∧
    s.OP_RTI.bbHeap = s.bbHeap ∧ s.OP_RTI.insHeap = s.insHeap ∧
    s.OP_RTI.current_basic_block = s.current_basic_block ∧ s.OP_RTI.stack = s.stack ∧
    (∀ pc csr psw : Nat, (s.reg_elr s.elevel).raw = pc → (s.reg_ecsr s.elevel).raw = csr →
      (s.reg_epsw s.elevel).raw = psw →
      s.OP_RTI.reg_pc.raw = pc ∧ s.OP_RTI.reg_csr.raw = csr ∧ s.OP_RTI.reg_psw.raw = psw) := by
  have hl : s.elevel.val = Register.read 8 s.reg_psw % 4 := by
    show Register.read 8 s.reg_psw &&& PSW_ELEVEL = _
    exact Nat.and_pow_two_sub_one_eq_mod _ 2
  have hpsw : s.OP_RTI.reg_psw = s.reg_epsw s.elevel := by
    simp [CPU.OP_RTI, CPU.reg_psw, CPU.elevel]
  refine ⟨hl, rfl, rfl, rfl, hpsw, ?_, rfl, rfl, rfl, rfl, rfl, rfl, rfl, rfl, rfl, rfl, rfl,
    rfl, rfl, ?_⟩
  · intro l hne
    simp [CPU.OP_RTI, CPU.elevel, CPU.reg_psw, Function.update_noteq hne]
  · intro pc csr psw h1 h2 h3
    refine ⟨h1, h2, ?_⟩
    rw [hpsw]
    exact h3

/-- C9 at a concrete state: at level 2 the bank holding 0x1234, 0x0001 and
0x41 is what `OP_RTI` restores. -/
theorem OP_RTI_restores_bank_example :
    CPU.interruptExample.elevel = 2 ∧
    CPU.interruptExample.OP_RTI.reg_pc.raw = 0x1234 ∧
    CPU.interruptExample.OP_RTI.reg_csr.raw = 0x0001 ∧
    CPU.interruptExample.OP_RTI.reg_psw.raw = 0x41 :=
  ⟨by decide,
    ((OP_RTI_restores_bank CPU.interruptExample).2.2.2.2.2.2.2.2.2.2.2.2.2.2.2.2.2.2.2
      0x1234 0x0001 0x41 (by decide) (by decide) (by decide))⟩

/-! ## Writes through pointers -/

theorem bind_eq_ok {α β : Type} (x : Except Fault α) (f : α → Except Fault β) (t : β) :
    (x >>= f) = Except.ok t ↔ ∃ a, x = Except.ok a ∧ f a = Except.ok t := by
  cases x with
  | error e => simp [bind, Except.bind]
  | ok a => simp [bind, Except.bind]

theorem bind_of_ok {α β : Type} (x : Except Fault α) (f : α → Except Fault β) (a : α)
    (h : x = Except.ok a) : (x >>= f) = f a := by
  rw [h]; rfl

theorem getElem?_lt {α : Type} (l : List α) (p : Nat) (a : α) (h : l[p]? = some a) :
    p < l.length := by
  obtain ⟨hlt, _⟩ := List.getElem?_eq_some.mp h
  exact hlt

theorem getElem?_of_lt {α : Type} (l : List α) (p : Nat) (h : p < l.length) :
    ∃ a, l[p]? = some a :=
  ⟨l[p], List.getElem?_eq_getElem h⟩

theorem modifyBasicBlock_ok (s : CPU) (p : Nat) (f : BasicBlock → BasicBlock) (b : BasicBlock)
    (h : s.bbHeap[p]? = some b) :
    s.modifyBasicBlock p f = Except.ok { s with bbHeap := s.bbHeap.set p (f b) } := by
  simp only [CPU.modifyBasicBlock, h]

theorem modifyBasicBlock_inv (s t : CPU) (p : Nat) (f : BasicBlock → BasicBlock)
    (h : s.modifyBasicBlock p f = Except.ok t) :
    ∃ b, s.bbHeap[p]? = some b ∧ t = { s with bbHeap := s.bbHeap.set p (f b) } := by
  cases hb : s.bbHeap[p]? with
  | none => simp [CPU.modifyBasicBlock, hb] at h
  | some b =>
    rw [modifyBasicBlock_ok s p f b hb] at h
    exact ⟨b, rfl, (Except.ok.inj h).symm⟩

theorem modifyInstruction_ok (s : CPU) (p : Nat) (f : Instruction → Instruction)
    (i : Instruction) (h : s.insHeap[p]? = some i) :
    s.modifyInstruction p f = Except.ok { s with insHeap := s.insHeap.set p (f i) } := by
  simp only [CPU.modifyInstruction, h]

theorem modifyInstruction_inv (s t : CPU) (p : Nat) (f : Instruction → Instruction)
    (h : s.modifyInstruction p f = Except.ok t) :
    ∃ i, s.insHeap[p]? = some i ∧ t = { s with insHeap := s.insHeap.set p (f i) } := by
  cases hi : s.insHeap[p]? with
  | none => simp [CPU.modifyInstruction, hi] at h
  | some i =>
    rw [modifyInstruction_ok s p f i hi] at h
    exact ⟨i, rfl, (Except.ok.inj h).symm⟩

theorem readBasicBlock_ok (s : CPU) (p : Nat) (b : BasicBlock) (h : s.bbHeap[p]? = some b) :
    s.readBasicBlock p = Except.ok b := by
  simp only [CPU.readBasicBlock, h]

theorem readBasicBlock_inv (s : CPU) (p : Nat) (b : BasicBlock)
    (h : s.readBasicBlock p = Except.ok b) : s.bbHeap[p]? = some b := by
  cases hb : s.bbHeap[p]? with
  | none => simp [CPU.readBasicBlock, hb] at h
  | some b1 =>
    rw [readBasicBlock_ok s p b1 hb] at h
    rw [Except.ok.inj h]

/-- The instruction arena after `BasicBlockAddInstruction` on a block `b`. -/
theorem BasicBlockAddInstruction_empty (s : CPU) (bb ins : Nat) (b : BasicBlock)
    (hb : s.bbHeap[bb]? = some b) (hf : b.first_instruction = none) :
    s.BasicBlockAddInstruction bb ins = Except.ok
      { s with bbHeap := s.bbHeap.set bb { b with first_instruction := some ins, last_instruction := some ins } } := by
  unfold CPU.BasicBlockAddInstruction
  rw [bind_of_ok _ _ b (readBasicBlock_ok s bb b hb)]
  simp only [hf]
  exact modifyBasicBlock_ok s bb _ b hb

theorem BasicBlockAddInstruction_nonempty (s : CPU) (bb ins : Nat) (b : BasicBlock) (f l : Nat)
    (li : Instruction) (hb : s.bbHeap[bb]? = some b) (hf : b.first_instruction = some f)
    (hl : b.last_instruction = some l) (hli : s.insHeap[l]? = some li) :
    s.BasicBlockAddInstruction bb ins = Except.ok
      { s with
        insHeap := s.insHeap.set l { li with next_instruction := some ins }
        bbHeap := s.bbHeap.set bb { b with last_instruction := some ins } } := by
  unfold CPU.BasicBlockAddInstruction
  rw [bind_of_ok _ _ b (readBasicBlock_ok s bb b hb)]
  obtain ⟨ty, addr, name, fi, la, fb, lb⟩ := b
  simp only at hf hl
  subst hf hl
  simp only
  rw [bind_of_ok _ _ _ (modifyInstruction_ok s l _ li hli)]
  have hb2 : ({ s with insHeap := s.insHeap.set l { li with next_instruction := some ins } } :
      CPU).bbHeap[bb]? = some _ := hb
  rw [modifyBasicBlock_ok _ bb _ _ hb2]

theorem BasicBlockAddInstruction_inv (s t : CPU) (bb ins : Nat)
    (h : s.BasicBlockAddInstruction bb ins = Except.ok t) :
    ∃ b, s.bbHeap[bb]? = some b ∧
      ((b.first_instruction = none ∧
          t = { s with bbHeap := s.bbHeap.set bb { b with first_instruction := some ins, last_instruction := some ins } }) ∨
       (∃ f l li, b.first_instruction = some f ∧ b.last_instruction = some l ∧
          s.insHeap[l]? = some li ∧
          t = { s with
            insHeap := s.insHeap.set l { li with next_instruction := some ins }
            bbHeap := s.bbHeap.set bb { b with last_instruction := some ins } })) := by
  cases hb : s.bbHeap[bb]? with
  | none =>
    simp [CPU.BasicBlockAddInstruction, CPU.readBasicBlock, hb, bind, Except.bind] at h
  | some b =>
    refine ⟨b, rfl, ?_⟩
    cases hf : b.first_instruction with
    | none =>
      rw [BasicBlockAddInstruction_empty s bb ins b hb hf] at h
      exact Or.inl ⟨rfl, (Except.ok.inj h).symm⟩
    | some f =>
      cases hl : b.last_instruction with
      | none =>
        simp [CPU.BasicBlockAddInstruction, CPU.readBasicBlock, hb, hf, hl, bind,
          Except.bind] at h
      | some l =>
        cases hli : s.insHeap[l]? with
        | none =>
          simp [CPU.BasicBlockAddInstruction, CPU.readBasicBlock, CPU.modifyInstruction, hb, hf,
            hl, hli, bind, Except.bind] at h
        | some li =>
          rw [BasicBlockAddInstruction_nonempty s bb ins b f l li hb hf hl hli] at h
          have h2 := (Except.ok.inj h).symm
          rw [hf] at h2
          exact Or.inr ⟨f, l, li, rfl, rfl, hli, h2⟩

theorem BasicBlockAppendBasicBlock_inv (s t : CPU) (bb next_bb : Nat)
    (h : s.BasicBlockAppendBasicBlock bb next_bb = Except.ok t) :
    ∃ b, s.bbHeap[bb]? = some b ∧
      ((b.last_basic_block = none ∧
          t = { s with bbHeap := s.bbHeap.set bb { b with first_basic_block := some next_bb, last_basic_block := some next_bb } }) ∨
       (∃ l lb b1, b.last_basic_block = some l ∧ s.bbHeap[l]? = some lb ∧
          (s.bbHeap.set l { lb with last_basic_block := some next_bb })[bb]? = some b1 ∧
          t = { s with bbHeap :=
            (s.bbHeap.set l { lb with last_basic_block := some next_bb }).set bb { b1 with last_basic_block := some next_bb } })) := by
  unfold CPU.BasicBlockAppendBasicBlock at h
  obtain ⟨b, hb, h⟩ := (bind_eq_ok _ _ _).mp h
  have hb1 := readBasicBlock_inv s bb b hb
  refine ⟨b, hb1, ?_⟩
  cases hl : b.last_basic_block with
  | none =>
    left
    simp only [hl] at h
    rw [modifyBasicBlock_ok s bb _ b hb1] at h
    exact ⟨rfl, (Except.ok.inj h).symm⟩
  | some l =>
    right
    simp only [hl] at h
    obtain ⟨s1, hs1, h⟩ := (bind_eq_ok _ _ _).mp h
    obtain ⟨lb, hlb, rfl⟩ := modifyBasicBlock_inv _ _ _ _ hs1
    obtain ⟨b1, hb1, rfl⟩ := modifyBasicBlock_inv _ _ _ _ h
    exact ⟨l, lb, b1, rfl, hlb, hb1, rfl⟩

theorem Extends_refl (s : CPU) : s.Extends s :=
  ⟨fun _ _ h => h, fun _ _ h => h, fun _ b h => ⟨b, h, rfl, rfl⟩, fun _ i h => ⟨i, h, rfl, rfl⟩⟩

theorem Extends_trans (s t u : CPU) (h1 : s.Extends t) (h2 : t.Extends u) : s.Extends u := by
  obtain ⟨a1, a2, a3, a4⟩ := h1
  obtain ⟨b1, b2, b3, b4⟩ := h2
  refine ⟨fun k p h => b1 k p (a1 k p h), fun k p h => b2 k p (a2 k p h), ?_, ?_⟩
  · intro p b h
    obtain ⟨x, hx, hx1, hx2⟩ := a3 p b h
    obtain ⟨y, hy, hy1, hy2⟩ := b3 p x hx
    exact ⟨y, hy, hy1.trans hx1, hy2.trans hx2⟩
  · intro p i h
    obtain ⟨x, hx, hx1, hx2⟩ := a4 p i h
    obtain ⟨y, hy, hy1, hy2⟩ := b4 p x hx
    exact ⟨y, hy, hy1.trans hx1, hy2.trans hx2⟩

theorem Grows_refl (s : CPU) : s.Grows s :=
  ⟨fun _ _ h => h, fun _ _ h => h, fun _ b h => ⟨b, h, rfl, id⟩, fun _ i h => ⟨i, h, rfl, rfl⟩⟩

theorem Grows_trans (s t u : CPU) (h1 : s.Grows t) (h2 : t.Grows u) : s.Grows u := by
  obtain ⟨a1, a2, a3, a4⟩ := h1
  obtain ⟨b1, b2, b3, b4⟩ := h2
  refine ⟨fun k p h => b1 k p (a1 k p h), fun k p h => b2 k p (a2 k p h), ?_, ?_⟩
  · intro p b h
    obtain ⟨x, hx, hx1, hx2⟩ := a3 p b h
    obtain ⟨y, hy, hy1, hy2⟩ := b3 p x hx
    exact ⟨y, hy, hy1.trans hx1, fun hf => hy2 (hx2 hf)⟩
  · intro p i h
    obtain ⟨x, hx, hx1, hx2⟩ := a4 p i h
    obtain ⟨y, hy, hy1, hy2⟩ := b4 p x hx
    exact ⟨y, hy, hy1.trans hx1, hy2.trans hx2⟩

theorem Extends_Grows (s t : CPU) (h : s.Extends t) : s.Grows t := by
  obtain ⟨a1, a2, a3, a4⟩ := h
  refine ⟨a1, a2, ?_, a4⟩
  intro p b hb
  obtain ⟨x, hx, hx1, hx2⟩ := a3 p b hb
  exact ⟨x, hx, hx1, fun hf => hx2.trans hf⟩

theorem Extends_of_eq (s t : CPU) (h1 : t.bbHeap = s.bbHeap) (h2 : t.insHeap = s.insHeap)
    (h3 : t.basic_blocks = s.basic_blocks) (h4 : t.instructions = s.instructions) :
    s.Extends t := by
  unfold CPU.Extends
  rw [h1, h2, h3, h4]
  exact Extends_refl s

theorem Extends_setBB (s t : CPU) (h : s.Extends t) (p : Nat) (b x : BasicBlock)
    (hb : t.bbHeap[p]? = some b) (haddr : x.address = b.address) (htype : x.type = b.type) :
    s.Extends { t with bbHeap := t.bbHeap.set p x } := by
  refine Extends_trans s t _ h ⟨fun _ _ h => h, fun _ _ h => h, ?_, fun _ i h => ⟨i, h, rfl, rfl⟩⟩
  intro q c hc
  by_cases hq : p = q
  · subst hq
    have : c = b := Option.some.inj (hc.symm.trans hb)
    subst this
    exact ⟨x, List.getElem?_set_self (getElem?_lt _ _ _ hb), haddr, htype⟩
  · exact ⟨c, by simpa [List.getElem?_set_ne hq] using hc, rfl, rfl⟩

theorem Extends_setBB_new (s t : CPU) (h : s.Extends t) (p : Nat) (x : BasicBlock)
    (hp : s.bbHeap.length ≤ p) : s.Extends { t with bbHeap := t.bbHeap.set p x } := by
  obtain ⟨a1, a2, a3, a4⟩ := h
  refine ⟨a1, a2, ?_, a4⟩
  intro q c hc
  have hq : q < s.bbHeap.length := getElem?_lt _ _ _ hc
  obtain ⟨y, hy, hy1, hy2⟩ := a3 q c hc
  refine ⟨y, ?_, hy1, hy2⟩
  show (t.bbHeap.set p x)[q]? = some y
  rw [List.getElem?_set_ne (by omega)]
  exact hy

theorem Extends_setIns (s t : CPU) (h : s.Extends t) (p : Nat) (i x : Instruction)
    (hi : t.insHeap[p]? = some i) (haddr : x.address = i.address) (hcode : x.code = i.code) :
    s.Extends { t with insHeap := t.insHeap.set p x } := by
  refine Extends_trans s t _ h ⟨fun _ _ h => h, fun _ _ h => h, fun _ b h => ⟨b, h, rfl, rfl⟩, ?_⟩
  intro q c hc
  by_cases hq : p = q
  · subst hq
    have : c = i := Option.some.inj (hc.symm.trans hi)
    subst this
    exact ⟨x, List.getElem?_set_self (getElem?_lt _ _ _ hi), haddr, hcode⟩
  · exact ⟨c, by simpa [List.getElem?_set_ne hq] using hc, rfl, rfl⟩

theorem Extends_setIns_new (s t : CPU) (h : s.Extends t) (p : Nat) (x : Instruction)
    (hp : s.insHeap.length ≤ p) : s.Extends { t with insHeap := t.insHeap.set p x } := by
  obtain ⟨a1, a2, a3, a4⟩ := h
  refine ⟨a1, a2, a3, ?_⟩
  intro q c hc
  have hq : q < s.insHeap.length := getElem?_lt _ _ _ hc
  obtain ⟨y, hy, hy1, hy2⟩ := a4 q c hc
  refine ⟨y, ?_, hy1, hy2⟩
  show (t.insHeap.set p x)[q]? = some y
  rw [List.getElem?_set_ne (by omega)]
  exact hy

theorem mapFind_mapAssign_of_none (m : List (Nat × Nat)) (a v k p : Nat)
    (hnone : mapFind m a = none) (h : mapFind m k = some p) :
    mapFind (mapAssign m a v) k = some p := by
  have hne : k ≠ a := by
    intro hk
    rw [hk, hnone] at h
    cases h
  rw [mapFind_mapAssign_ne _ _ _ _ hne]
  exact h

theorem Extends_CreateBasicBlock (s : CPU) (a : Nat) : s.Extends (s.CreateBasicBlock a).2 := by
  cases h : s.GetBasicBlock a with
  | some p =>
    rw [CreateBasicBlock_of_some s a p h]
    exact Extends_refl s
  | none =>
    rw [CreateBasicBlock_of_none s a h]
    refine ⟨fun k p hk => mapFind_mapAssign_of_none _ _ _ _ _ h hk, fun _ _ h => h, ?_,
      fun _ i h => ⟨i, h, rfl, rfl⟩⟩
    intro p b hb
    refine ⟨b, ?_, rfl, rfl⟩
    show (s.bbHeap ++ [BasicBlock.new a])[p]? = some b
    rw [List.getElem?_append_left (getElem?_lt _ _ _ hb)]
    exact hb

theorem Extends_CreateInstruction (s : CPU) (a : Nat) : s.Extends (s.CreateInstruction a).2 := by
  cases h : s.GetInstruction a with
  | some p =>
    rw [CreateInstruction_of_some s a p h]
    exact Extends_refl s
  | none =>
    rw [CreateInstruction_of_none s a h]
    refine ⟨fun _ _ h => h, fun k p hk => mapFind_mapAssign_of_none _ _ _ _ _ h hk,
      fun _ b h => ⟨b, h, rfl, rfl⟩, ?_⟩
    intro p i hi
    refine ⟨i, ?_, rfl, rfl⟩
    show (s.insHeap ++ [Instruction.new a])[p]? = some i
    rw [List.getElem?_append_left (getElem?_lt _ _ _ hi)]
    exact hi

theorem TraceOnly_refl (s : CPU) : s.TraceOnly s := rfl

theorem TraceOnly_trans (s t u : CPU) (h1 : s.TraceOnly t) (h2 : t.TraceOnly u) :
    s.TraceOnly u := by
  unfold CPU.TraceOnly at *
  rw [h2, h1]

theorem TraceOnly_CreateBasicBlock (s : CPU) (a : Nat) : s.TraceOnly (s.CreateBasicBlock a).2 := by
  cases h : s.GetBasicBlock a with
  | some p => rw [CreateBasicBlock_of_some s a p h]; rfl
  | none => rw [CreateBasicBlock_of_none s a h]; rfl

theorem TraceOnly_CreateInstruction (s : CPU) (a : Nat) :
    s.TraceOnly (s.CreateInstruction a).2 := by
  cases h : s.GetInstruction a with
  | some p => rw [CreateInstruction_of_some s a p h]; rfl
  | none => rw [CreateInstruction_of_none s a h]; rfl

theorem TraceOnly_modifyBasicBlock (s t : CPU) (p : Nat) (f : BasicBlock → BasicBlock)
    (h : s.modifyBasicBlock p f = Except.ok t) : s.TraceOnly t := by
  obtain ⟨b, _, rfl⟩ := modifyBasicBlock_inv s t p f h
  rfl

theorem TraceOnly_modifyInstruction (s t : CPU) (p : Nat) (f : Instruction → Instruction)
    (h : s.modifyInstruction p f = Except.ok t) : s.TraceOnly t := by
  obtain ⟨b, _, rfl⟩ := modifyInstruction_inv s t p f h
  rfl

theorem TraceOnly_BasicBlockAddInstruction (s t : CPU) (bb ins : Nat)
    (h : s.BasicBlockAddInstruction bb ins = Except.ok t) : s.TraceOnly t := by
  obtain ⟨b, _, h1 | h1⟩ := BasicBlockAddInstruction_inv s t bb ins h
  · obtain ⟨_, rfl⟩ := h1
    rfl
  · obtain ⟨f, l, li, _, _, _, rfl⟩ := h1
    rfl

theorem TraceOnly_BasicBlockAppendBasicBlock (s t : CPU) (bb next_bb : Nat)
    (h : s.BasicBlockAppendBasicBlock bb next_bb = Except.ok t) : s.TraceOnly t := by
  obtain ⟨b, _, h1 | h1⟩ := BasicBlockAppendBasicBlock_inv s t bb next_bb h
  · obtain ⟨_, rfl⟩ := h1
    rfl
  · obtain ⟨l, lb, b1, _, _, _, rfl⟩ := h1
    rfl

theorem Extends_BasicBlockAddInstruction (s t : CPU) (bb ins : Nat)
    (h : s.BasicBlockAddInstruction bb ins = Except.ok t) : s.Extends t := by
  obtain ⟨b, hb, h1 | h1⟩ := BasicBlockAddInstruction_inv s t bb ins h
  · obtain ⟨_, rfl⟩ := h1
    exact Extends_setBB s s (Extends_refl s) bb b _ hb rfl rfl
  · obtain ⟨f, l, li, _, _, hli, rfl⟩ := h1
    have e1 := Extends_setIns s s (Extends_refl s) l li { li with next_instruction := some ins }
      hli rfl rfl
    exact Extends_setBB s _ e1 bb b _ hb rfl rfl

theorem Extends_BasicBlockAppendBasicBlock (s t : CPU) (bb next_bb : Nat)
    (h : s.BasicBlockAppendBasicBlock bb next_bb = Except.ok t) : s.Extends t := by
  obtain ⟨b, hb, h1 | h1⟩ := BasicBlockAppendBasicBlock_inv s t bb next_bb h
  · obtain ⟨_, rfl⟩ := h1
    exact Extends_setBB s s (Extends_refl s) bb b _ hb rfl rfl
  · obtain ⟨l, lb, b1, _, hlb, hb1, rfl⟩ := h1
    have e1 := Extends_setBB s s (Extends_refl s) l lb { lb with last_basic_block := some next_bb }
      hlb rfl rfl
    exact Extends_setBB s _ e1 bb b1 _ hb1 rfl rfl

/-! ## Well-formedness is kept -/

theorem WF_congr (s t : CPU) (h1 : t.bbHeap = s.bbHeap) (h2 : t.insHeap = s.insHeap)
    (h3 : t.basic_blocks = s.basic_blocks) (h4 : t.instructions = s.instructions)
    (h5 : t.current_basic_block = s.current_basic_block)
    (h6 : t.bBranchWorkaround = s.bBranchWorkaround) (h : s.WF) : t.WF := by
  unfold CPU.WF at *
  rw [h1, h2, h3, h4, h5, h6]
  exact h

theorem WF_setCurrent (s : CPU) (h : s.WF) (p : Nat) (hp : p < s.bbHeap.length) :
    CPU.WF { s with current_basic_block := some p } := by
  obtain ⟨h1, h2, h3, h4, _, h6, h7, h8⟩ := h
  refine ⟨h1, h2, h3, h4, ?_, h6, h7, h8⟩
  intro q hq
  have : q = p := by simpa [eq_comm] using hq
  rw [this]
  exact hp

theorem WF_current_lt (s : CPU) (h : s.WF) (p : Nat) (hp : s.current_basic_block = some p) :
    p < s.bbHeap.length :=
  h.2.2.2.2.1 p (by simp [hp])

theorem WF_flag (s : CPU) (h : s.WF) : s.bBranchWorkaround = false :=
  h.2.2.2.2.2.2.2

theorem WF_bb_lookup (s : CPU) (h : s.WF) (k p : Nat) (hk : s.GetBasicBlock k = some p) :
    ∃ b, s.bbHeap[p]? = some b ∧ b.address = k := by
  have hm := h.1 (k, p) (mapFind_mem _ _ _ hk)
  cases hb : s.bbHeap[p]? with
  | none => simp [hb] at hm
  | some b => exact ⟨b, rfl, by simpa [hb] using hm⟩

theorem WF_ins_lookup (s : CPU) (h : s.WF) (k p : Nat) (hk : s.GetInstruction k = some p) :
    ∃ i, s.insHeap[p]? = some i ∧ i.address = k := by
  have hm := h.2.1 (k, p) (mapFind_mem _ _ _ hk)
  cases hi : s.insHeap[p]? with
  | none => simp [hi] at hm
  | some i => exact ⟨i, rfl, by simpa [hi] using hm⟩

theorem WF_block (s : CPU) (h : s.WF) (p : Nat) (b : BasicBlock) (hb : s.bbHeap[p]? = some b) :
    (∀ q ∈ b.first_basic_block, q < s.bbHeap.length) ∧
    (∀ q ∈ b.last_basic_block, q < s.bbHeap.length) ∧
    (∀ q ∈ b.first_instruction, q < s.insHeap.length) ∧
    (∀ q ∈ b.last_instruction, q < s.insHeap.length) ∧
    (b.first_instruction ≠ none → b.last_instruction ≠ none) :=
  h.2.2.2.2.2.1 b (List.getElem?_mem hb)

theorem map_getElem?_set_ne {α β : Type} (l : List α) (p q : Nat) (x : α) (f : α → β) (c : β)
    (b : α) (hb : l[p]? = some b) (hx : f x = f b) (h : (l[q]?).map f = some c) :
    ((l.set p x)[q]?).map f = some c := by
  by_cases hq : p = q
  · subst hq
    rw [List.getElem?_set_self (getElem?_lt _ _ _ hb)]
    rw [hb] at h
    simpa [hx] using h
  · rw [List.getElem?_set_ne hq]
    exact h

theorem WF_setBB (s : CPU) (h : s.WF) (p : Nat) (b x : BasicBlock)
    (hb : s.bbHeap[p]? = some b) (haddr : x.address = b.address)
    (hv1 : ∀ q ∈ x.first_basic_block, q < s.bbHeap.length)
    (hv2 : ∀ q ∈ x.last_basic_block, q < s.bbHeap.length)
    (hv3 : ∀ q ∈ x.first_instruction, q < s.insHeap.length)
    (hv4 : ∀ q ∈ x.last_instruction, q < s.insHeap.length)
    (hv5 : x.first_instruction ≠ none → x.last_instruction ≠ none) :
    CPU.WF { s with bbHeap := s.bbHeap.set p x } := by
  obtain ⟨h1, h2, h3, h4, h5, h6, h7, h8⟩ := h
  refine ⟨?_, h2, h3, h4, ?_, ?_, h7, h8⟩
  · intro e he
    exact map_getElem?_set_ne _ _ _ _ _ _ b hb haddr (h1 e he)
  · intro q hq
    show q < (s.bbHeap.set p x).length
    rw [List.length_set]
    exact h5 q hq
  · intro c hc
    show _ ∧ _ ∧ _ ∧ _ ∧ _
    simp only [List.length_set]
    rcases List.mem_or_eq_of_mem_set hc with hc1 | hc1
    · exact h6 c hc1
    · rw [hc1]
      exact ⟨hv1, hv2, hv3, hv4, hv5⟩

theorem WF_setIns (s : CPU) (h : s.WF) (p : Nat) (i x : Instruction)
    (hi : s.insHeap[p]? = some i) (haddr : x.address = i.address)
    (hv : ∀ q ∈ x.next_instruction, q < s.insHeap.length) :
    CPU.WF { s with insHeap := s.insHeap.set p x } := by
  obtain ⟨h1, h2, h3, h4, h5, h6, h7, h8⟩ := h
  refine ⟨h1, ?_, h3, h4, h5, ?_, ?_, h8⟩
  · intro e he
    exact map_getElem?_set_ne _ _ _ _ _ _ i hi haddr (h2 e he)
  · intro c hc
    show _ ∧ _ ∧ _ ∧ _ ∧ _
    simp only [List.length_set]
    exact h6 c hc
  · intro c hc
    show ∀ q ∈ c.next_instruction, q < (s.insHeap.set p x).length
    rw [List.length_set]
    rcases List.mem_or_eq_of_mem_set hc with hc1 | hc1
    · exact h7 c hc1
    · rw [hc1]
      exact hv

theorem WF_CreateBasicBlock (s : CPU) (h : s.WF) (a : Nat) : (s.CreateBasicBlock a).2.WF := by
  cases hg : s.GetBasicBlock a with
  | some p =>
    rw [CreateBasicBlock_of_some s a p hg]
    exact h
  | none =>
    rw [CreateBasicBlock_of_none s a hg]
    obtain ⟨h1, h2, h3, h4, h5, h6, h7, h8⟩ := h
    refine ⟨?_, h2, mapAssign_sorted _ _ _ h3, h4, ?_, ?_, h7, h8⟩
    · intro e he
      show ((s.bbHeap ++ [BasicBlock.new a])[e.2]?).map BasicBlock.address = some e.1
      rcases mapAssign_mem _ _ _ _ he with he1 | he1
      · rw [he1]
        simp [BasicBlock.new]
      · have := h1 e he1
        have hlt : e.2 < s.bbHeap.length := by
          cases hx : s.bbHeap[e.2]? with
          | none => simp [hx] at this
          | some b => exact getElem?_lt _ _ _ hx
        rw [List.getElem?_append_left hlt]
        exact this
    · intro q hq
      show q < (s.bbHeap ++ [BasicBlock.new a]).length
      have := h5 q hq
      simp only [List.length_append, List.length_singleton]
      omega
    · intro c hc
      show _ ∧ _ ∧ _ ∧ _ ∧ _
      simp only [List.length_append, List.length_singleton]
      rcases List.mem_append.mp hc with hc1 | hc1
      · obtain ⟨a1, a2, a3, a4, a5⟩ := h6 c hc1
        exact ⟨fun q hq => Nat.lt_succ_of_lt (a1 q hq), fun q hq => Nat.lt_succ_of_lt (a2 q hq),
          a3, a4, a5⟩
      · have : c = BasicBlock.new a := by simpa using hc1
        rw [this]
        simp [BasicBlock.new]

theorem WF_CreateInstruction (s : CPU) (h : s.WF) (a : Nat) : (s.CreateInstruction a).2.WF := by
  cases hg : s.GetInstruction a with
  | some p =>
    rw [CreateInstruction_of_some s a p hg]
    exact h
  | none =>
    rw [CreateInstruction_of_none s a hg]
    obtain ⟨h1, h2, h3, h4, h5, h6, h7, h8⟩ := h
    refine ⟨h1, ?_, h3, mapAssign_sorted _ _ _ h4, h5, ?_, ?_, h8⟩
    · intro e he
      show ((s.insHeap ++ [Instruction.new a])[e.2]?).map Instruction.address = some e.1
      rcases mapAssign_mem _ _ _ _ he with he1 | he1
      · rw [he1]
        simp [Instruction.new]
      · have := h2 e he1
        have hlt : e.2 < s.insHeap.length := by
          cases hx : s.insHeap[e.2]? with
          | none => simp [hx] at this
          | some b => exact getElem?_lt _ _ _ hx
        rw [List.getElem?_append_left hlt]
        exact this
    · intro c hc
      show _ ∧ _ ∧ _ ∧ _ ∧ _
      simp only [List.length_append, List.length_singleton]
      obtain ⟨a1, a2, a3, a4, a5⟩ := h6 c hc
      exact ⟨a1, a2, fun q hq => Nat.lt_succ_of_lt (a3 q hq),
        fun q hq => Nat.lt_succ_of_lt (a4 q hq), a5⟩
    · intro c hc
      show ∀ q ∈ c.next_instruction, q < (s.insHeap ++ [Instruction.new a]).length
      simp only [List.length_append, List.length_singleton]
      rcases List.mem_append.mp hc with hc1 | hc1
      · exact fun q hq => Nat.lt_succ_of_lt (h7 c hc1 q hq)
      · have : c = Instruction.new a := by simpa using hc1
        rw [this]
        simp [Instruction.new]

theorem WF_BasicBlockAddInstruction (s t : CPU) (h : s.WF) (bb ins : Nat)
    (hins : ins < s.insHeap.length)
    (ht : s.BasicBlockAddInstruction bb ins = Except.ok t) : t.WF := by
  obtain ⟨b, hb, h1 | h1⟩ := BasicBlockAddInstruction_inv s t bb ins ht
  · obtain ⟨_, rfl⟩ := h1
    obtain ⟨a1, a2, a3, a4, a5⟩ := WF_block s h bb b hb
    refine WF_setBB s h bb b _ hb rfl a1 a2 ?_ ?_ ?_
    · intro q hq
      have : q = ins := by simpa [eq_comm] using hq
      rw [this]; exact hins
    · intro q hq
      have : q = ins := by simpa [eq_comm] using hq
      rw [this]; exact hins
    · intro _
      simp
  · obtain ⟨f, l, li, hf, hl, hli, rfl⟩ := h1
    obtain ⟨a1, a2, a3, a4, a5⟩ := WF_block s h bb b hb
    have w1 : CPU.WF { s with insHeap := s.insHeap.set l { li with next_instruction := some ins } } := by
      refine WF_setIns s h l li _ hli rfl ?_
      intro q hq
      have : q = ins := by simpa [eq_comm] using hq
      rw [this]; exact hins
    refine WF_setBB _ w1 bb b _ hb rfl a1 a2 ?_ ?_ ?_
    · intro q hq
      show q < (s.insHeap.set l _).length
      rw [List.length_set]
      exact a3 q hq
    · intro q hq
      show q < (s.insHeap.set l _).length
      rw [List.length_set]
      have : q = ins := by simpa [eq_comm] using hq
      rw [this]; exact hins
    · intro _
      simp

theorem BasicBlockAddInstruction_ok (s : CPU) (h : s.WF) (bb ins : Nat)
    (hbb : bb < s.bbHeap.length) : ∃ t, s.BasicBlockAddInstruction bb ins = Except.ok t := by
  obtain ⟨b, hb⟩ := getElem?_of_lt s.bbHeap bb hbb
  obtain ⟨a1, a2, a3, a4, a5⟩ := WF_block s h bb b hb
  cases hf : b.first_instruction with
  | none => exact ⟨_, BasicBlockAddInstruction_empty s bb ins b hb hf⟩
  | some f =>
    cases hl : b.last_instruction with
    | none => exact absurd hl (a5 (by simp [hf]))
    | some l =>
      obtain ⟨li, hli⟩ := getElem?_of_lt s.insHeap l (a4 l (by simp [hl]))
      exact ⟨_, BasicBlockAddInstruction_nonempty s bb ins b f l li hb hf hl hli⟩

/-! ## The handlers, phase by phase -/

theorem set_concat_length {α : Type} (l : List α) (x y : α) :
    (l ++ [x]).set l.length y = l ++ [y] := by
  induction l with
  | nil => rfl
  | cons a rest ih => simp [List.set, ih]

theorem OP_B_transfer_eq (s : CPU) :
    s.OP_B_transfer =
      { s with reg_csr := s.OP_B_transfer.reg_csr, reg_pc := s.OP_B_transfer.reg_pc } := by
  unfold CPU.OP_B_transfer
  split <;> rfl

theorem OP_B_workaround (s : CPU) (h : s.bBranchWorkaround = true) :
    s.OP_B = Except.ok s.OP_B_transfer := by
  have h2 : s.OP_B_transfer.bBranchWorkaround = true := by
    rw [OP_B_transfer_eq]; exact h
  simp only [CPU.OP_B, h2, if_true]

/-- The state `OP_BL_link` ends in. -/
theorem OP_BL_link_eq (s : CPU) (bb : Nat) :
    s.OP_BL_link bb = Except.ok
      { s with
        current_basic_block := some bb
        reg_elr := Function.update s.reg_elr 0 s.reg_pc
        reg_ecsr := Function.update s.reg_ecsr 0 s.reg_csr
        reg_csr := s.OP_B_transfer.reg_csr
        reg_pc := s.OP_B_transfer.reg_pc
        bBranchWorkaround := false
        stack := s.stack ++
          [{ lr_pushed := false, lr_push_address := 0,
             new_csr := Register.read 16 s.OP_B_transfer.reg_csr,
             new_pc := Register.read 16 s.OP_B_transfer.reg_pc }] } := by
  unfold CPU.OP_BL_link
  simp only []
  rw [bind_of_ok _ _ _ (OP_B_workaround _ rfl)]
  unfold CPU.OP_B_transfer
  split <;> rfl

theorem OP_BL_record_eq (s : CPU) (bb ca ta : Nat) (b : BasicBlock)
    (hnone : s.GetInstruction ca = none) (hb : s.bbHeap[bb]? = some b) :
    s.OP_BL_record bb ca ta =
      match s.current_basic_block with
      | none => Except.ok
          { s.withInstruction ca (CPU.CreateFunctionName ta ++ "();\n") with
            bbHeap := s.bbHeap.set bb { b with bb_name := CPU.CreateFunctionName ta } }
      | some cur =>
          CPU.BasicBlockAddInstruction
            { s.withInstruction ca (CPU.CreateFunctionName ta ++ "();\n") with
              bbHeap := s.bbHeap.set bb { b with bb_name := CPU.CreateFunctionName ta } }
            cur s.insHeap.length := by
  unfold CPU.OP_BL_record
  simp only [CreateInstruction_of_none s ca hnone]
  have hb2 : ({ s with
      insHeap := s.insHeap ++ [Instruction.new ca]
      instructions := mapAssign s.instructions ca s.insHeap.length } : CPU).bbHeap[bb]? = some b := hb
  rw [bind_of_ok _ _ _ (modifyBasicBlock_ok _ bb _ b hb2)]
  have hi : ({ s with
      insHeap := s.insHeap ++ [Instruction.new ca]
      instructions := mapAssign s.instructions ca s.insHeap.length
      bbHeap := s.bbHeap.set bb { b with bb_name := CPU.CreateFunctionName ta } } :
      CPU).insHeap[s.insHeap.length]? = some (Instruction.new ca) :=
    List.getElem?_concat_length _ _
  rw [bind_of_ok _ _ _ (modifyInstruction_ok _ _ _ _ hi)]
  simp only [set_concat_length, Instruction.new, CPU.withInstruction]
  cases s.current_basic_block <;> rfl

theorem OP_RT_record_eq (s : CPU) (ca : Nat) (hnone : s.GetInstruction ca = none) :
    s.OP_RT_record ca =
      match s.current_basic_block with
      | none => Except.error Fault.assertion
      | some cur =>
          (s.withInstruction ca "return;\n").BasicBlockAddInstruction cur s.insHeap.length := by
  unfold CPU.OP_RT_record
  simp only [CreateInstruction_of_none s ca hnone]
  have hi : ({ s with
      insHeap := s.insHeap ++ [Instruction.new ca]
      instructions := mapAssign s.instructions ca s.insHeap.length } :
      CPU).insHeap[s.insHeap.length]? = some (Instruction.new ca) :=
    List.getElem?_concat_length _ _
  rw [bind_of_ok _ _ _ (modifyInstruction_ok _ _ _ _ hi)]
  simp only [set_concat_length, Instruction.new, CPU.withInstruction]

theorem OP_B_record_eq (s : CPU) (bb ca : Nat) (b : BasicBlock)
    (hnone : s.GetInstruction ca = none) (hb : s.bbHeap[bb]? = some b) :
    s.OP_B_record bb ca =
      match s.current_basic_block with
      | none => Except.error Fault.assertion
      | some cur =>
          (s.withInstruction ca ("goto " ++ b.bb_name ++ ";\n")).BasicBlockAddInstruction cur
            s.insHeap.length >>= fun s6 => s6.BasicBlockAppendBasicBlock cur bb := by
  unfold CPU.OP_B_record
  simp only [CreateInstruction_of_none s ca hnone]
  have hb2 : ({ s with
      insHeap := s.insHeap ++ [Instruction.new ca]
      instructions := mapAssign s.instructions ca s.insHeap.length } : CPU).bbHeap[bb]? = some b := hb
  rw [bind_of_ok _ _ _ (readBasicBlock_ok _ bb b hb2)]
  have hi : ({ s with
      insHeap := s.insHeap ++ [Instruction.new ca]
      instructions := mapAssign s.instructions ca s.insHeap.length } :
      CPU).insHeap[s.insHeap.length]? = some (Instruction.new ca) :=
    List.getElem?_concat_length _ _
  rw [bind_of_ok _ _ _ (modifyInstruction_ok _ _ _ _ hi)]
  simp only [set_concat_length, Instruction.new, CPU.withInstruction]

theorem CreateBasicBlock_instructions (s : CPU) (a : Nat) :
    (s.CreateBasicBlock a).2.instructions = s.instructions ∧
    (s.CreateBasicBlock a).2.insHeap = s.insHeap := by
  cases h : s.GetBasicBlock a with
  | some p => rw [CreateBasicBlock_of_some s a p h]; exact ⟨rfl, rfl⟩
  | none => rw [CreateBasicBlock_of_none s a h]; exact ⟨rfl, rfl⟩

theorem CreateBasicBlock_getElem? (s : CPU) (a p : Nat) (b : BasicBlock)
    (h : s.bbHeap[p]? = some b) : (s.CreateBasicBlock a).2.bbHeap[p]? = some b := by
  cases hg : s.GetBasicBlock a with
  | some q => rw [CreateBasicBlock_of_some s a q hg]; exact h
  | none =>
    rw [CreateBasicBlock_of_none s a hg]
    show (s.bbHeap ++ [BasicBlock.new a])[p]? = some b
    rw [List.getElem?_append_left (getElem?_lt _ _ _ h)]
    exact h

theorem CreateBasicBlock_length (s : CPU) (a : Nat) :
    s.bbHeap.length ≤ (s.CreateBasicBlock a).2.bbHeap.length := by
  cases hg : s.GetBasicBlock a with
  | some q => rw [CreateBasicBlock_of_some s a q hg]
  | none =>
    rw [CreateBasicBlock_of_none s a hg]
    show s.bbHeap.length ≤ (s.bbHeap ++ [BasicBlock.new a]).length
    simp

theorem CreateBasicBlock_lookup (s : CPU) (a : Nat) :
    (s.CreateBasicBlock a).2.GetBasicBlock a = some (s.CreateBasicBlock a).1 :=
  (registry_idempotence_aux s a).1

theorem Grows_setBB (s t : CPU) (h : s.Grows t) (p : Nat) (b x : BasicBlock)
    (hb : t.bbHeap[p]? = some b) (haddr : x.address = b.address)
    (htype : b.type = BBType.BB_TYPE_FUNCTION → x.type = BBType.BB_TYPE_FUNCTION) :
    s.Grows { t with bbHeap := t.bbHeap.set p x } := by
  refine Grows_trans s t _ h ⟨fun _ _ h => h, fun _ _ h => h, ?_, fun _ i h => ⟨i, h, rfl, rfl⟩⟩
  intro q c hc
  by_cases hq : p = q
  · subst hq
    have : c = b := Option.some.inj (hc.symm.trans hb)
    subst this
    exact ⟨x, List.getElem?_set_self (getElem?_lt _ _ _ hb), haddr, htype⟩
  · exact ⟨c, by simpa [List.getElem?_set_ne hq] using hc, rfl, id⟩

theorem Extends_withInstruction (s : CPU) (ca : Nat) (code : String)
    (hnone : s.GetInstruction ca = none) : s.Extends (s.withInstruction ca code) := by
  refine ⟨fun _ _ h => h, fun k p hk => mapFind_mapAssign_of_none _ _ _ _ _ hnone hk,
    fun _ b h => ⟨b, h, rfl, rfl⟩, ?_⟩
  intro p i hi
  refine ⟨i, ?_, rfl, rfl⟩
  show (s.insHeap ++ [_])[p]? = some i
  rw [List.getElem?_append_left (getElem?_lt _ _ _ hi)]
  exact hi

theorem WF_withInstruction (s : CPU) (h : s.WF) (ca : Nat) (code : String) :
    (s.withInstruction ca code).WF := by
  obtain ⟨h1, h2, h3, h4, h5, h6, h7, h8⟩ := h
  refine ⟨h1, ?_, h3, mapAssign_sorted _ _ _ h4, h5, ?_, ?_, h8⟩
  · intro e he
    show ((s.insHeap ++ [_])[e.2]?).map Instruction.address = some e.1
    rcases mapAssign_mem _ _ _ _ he with he1 | he1
    · rw [he1]
      simp
    · have := h2 e he1
      have hlt : e.2 < s.insHeap.length := by
        cases hx : s.insHeap[e.2]? with
        | none => simp [hx] at this
        | some b => exact getElem?_lt _ _ _ hx
      rw [List.getElem?_append_left hlt]
      exact this
  · intro c hc
    show _ ∧ _ ∧ _ ∧ _ ∧ _
    simp only [CPU.withInstruction, List.length_append, List.length_singleton]
    obtain ⟨a1, a2, a3, a4, a5⟩ := h6 c hc
    exact ⟨a1, a2, fun q hq => Nat.lt_succ_of_lt (a3 q hq),
      fun q hq => Nat.lt_succ_of_lt (a4 q hq), a5⟩
  · intro c hc
    simp only [CPU.withInstruction, List.length_append, List.length_singleton]
    rcases List.mem_append.mp hc with hc1 | hc1
    · exact fun q hq => Nat.lt_succ_of_lt (h7 c hc1 q hq)
    · have hc2 := List.mem_singleton.mp hc1
      rw [hc2]
      simp

theorem withInstruction_lookup (s : CPU) (ca : Nat) (code : String) :
    (s.withInstruction ca code).GetInstruction ca = some s.insHeap.length ∧
    (∀ k, k ≠ ca → (s.withInstruction ca code).GetInstruction k = s.GetInstruction k) ∧
    (s.withInstruction ca code).insHeap[s.insHeap.length]? =
      some { address := ca, code := code, next_instruction := none } :=
  ⟨mapFind_mapAssign_self _ _ _, fun _ hk => mapFind_mapAssign_ne _ _ _ _ hk,
    List.getElem?_concat_length _ _⟩

/-- What `BasicBlockAddInstruction` does to the two arenas. -/
theorem BasicBlockAddInstruction_effect (u t : CPU) (cur q : Nat)
    (h : u.BasicBlockAddInstruction cur q = Except.ok t) :
    t.basic_blocks = u.basic_blocks ∧ t.instructions = u.instructions ∧
    t.bbHeap.length = u.bbHeap.length ∧ t.insHeap.length = u.insHeap.length ∧
    u.Appended t cur q ∧
    (∀ p, p ≠ cur → t.bbHeap[p]? = u.bbHeap[p]?) ∧
    (∀ (p : Nat) (i : Instruction), u.insHeap[p]? = some i →
      ∃ i1 : Instruction, t.insHeap[p]? = some i1 ∧ i1.address = i.address ∧ i1.code = i.code) := by
  obtain ⟨b, hb, h1 | h1⟩ := BasicBlockAddInstruction_inv u t cur q h
  · obtain ⟨hf, rfl⟩ := h1
    refine ⟨rfl, rfl, List.length_set _ _ _, rfl, ?_, ?_, fun p i hi => ⟨i, hi, rfl, rfl⟩⟩
    · refine ⟨b, _, hb, List.getElem?_set_self (getElem?_lt _ _ _ hb), rfl, ?_⟩
      rw [hf]
    · intro p hp
      exact List.getElem?_set_ne (fun h => hp h.symm)
  · obtain ⟨f, l, li, hf, hl, hli, rfl⟩ := h1
    refine ⟨rfl, rfl, List.length_set _ _ _, List.length_set _ _ _, ?_, ?_, ?_⟩
    · refine ⟨b, _, hb, List.getElem?_set_self (getElem?_lt _ _ _ hb), rfl, ?_⟩
      rw [hf]
      exact ⟨rfl, l, _, hl, List.getElem?_set_self (getElem?_lt _ _ _ hli), rfl⟩
    · intro p hp
      exact List.getElem?_set_ne (fun h => hp h.symm)
    · intro p i hi
      by_cases hp : l = p
      · subst hp
        have : i = li := Option.some.inj (hi.symm.trans hli)
        subst this
        exact ⟨_, List.getElem?_set_self (getElem?_lt _ _ _ hli), rfl, rfl⟩
      · refine ⟨i, ?_, rfl, rfl⟩
        show (u.insHeap.set l _)[p]? = some i
        rw [List.getElem?_set_ne hp]
        exact hi

theorem Appended_of_links (s u t : CPU) (p q : Nat) (b0 c0 : BasicBlock)
    (hs : s.bbHeap[p]? = some b0) (hu : u.bbHeap[p]? = some c0)
    (hf : c0.first_instruction = b0.first_instruction)
    (hl : c0.last_instruction = b0.last_instruction) (h : u.Appended t p q) :
    s.Appended t p q := by
  obtain ⟨x0, x1, hx0, hx1, hlast, hrest⟩ := h
  have : x0 = c0 := Option.some.inj (hx0.symm.trans hu)
  subst this
  refine ⟨b0, x1, hs, hx1, hlast, ?_⟩
  rw [← hf, ← hl]
  exact hrest

/-! ## Branch and link -/

theorem TraceOnly_fields (s u : CPU) (h : s.TraceOnly u) :
    u.reg_pc = s.reg_pc ∧ u.reg_csr = s.reg_csr ∧ u.reg_elr = s.reg_elr ∧
    u.reg_ecsr = s.reg_ecsr ∧ u.impl_hint = s.impl_hint ∧ u.impl_operands = s.impl_operands ∧
    u.impl_long_imm = s.impl_long_imm ∧ u.stack = s.stack ∧
    u.current_basic_block = s.current_basic_block ∧
    u.bBranchWorkaround = s.bBranchWorkaround := by
  unfold CPU.TraceOnly at h
  refine ⟨?_, ?_, ?_, ?_, ?_, ?_, ?_, ?_, ?_, ?_⟩ <;> (rw [h])

theorem OP_B_transfer_regs (s : CPU) :
    s.OP_B_transfer.reg_pc = Register.assign 16 s.reg_pc
      (if s.impl_hint &&& H_TI ≠ 0 then (s.impl_long_imm : Int)
        else ((s.impl_operands 1).value : Int)) ∧
    s.OP_B_transfer.reg_csr =
      (if s.impl_hint &&& H_TI ≠ 0 then
        Register.assign 16 s.reg_csr ((s.impl_operands 1).value : Int)
      else s.reg_csr) := by
  unfold CPU.OP_B_transfer
  split <;> exact ⟨rfl, rfl⟩

theorem OP_B_transfer_TraceOnly (s u : CPU) (h : s.TraceOnly u) :
    u.OP_B_transfer.reg_pc = s.OP_B_transfer.reg_pc ∧
    u.OP_B_transfer.reg_csr = s.OP_B_transfer.reg_csr := by
  obtain ⟨h1, h2, _, _, h5, h6, h7, _, _, _⟩ := TraceOnly_fields s u h
  rw [(OP_B_transfer_regs u).1, (OP_B_transfer_regs u).2, (OP_B_transfer_regs s).1,
    (OP_B_transfer_regs s).2, h1, h2, h5, h6, h7]
  exact ⟨rfl, rfl⟩

/-- The state the record block of `OP_BL` leaves when there is no current block. -/
theorem recorded_call_facts (u : CPU) (bb ca : Nat) (code name : String) (b : BasicBlock)
    (hnone : u.GetInstruction ca = none) (hb : u.bbHeap[bb]? = some b) :
    u.TraceOnly { u.withInstruction ca code with
        bbHeap := u.bbHeap.set bb { b with bb_name := name } } ∧
    u.Extends { u.withInstruction ca code with
        bbHeap := u.bbHeap.set bb { b with bb_name := name } } ∧
    (u.WF → CPU.WF { u.withInstruction ca code with
        bbHeap := u.bbHeap.set bb { b with bb_name := name } }) := by
  refine ⟨rfl, ?_, ?_⟩
  · exact Extends_setBB u (u.withInstruction ca code) (Extends_withInstruction u ca code hnone)
      bb b _ hb rfl rfl
  · intro hwf
    have w1 := WF_withInstruction u hwf ca code
    obtain ⟨a1, a2, a3, a4, a5⟩ := WF_block _ w1 bb b hb
    exact WF_setBB _ w1 bb b _ hb rfl a1 a2 a3 a4 a5

theorem links_after_set (l : List BasicBlock) (bb p : Nat) (b x b0 : BasicBlock)
    (hb : l[bb]? = some b) (hp : l[p]? = some b0)
    (hf : x.first_instruction = b.first_instruction)
    (hl : x.last_instruction = b.last_instruction) :
    ∃ c0 : BasicBlock, (l.set bb x)[p]? = some c0 ∧
      c0.first_instruction = b0.first_instruction ∧
      c0.last_instruction = b0.last_instruction := by
  by_cases hq : bb = p
  · subst hq
    have : b0 = b := Option.some.inj (hp.symm.trans hb)
    subst this
    exact ⟨_, List.getElem?_set_self (getElem?_lt _ _ _ hb), hf, hl⟩
  · exact ⟨b0, by rw [List.getElem?_set_ne hq]; exact hp, rfl, rfl⟩

theorem OP_BL_record_effect (u t : CPU) (bb ca ta : Nat) (b : BasicBlock)
    (hnone : u.GetInstruction ca = none) (hb : u.bbHeap[bb]? = some b)
    (h : u.OP_BL_record bb ca ta = Except.ok t) :
    u.TraceOnly t ∧ u.Extends t ∧
    t.GetInstruction ca = some u.insHeap.length ∧
    (∀ k, k ≠ ca → t.GetInstruction k = u.GetInstruction k) ∧
    (∃ i : Instruction, t.insHeap[u.insHeap.length]? = some i ∧ i.address = ca ∧
      i.code = CPU.CreateFunctionName ta ++ "();\n") ∧
    (u.WF → t.WF) ∧
    (∀ cur, u.current_basic_block = some cur → u.Appended t cur u.insHeap.length) ∧
    (u.current_basic_block = none → u.WF →
      (∀ c ∈ t.bbHeap, c.first_instruction ≠ some u.insHeap.length ∧
        c.last_instruction ≠ some u.insHeap.length) ∧
      (∀ i ∈ t.insHeap, i.next_instruction ≠ some u.insHeap.length)) := by
  rw [OP_BL_record_eq u bb ca ta b hnone hb] at h
  obtain ⟨f1, f2, f3⟩ := recorded_call_facts u bb ca (CPU.CreateFunctionName ta ++ "();\n")
    (CPU.CreateFunctionName ta) b hnone hb
  obtain ⟨g1, g2, g3⟩ := withInstruction_lookup u ca (CPU.CreateFunctionName ta ++ "();\n")
  cases hc : u.current_basic_block with
  | none =>
    rw [hc] at h
    have ht := (Except.ok.inj h).symm
    subst ht
    refine ⟨f1, f2, g1, g2, ⟨_, g3, rfl, rfl⟩, f3, (fun cur hcur => by cases hcur), ?_⟩
    intro _ hwf
    obtain ⟨_, _, _, _, _, h6, h7, _⟩ := hwf
    constructor
    · intro c hc1
      have hc2 : c ∈ u.bbHeap.set bb { b with bb_name := CPU.CreateFunctionName ta } := hc1
      have key : ∀ x ∈ u.bbHeap, x.first_instruction ≠ some u.insHeap.length ∧
          x.last_instruction ≠ some u.insHeap.length := by
        intro x hx
        obtain ⟨_, _, a3, a4, _⟩ := h6 x hx
        constructor
        · intro hh
          exact absurd (a3 _ (by simp [hh])) (lt_irrefl _)
        · intro hh
          exact absurd (a4 _ (by simp [hh])) (lt_irrefl _)
      rcases List.mem_or_eq_of_mem_set hc2 with hc3 | hc3
      · exact key c hc3
      · rw [hc3]
        exact key b (List.getElem?_mem hb)
    · intro i hi
      have hi2 : i ∈ (u.withInstruction ca (CPU.CreateFunctionName ta ++ "();\n")).insHeap := hi
      unfold CPU.withInstruction at hi2
      rcases List.mem_append.mp hi2 with hi3 | hi3
      · intro hh
        exact absurd (h7 i hi3 _ (by simp [hh])) (lt_irrefl _)
      · rw [List.mem_singleton.mp hi3]
        simp
  | some cur =>
    rw [hc] at h
    simp only [] at h
    obtain ⟨e1, e2, e3, e4, e5, e6, e7⟩ := BasicBlockAddInstruction_effect _ t cur _ h
    have hx := Extends_BasicBlockAddInstruction _ t cur _ h
    refine ⟨TraceOnly_trans _ _ _ f1 (TraceOnly_BasicBlockAddInstruction _ t cur _ h),
      Extends_trans _ _ _ f2 hx, ?_, ?_, ?_, ?_, ?_, (fun hcn => by cases hcn)⟩
    · show mapFind t.instructions ca = _
      rw [e2]
      exact g1
    · intro k hk
      show mapFind t.instructions k = _
      rw [e2]
      exact g2 k hk
    · obtain ⟨i1, hi1, ha, hcd⟩ := e7 _ _ g3
      exact ⟨i1, hi1, ha, hcd⟩
    · intro hwf
      refine WF_BasicBlockAddInstruction _ t (f3 hwf) cur _ ?_ h
      show u.insHeap.length < (u.insHeap ++ [_]).length
      simp
    · intro cur2 hcur2
      have : cur2 = cur := (Option.some.inj hcur2).symm
      subst this
      obtain ⟨x0, x1, hx0, hx1, hrest⟩ := e5
      have hlt : cur2 < u.bbHeap.length := by
        have := getElem?_lt _ _ _ hx0
        simpa [List.length_set] using this
      obtain ⟨b0, hb0⟩ := getElem?_of_lt u.bbHeap cur2 hlt
      obtain ⟨c0, hc0, l1, l2⟩ := links_after_set u.bbHeap bb cur2 b
        { b with bb_name := CPU.CreateFunctionName ta } b0 hb hb0 rfl rfl
      exact Appended_of_links u _ t cur2 _ b0 c0 hb0 hc0 l1 l2 ⟨x0, x1, hx0, hx1, hrest⟩

theorem OP_BL_decompose (s t : CPU) (h : s.OP_BL = Except.ok t) :
    ∃ bA s5,
      (s.CreateBasicBlock s.OP_BL_targetAddress).2.bbHeap[
        (s.CreateBasicBlock s.OP_BL_targetAddress).1]? = some bA ∧
      (match s.GetInstruction (s.instructionAddress 4) with
        | some _ =>
          s5 = { (s.CreateBasicBlock s.OP_BL_targetAddress).2 with
            bbHeap := (s.CreateBasicBlock s.OP_BL_targetAddress).2.bbHeap.set
              (s.CreateBasicBlock s.OP_BL_targetAddress).1
              { bA with type := BBType.BB_TYPE_FUNCTION } }
        | none =>
          CPU.OP_BL_record
            { (s.CreateBasicBlock s.OP_BL_targetAddress).2 with
              bbHeap := (s.CreateBasicBlock s.OP_BL_targetAddress).2.bbHeap.set
                (s.CreateBasicBlock s.OP_BL_targetAddress).1
                { bA with type := BBType.BB_TYPE_FUNCTION } }
            (s.CreateBasicBlock s.OP_BL_targetAddress).1 (s.instructionAddress 4)
            s.OP_BL_targetAddress = Except.ok s5) ∧
      s5.OP_BL_link (s.CreateBasicBlock s.OP_BL_targetAddress).1 = Except.ok t := by
  unfold CPU.OP_BL at h
  simp only [] at h
  obtain ⟨s2, hs2, h2⟩ := (bind_eq_ok _ _ _).mp h
  obtain ⟨s5, hs5, h3⟩ := (bind_eq_ok _ _ _).mp h2
  obtain ⟨bA, hbA, rfl⟩ := modifyBasicBlock_inv _ _ _ _ hs2
  refine ⟨bA, s5, hbA, ?_, h3⟩
  have hget : CPU.GetInstruction
      { (s.CreateBasicBlock s.OP_BL_targetAddress).2 with
        bbHeap := (s.CreateBasicBlock s.OP_BL_targetAddress).2.bbHeap.set
          (s.CreateBasicBlock s.OP_BL_targetAddress).1
          { bA with type := BBType.BB_TYPE_FUNCTION } } (s.instructionAddress 4)
      = s.GetInstruction (s.instructionAddress 4) := by
    show mapFind (s.CreateBasicBlock s.OP_BL_targetAddress).2.instructions _ = _
    rw [(CreateBasicBlock_instructions s _).1]
    rfl
  rw [hget] at hs5
  cases hg : s.GetInstruction (s.instructionAddress 4) with
  | some q =>
    rw [hg] at hs5
    exact (Except.ok.inj hs5).symm
  | none =>
    rw [hg] at hs5
    exact hs5


theorem Appended_congr (s t v : CPU) (p q : Nat) (h1 : v.bbHeap = t.bbHeap)
    (h2 : v.insHeap = t.insHeap) (h : s.Appended t p q) : s.Appended v p q := by
  unfold CPU.Appended at *
  rw [h1, h2]
  exact h

/-- What a completed `OP_BL` has done. -/
theorem OP_BL_effect (s t : CPU) (h : s.OP_BL = Except.ok t) :
    s.Grows t ∧
    t.stack = s.stack ++
      [{ lr_pushed := false, lr_push_address := 0,
         new_csr := Register.read 16 s.OP_B_transfer.reg_csr,
         new_pc := Register.read 16 s.OP_B_transfer.reg_pc }] ∧
    t.reg_elr = Function.update s.reg_elr 0 s.reg_pc ∧
    t.reg_ecsr = Function.update s.reg_ecsr 0 s.reg_csr ∧
    t.reg_pc = s.OP_B_transfer.reg_pc ∧ t.reg_csr = s.OP_B_transfer.reg_csr ∧
    (∃ (pA : Nat) (bA : BasicBlock), t.current_basic_block = some pA ∧
      t.GetBasicBlock s.OP_BL_targetAddress = some pA ∧ t.bbHeap[pA]? = some bA ∧
      bA.type = BBType.BB_TYPE_FUNCTION ∧ (s.WF → bA.address = s.OP_BL_targetAddress)) ∧
    (s.WF → t.WF) ∧
    (s.GetInstruction (s.instructionAddress 4) = none →
      t.GetInstruction (s.instructionAddress 4) = some s.insHeap.length ∧
      (∀ k, k ≠ s.instructionAddress 4 → t.GetInstruction k = s.GetInstruction k) ∧
      (∃ i : Instruction, t.insHeap[s.insHeap.length]? = some i ∧
        i.address = s.instructionAddress 4 ∧
        i.code = CPU.CreateFunctionName s.OP_BL_targetAddress ++ "();\n") ∧
      (∀ cur, s.current_basic_block = some cur → s.WF → s.Appended t cur s.insHeap.length) ∧
      (s.current_basic_block = none → s.WF →
        (∀ c ∈ t.bbHeap, c.first_instruction ≠ some s.insHeap.length ∧
          c.last_instruction ≠ some s.insHeap.length) ∧
        (∀ i ∈ t.insHeap, i.next_instruction ≠ some s.insHeap.length))) := by
  obtain ⟨bA, s5, hbA, hrec, hlink⟩ := OP_BL_decompose s t h
  have e1 := Extends_CreateBasicBlock s s.OP_BL_targetAddress
  have tr1 := TraceOnly_CreateBasicBlock s s.OP_BL_targetAddress
  obtain ⟨hi1, hi2⟩ := CreateBasicBlock_instructions s s.OP_BL_targetAddress
  have hlook := CreateBasicBlock_lookup s s.OP_BL_targetAddress
  have wfr := fun hwf => WF_CreateBasicBlock s hwf s.OP_BL_targetAddress
  have hget := fun p b hp => CreateBasicBlock_getElem? s s.OP_BL_targetAddress p b hp
  generalize s.CreateBasicBlock s.OP_BL_targetAddress = r at *
  have hpA : r.1 < r.2.bbHeap.length := getElem?_lt _ _ _ hbA
  -- the state after `MakeBasicBlockFunction`
  have g2 : s.Grows
      { r.2 with
        bbHeap := r.2.bbHeap.set r.1 { bA with type := BBType.BB_TYPE_FUNCTION } } :=
    Grows_setBB s r.2 (Extends_Grows s r.2 e1) r.1 bA _ hbA rfl (fun _ => rfl)
  have tr2 : s.TraceOnly
      { r.2 with
        bbHeap := r.2.bbHeap.set r.1 { bA with type := BBType.BB_TYPE_FUNCTION } } :=
    TraceOnly_trans s r.2 _ tr1 rfl
  have hb2 : (
      { r.2 with
        bbHeap := r.2.bbHeap.set r.1 { bA with type := BBType.BB_TYPE_FUNCTION } } : CPU).bbHeap[r.1]?
      = some { bA with type := BBType.BB_TYPE_FUNCTION } := List.getElem?_set_self hpA
  have wf2 : s.WF → CPU.WF
      { r.2 with
        bbHeap := r.2.bbHeap.set r.1 { bA with type := BBType.BB_TYPE_FUNCTION } } := by
    intro hwf
    obtain ⟨a1, a2, a3, a4, a5⟩ := WF_block r.2 (wfr hwf) r.1 bA hbA
    exact WF_setBB r.2 (wfr hwf) r.1 bA _ hbA rfl a1 a2 a3 a4 a5
  have haddr : s.WF → bA.address = s.OP_BL_targetAddress := by
    intro hwf
    obtain ⟨b, hb, hba⟩ := WF_bb_lookup r.2 (wfr hwf) _ _ hlook
    have : b = bA := Option.some.inj (hb.symm.trans hbA)
    rw [← this]
    exact hba
  rw [OP_BL_link_eq] at hlink
  have ht := (Except.ok.inj hlink).symm
  -- facts that hold of `s5` whichever way the record block went
  have key : s.Grows s5 ∧ s.TraceOnly s5 ∧ (s.WF → s5.WF) ∧
      s5.GetBasicBlock s.OP_BL_targetAddress = some r.1 ∧
      (∃ b5 : BasicBlock, s5.bbHeap[r.1]? = some b5 ∧ b5.type = BBType.BB_TYPE_FUNCTION ∧
        b5.address = bA.address) := by
    cases hg : s.GetInstruction (s.instructionAddress 4) with
    | some q =>
      rw [hg] at hrec
      simp only [] at hrec
      subst hrec
      exact ⟨g2, tr2, wf2, hlook, _, hb2, rfl, rfl⟩
    | none =>
      rw [hg] at hrec
      simp only [] at hrec
      have hnone2 : CPU.GetInstruction
          { r.2 with
            bbHeap := r.2.bbHeap.set r.1 { bA with type := BBType.BB_TYPE_FUNCTION } } (s.instructionAddress 4) = none := by
        show mapFind r.2.instructions _ = none
        rw [hi1]
        exact hg
      obtain ⟨f1, f2, _, _, _, f6, _, _⟩ := OP_BL_record_effect _ s5 r.1 _ _ _ hnone2 hb2 hrec
      refine ⟨Grows_trans _ _ _ g2 (Extends_Grows _ _ f2), TraceOnly_trans _ _ _ tr2 f1,
        fun hwf => f6 (wf2 hwf), f2.1 _ _ hlook, ?_⟩
      obtain ⟨b5, hb5, hb5a, hb5t⟩ := f2.2.2.1 _ _ hb2
      exact ⟨b5, hb5, hb5t, hb5a⟩
  obtain ⟨k1, k2, k3, k4, b5, hb5, hb5t, hb5a⟩ := key
  obtain ⟨r1, r2, r3, r4, _, _, _, r8, _, _⟩ := TraceOnly_fields s s5 k2
  obtain ⟨q1, q2⟩ := OP_B_transfer_TraceOnly s s5 k2
  subst ht
  refine ⟨k1, ?_, ?_, ?_, q1, q2, ⟨r.1, b5, rfl, k4, hb5, hb5t, fun hwf => hb5a.trans (haddr hwf)⟩,
    ?_, ?_⟩
  · show s5.stack ++ _ = _
    rw [r8, q1, q2]
  · show Function.update s5.reg_elr 0 s5.reg_pc = _
    rw [r3, r1]
  · show Function.update s5.reg_ecsr 0 s5.reg_csr = _
    rw [r4, r2]
  · intro hwf
    have w5 := k3 hwf
    have hlt : r.1 < s5.bbHeap.length := getElem?_lt _ _ _ hb5
    exact WF_congr { s5 with current_basic_block := some r.1 } _ rfl rfl rfl rfl rfl
      (WF_flag s5 w5).symm (WF_setCurrent s5 w5 r.1 hlt)
  · intro hg
    rw [hg] at hrec
    simp only [] at hrec
    have hnone2 : CPU.GetInstruction
        { r.2 with
          bbHeap := r.2.bbHeap.set r.1 { bA with type := BBType.BB_TYPE_FUNCTION } } (s.instructionAddress 4) = none := by
      show mapFind r.2.instructions _ = none
      rw [hi1]
      exact hg
    obtain ⟨f1, f2, f3, f4, f5, f6, f7, f8⟩ :=
      OP_BL_record_effect _ s5 r.1 _ _ _ hnone2 hb2 hrec
    have hlen : (
        { r.2 with
          bbHeap := r.2.bbHeap.set r.1 { bA with type := BBType.BB_TYPE_FUNCTION } } : CPU).insHeap.length
        = s.insHeap.length := congrArg List.length hi2
    rw [hlen] at f3 f5 f7 f8
    have hcur2 : (
        { r.2 with
          bbHeap := r.2.bbHeap.set r.1 { bA with type := BBType.BB_TYPE_FUNCTION } } : CPU).current_basic_block
        = s.current_basic_block := (TraceOnly_fields s _ tr2).2.2.2.2.2.2.2.2.1
    refine ⟨f3, ?_, f5, ?_, ?_⟩
    · intro k hk
      refine (f4 k hk).trans ?_
      show mapFind r.2.instructions k = _
      rw [hi1]
      rfl
    · intro cur hcur hwf
      have ha := f7 cur (hcur2.trans hcur)
      obtain ⟨b0, hb0⟩ := getElem?_of_lt s.bbHeap cur (WF_current_lt s hwf cur hcur)
      obtain ⟨c0, hc0, l1, l2⟩ := links_after_set r.2.bbHeap r.1 cur bA
        { bA with type := BBType.BB_TYPE_FUNCTION } b0 hbA (hget cur b0 hb0) rfl rfl
      exact Appended_congr s s5 _ cur _ rfl rfl
        (Appended_of_links s _ s5 cur _ b0 c0 hb0 hc0 l1 l2 ha)
    · intro hcur hwf
      exact f8 (hcur2.trans hcur) (wf2 hwf)

theorem bind_ok_exists {α β : Type} (x : Except Fault α) (f : α → Except Fault β)
    (hx : ∃ a, x = Except.ok a) (hf : ∀ a, ∃ t, f a = Except.ok t) :
    ∃ t, (x >>= f) = Except.ok t := by
  obtain ⟨a, ha⟩ := hx
  rw [bind_of_ok x f a ha]
  exact hf a

/-- From a well-formed state `OP_BL` completes. -/
theorem OP_BL_ok (s : CPU) (hwf : s.WF) : ∃ t, s.OP_BL = Except.ok t := by
  have hlook := CreateBasicBlock_lookup s s.OP_BL_targetAddress
  have wfr := WF_CreateBasicBlock s hwf s.OP_BL_targetAddress
  unfold CPU.OP_BL
  simp only []
  generalize s.CreateBasicBlock s.OP_BL_targetAddress = r at *
  obtain ⟨bA, hbA, _⟩ := WF_bb_lookup r.2 wfr _ _ hlook
  have hpA : r.1 < r.2.bbHeap.length := getElem?_lt _ _ _ hbA
  unfold CPU.MakeBasicBlockFunction
  rw [bind_of_ok _ _ _ (modifyBasicBlock_ok r.2 r.1 _ bA hbA)]
  have wf2 : CPU.WF
      { r.2 with
        bbHeap := r.2.bbHeap.set r.1 { bA with type := BBType.BB_TYPE_FUNCTION } } := by
    obtain ⟨a1, a2, a3, a4, a5⟩ := WF_block r.2 wfr r.1 bA hbA
    exact WF_setBB r.2 wfr r.1 bA _ hbA rfl a1 a2 a3 a4 a5
  have hb2 : (
      { r.2 with
        bbHeap := r.2.bbHeap.set r.1 { bA with type := BBType.BB_TYPE_FUNCTION } } :
        CPU).bbHeap[r.1]?
      = some { bA with type := BBType.BB_TYPE_FUNCTION } := List.getElem?_set_self hpA
  apply bind_ok_exists
  · split
    · exact ⟨_, rfl⟩
    · rename_i hnone
      rw [OP_BL_record_eq _ r.1 _ _ _ hnone hb2]
      split
      · exact ⟨_, rfl⟩
      · rename_i cur hcur
        have hcur2 := WF_current_lt _ wf2 cur hcur
        obtain ⟨_, _, w4⟩ := recorded_call_facts _ r.1 (s.instructionAddress 4)
          (CPU.CreateFunctionName s.OP_BL_targetAddress ++ "();\n")
          (CPU.CreateFunctionName s.OP_BL_targetAddress) _ hnone hb2
        refine BasicBlockAddInstruction_ok _ (w4 wf2) cur _ ?_
        simpa [List.length_set] using hcur2
  · intro s5
    exact ⟨_, OP_BL_link_eq s5 r.1⟩

/-! ## Return -/

theorem OP_RT_return_eq (s : CPU) :
    s.OP_RT_return =
      { (s.CreateBasicBlock s.linkAddress).2 with
        current_basic_block := some (s.CreateBasicBlock s.linkAddress).1
        stack := if s.stack.isEmpty then s.stack else s.stack.dropLast
        reg_csr := s.reg_lcsr
        reg_pc := s.reg_lr } := by
  obtain ⟨_, h2, h3, h4, _, _, _, h8, _, _⟩ :=
    TraceOnly_fields s _ (TraceOnly_CreateBasicBlock s s.linkAddress)
  unfold CPU.OP_RT_return
  simp only [CPU.reg_lcsr, CPU.reg_lr, h3, h4, h8]

theorem OP_RT_return_facts (s : CPU) :
    s.Extends s.OP_RT_return ∧ (s.WF → s.OP_RT_return.WF) ∧
    s.OP_RT_return.GetBasicBlock s.linkAddress = s.OP_RT_return.current_basic_block ∧
    (∃ p, s.OP_RT_return.current_basic_block = some p) ∧
    s.OP_RT_return.instructions = s.instructions ∧ s.OP_RT_return.insHeap = s.insHeap ∧
    (∀ (p : Nat) (b : BasicBlock), s.bbHeap[p]? = some b → s.OP_RT_return.bbHeap[p]? = some b) := by
  rw [OP_RT_return_eq]
  have e1 := Extends_CreateBasicBlock s s.linkAddress
  have hlook := CreateBasicBlock_lookup s s.linkAddress
  obtain ⟨hi1, hi2⟩ := CreateBasicBlock_instructions s s.linkAddress
  have hget := fun p b hp => CreateBasicBlock_getElem? s s.linkAddress p b hp
  have wfr := fun hwf => WF_CreateBasicBlock s hwf s.linkAddress
  generalize s.CreateBasicBlock s.linkAddress = r at *
  refine ⟨e1, ?_, hlook, ⟨_, rfl⟩, hi1, hi2, hget⟩
  intro hwf
  obtain ⟨b, hb, _⟩ := WF_bb_lookup r.2 (wfr hwf) _ _ hlook
  exact WF_congr { r.2 with current_basic_block := some r.1 } _ rfl rfl rfl rfl rfl rfl
    (WF_setCurrent r.2 (wfr hwf) r.1 (getElem?_lt _ _ _ hb))

theorem OP_RT_decompose (s t : CPU) (h : s.OP_RT = Except.ok t) :
    ∃ s3, t = s3.OP_RT_return ∧
      match s.GetInstruction (s.instructionAddress 2) with
      | some _ => s3 = s
      | none => s.OP_RT_record (s.instructionAddress 2) = Except.ok s3 := by
  unfold CPU.OP_RT at h
  simp only [] at h
  obtain ⟨s3, hs3, h3⟩ := (bind_eq_ok _ _ _).mp h
  refine ⟨s3, (Except.ok.inj h3).symm, ?_⟩
  cases hg : s.GetInstruction (s.instructionAddress 2) with
  | some q =>
    rw [hg] at hs3
    exact (Except.ok.inj hs3).symm
  | none =>
    rw [hg] at hs3
    exact hs3

theorem OP_RT_record_effect (u t : CPU) (ca : Nat) (hnone : u.GetInstruction ca = none)
    (h : u.OP_RT_record ca = Except.ok t) :
    u.TraceOnly t ∧ u.Extends t ∧
    t.GetInstruction ca = some u.insHeap.length ∧
    (∀ k, k ≠ ca → t.GetInstruction k = u.GetInstruction k) ∧
    (∃ i : Instruction, t.insHeap[u.insHeap.length]? = some i ∧ i.address = ca ∧
      i.code = "return;\n") ∧
    (u.WF → t.WF) ∧
    (∃ cur, u.current_basic_block = some cur ∧ u.Appended t cur u.insHeap.length) := by
  rw [OP_RT_record_eq u ca hnone] at h
  obtain ⟨g1, g2, g3⟩ := withInstruction_lookup u ca "return;\n"
  cases hc : u.current_basic_block with
  | none =>
    rw [hc] at h
    cases h
  | some cur =>
    rw [hc] at h
    simp only [] at h
    obtain ⟨e1, e2, e3, e4, e5, e6, e7⟩ := BasicBlockAddInstruction_effect _ t cur _ h
    have hx := Extends_BasicBlockAddInstruction _ t cur _ h
    refine ⟨TraceOnly_trans _ _ _ (rfl : u.TraceOnly (u.withInstruction ca "return;\n"))
        (TraceOnly_BasicBlockAddInstruction _ t cur _ h),
      Extends_trans _ _ _ (Extends_withInstruction u ca _ hnone) hx, ?_, ?_, ?_, ?_, ?_⟩
    · show mapFind t.instructions ca = _
      rw [e2]
      exact g1
    · intro k hk
      show mapFind t.instructions k = _
      rw [e2]
      exact g2 k hk
    · obtain ⟨i1, hi1, ha, hcd⟩ := e7 _ _ g3
      exact ⟨i1, hi1, ha, hcd⟩
    · intro hwf
      refine WF_BasicBlockAddInstruction _ t (WF_withInstruction u hwf ca _) cur _ ?_ h
      show u.insHeap.length < (u.insHeap ++ [_]).length
      simp
    · exact ⟨cur, rfl, e5⟩

theorem OP_RT_return_regs (s : CPU) :
    s.OP_RT_return.stack = (if s.stack.isEmpty then s.stack else s.stack.dropLast) ∧
    s.OP_RT_return.reg_pc = s.reg_lr ∧ s.OP_RT_return.reg_csr = s.reg_lcsr ∧
    s.OP_RT_return.reg_elr = s.reg_elr ∧ s.OP_RT_return.reg_ecsr = s.reg_ecsr ∧
    s.OP_RT_return.bBranchWorkaround = s.bBranchWorkaround := by
  obtain ⟨_, _, h3, h4, _, _, _, _, _, h10⟩ :=
    TraceOnly_fields s _ (TraceOnly_CreateBasicBlock s s.linkAddress)
  rw [OP_RT_return_eq]
  exact ⟨rfl, rfl, rfl, h3, h4, h10⟩

theorem Appended_mono (s u t : CPU) (p q : Nat)
    (hbb : ∀ (x : Nat) (b : BasicBlock), u.bbHeap[x]? = some b → t.bbHeap[x]? = some b)
    (hins : t.insHeap = u.insHeap) (h : s.Appended u p q) : s.Appended t p q := by
  obtain ⟨b0, b1, h0, h1, h2, h3⟩ := h
  refine ⟨b0, b1, h0, hbb p b1 h1, h2, ?_⟩
  rw [hins]
  exact h3

/-- What a completed `OP_RT` has done. -/
theorem OP_RT_effect (s t : CPU) (h : s.OP_RT = Except.ok t) :
    s.Extends t ∧
    t.stack = (if s.stack.isEmpty then s.stack else s.stack.dropLast) ∧
    t.reg_pc = s.reg_lr ∧ t.reg_csr = s.reg_lcsr ∧
    t.reg_elr = s.reg_elr ∧ t.reg_ecsr = s.reg_ecsr ∧
    t.bBranchWorkaround = s.bBranchWorkaround ∧
    (∃ p : Nat, t.current_basic_block = some p ∧ t.GetBasicBlock s.linkAddress = some p ∧
      (s.WF → ∃ b : BasicBlock, t.bbHeap[p]? = some b ∧ b.address = s.linkAddress)) ∧
    (s.WF → t.WF) ∧
    (s.GetInstruction (s.instructionAddress 2) = none →
      t.GetInstruction (s.instructionAddress 2) = some s.insHeap.length ∧
      (∀ k, k ≠ s.instructionAddress 2 → t.GetInstruction k = s.GetInstruction k) ∧
      (∃ i : Instruction, t.insHeap[s.insHeap.length]? = some i ∧
        i.address = s.instructionAddress 2 ∧ i.code = "return;\n") ∧
      (∃ cur, s.current_basic_block = some cur ∧ s.Appended t cur s.insHeap.length)) := by
  obtain ⟨s3, rfl, hm⟩ := OP_RT_decompose s t h
  have key : s.Extends s3 ∧ s.TraceOnly s3 ∧ (s.WF → s3.WF) := by
    cases hg : s.GetInstruction (s.instructionAddress 2) with
    | some q =>
      rw [hg] at hm
      simp only [] at hm
      subst hm
      exact ⟨Extends_refl _, TraceOnly_refl _, id⟩
    | none =>
      rw [hg] at hm
      simp only [] at hm
      obtain ⟨f1, f2, _, _, _, f6, _⟩ := OP_RT_record_effect s s3 _ hg hm
      exact ⟨f2, f1, f6⟩
  obtain ⟨k1, k2, k3⟩ := key
  obtain ⟨_, _, r3, r4, _, _, _, r8, _, r10⟩ := TraceOnly_fields s s3 k2
  obtain ⟨q1, q2, q3, q4, q5, q6⟩ := OP_RT_return_regs s3
  obtain ⟨p1, p2, p3, ⟨pc, p4⟩, p5, p6, p7⟩ := OP_RT_return_facts s3
  have hlink : s3.linkAddress = s.linkAddress := by
    unfold CPU.linkAddress CPU.reg_lcsr CPU.reg_lr
    rw [r3, r4]
  refine ⟨Extends_trans _ _ _ k1 p1, ?_, ?_, ?_, q4.trans r3, q5.trans r4, q6.trans r10,
    ⟨pc, p4, ?_, ?_⟩, fun hwf => p2 (k3 hwf), ?_⟩
  · rw [q1, r8]
  · rw [q2]
    unfold CPU.reg_lr
    rw [r3]
  · rw [q3]
    unfold CPU.reg_lcsr
    rw [r4]
  · rw [← hlink, p3, p4]
  · intro hwf
    have w := p2 (k3 hwf)
    have hl : s3.OP_RT_return.GetBasicBlock s.linkAddress = some pc := by
      rw [← hlink, p3, p4]
    exact WF_bb_lookup _ w _ _ hl
  · intro hg
    rw [hg] at hm
    simp only [] at hm
    obtain ⟨f1, f2, f3, f4, f5, f6, cur, f7, f8⟩ := OP_RT_record_effect s s3 _ hg hm
    refine ⟨?_, ?_, ?_, cur, f7, Appended_mono s s3 _ cur _ p7 p6 f8⟩
    · show mapFind s3.OP_RT_return.instructions _ = _
      rw [p5]
      exact f3
    · intro k hk
      show mapFind s3.OP_RT_return.instructions _ = _
      rw [p5]
      exact f4 k hk
    · rw [p6]
      exact f5

/-- From a well-formed state with a current block, or at an instruction
already registered, `OP_RT` completes. -/
theorem OP_RT_ok (s : CPU) (hwf : s.WF)
    (h : s.current_basic_block ≠ none ∨ s.GetInstruction (s.instructionAddress 2) ≠ none) :
    ∃ t, s.OP_RT = Except.ok t := by
  unfold CPU.OP_RT
  simp only []
  apply bind_ok_exists
  · split
    · exact ⟨_, rfl⟩
    · rename_i hnone
      rw [OP_RT_record_eq s _ hnone]
      split
      · rename_i hcur
        rcases h with h | h
        · exact absurd hcur h
        · exact absurd hnone h
      · rename_i cur hcur
        refine BasicBlockAddInstruction_ok _ (WF_withInstruction s hwf _ _) cur _ ?_
        exact WF_current_lt s hwf cur hcur
  · intro s3
    exact ⟨_, rfl⟩

/-- Without a current block, at an instruction not yet registered, `OP_RT`
stops at its assertion. -/
theorem OP_RT_assert (s : CPU) (hnone : s.GetInstruction (s.instructionAddress 2) = none)
    (hcur : s.current_basic_block = none) : s.OP_RT = Except.error Fault.assertion := by
  unfold CPU.OP_RT
  simp only [hnone]
  rw [OP_RT_record_eq s _ hnone, hcur]
  rfl

/-! ## Branch -/

theorem OP_B_record_effect (u t : CPU) (bb ca : Nat) (b : BasicBlock)
    (hnone : u.GetInstruction ca = none) (hb : u.bbHeap[bb]? = some b)
    (h : u.OP_B_record bb ca = Except.ok t) : u.TraceOnly t ∧ u.Extends t := by
  rw [OP_B_record_eq u bb ca b hnone hb] at h
  cases hc : u.current_basic_block with
  | none =>
    rw [hc] at h
    cases h
  | some cur =>
    rw [hc] at h
    simp only [] at h
    obtain ⟨s6, h6, h7⟩ := (bind_eq_ok _ _ _).mp h
    exact ⟨TraceOnly_trans _ _ _
        (TraceOnly_trans _ _ _ (rfl : u.TraceOnly (u.withInstruction ca _))
          (TraceOnly_BasicBlockAddInstruction _ s6 cur _ h6))
        (TraceOnly_BasicBlockAppendBasicBlock s6 t cur bb h7),
      Extends_trans _ _ _
        (Extends_trans _ _ _ (Extends_withInstruction u ca _ hnone)
          (Extends_BasicBlockAddInstruction _ s6 cur _ h6))
        (Extends_BasicBlockAppendBasicBlock s6 t cur bb h7)⟩

theorem OP_B_trace_decompose (u t : CPU) (ca : Nat) (h : u.OP_B_trace ca = Except.ok t) :
    ∃ bN s7,
      (u.CreateBasicBlock u.location).2.bbHeap[(u.CreateBasicBlock u.location).1]? = some bN ∧
      (match u.GetInstruction ca with
        | some _ =>
          s7 = { (u.CreateBasicBlock u.location).2 with
            bbHeap := (u.CreateBasicBlock u.location).2.bbHeap.set
              (u.CreateBasicBlock u.location).1
              { bN with bb_name := CPU.CreateLabelName u.location } }
        | none =>
          CPU.OP_B_record
            { (u.CreateBasicBlock u.location).2 with
              bbHeap := (u.CreateBasicBlock u.location).2.bbHeap.set
                (u.CreateBasicBlock u.location).1
                { bN with bb_name := CPU.CreateLabelName u.location } }
            (u.CreateBasicBlock u.location).1 ca = Except.ok s7) ∧
      t = { s7 with current_basic_block := some (u.CreateBasicBlock u.location).1 } := by
  unfold CPU.OP_B_trace at h
  simp only [] at h
  obtain ⟨s3, hs3, h2⟩ := (bind_eq_ok _ _ _).mp h
  obtain ⟨s7, hs7, h3⟩ := (bind_eq_ok _ _ _).mp h2
  obtain ⟨bN, hbN, rfl⟩ := modifyBasicBlock_inv _ _ _ _ hs3
  refine ⟨bN, s7, hbN, ?_, (Except.ok.inj h3).symm⟩
  have hget : CPU.GetInstruction
      { (u.CreateBasicBlock u.location).2 with
        bbHeap := (u.CreateBasicBlock u.location).2.bbHeap.set
          (u.CreateBasicBlock u.location).1
          { bN with bb_name := CPU.CreateLabelName u.location } } ca
      = u.GetInstruction ca := by
    show mapFind (u.CreateBasicBlock u.location).2.instructions _ = _
    rw [(CreateBasicBlock_instructions u _).1]
    rfl
  rw [hget] at hs7
  cases hg : u.GetInstruction ca with
  | some q =>
    rw [hg] at hs7
    exact (Except.ok.inj hs7).symm
  | none =>
    rw [hg] at hs7
    exact hs7

/-- What a completed block `if (!bBranchWorkaround) { ... }` of `OP_B` has done. -/
theorem OP_B_trace_effect (u t : CPU) (ca : Nat) (h : u.OP_B_trace ca = Except.ok t) :
    u.Extends t ∧ t.reg_pc = u.reg_pc ∧ t.reg_csr = u.reg_csr ∧
    ∃ (p : Nat) (b : BasicBlock), t.current_basic_block = some p ∧
      t.GetBasicBlock u.location = some p ∧ t.bbHeap[p]? = some b ∧
      (u.GetBasicBlock u.location = none →
        b.type = BBType.BB_TYPE_BRANCH ∧ b.address = u.location) := by
  obtain ⟨bN, s7, hbN, hrec, rfl⟩ := OP_B_trace_decompose u t ca h
  have e1 := Extends_CreateBasicBlock u u.location
  have tr1 := TraceOnly_CreateBasicBlock u u.location
  obtain ⟨hi1, hi2⟩ := CreateBasicBlock_instructions u u.location
  have hlook := CreateBasicBlock_lookup u u.location
  have hnew : u.GetBasicBlock u.location = none →
      (u.CreateBasicBlock u.location).2.bbHeap[(u.CreateBasicBlock u.location).1]?
        = some (BasicBlock.new u.location) := by
    intro hn
    rw [CreateBasicBlock_of_none u _ hn]
    exact List.getElem?_concat_length _ _
  generalize u.CreateBasicBlock u.location = r at *
  have hpN : r.1 < r.2.bbHeap.length := getElem?_lt _ _ _ hbN
  have e3 : u.Extends
      { r.2 with
        bbHeap := r.2.bbHeap.set r.1 { bN with bb_name := CPU.CreateLabelName u.location } } :=
    Extends_setBB u r.2 e1 r.1 bN _ hbN rfl rfl
  have tr3 : u.TraceOnly
      { r.2 with
        bbHeap := r.2.bbHeap.set r.1 { bN with bb_name := CPU.CreateLabelName u.location } } :=
    TraceOnly_trans u r.2 _ tr1 rfl
  have hb3 : (
      { r.2 with
        bbHeap := r.2.bbHeap.set r.1 { bN with bb_name := CPU.CreateLabelName u.location } } :
        CPU).bbHeap[r.1]?
      = some { bN with bb_name := CPU.CreateLabelName u.location } :=
    List.getElem?_set_self hpN
  have key : u.Extends s7 ∧ u.TraceOnly s7 ∧
      s7.GetBasicBlock u.location = some r.1 ∧
      (∃ b7 : BasicBlock, s7.bbHeap[r.1]? = some b7 ∧ b7.type = bN.type ∧
        b7.address = bN.address) := by
    cases hg : u.GetInstruction ca with
    | some q =>
      rw [hg] at hrec
      simp only [] at hrec
      subst hrec
      exact ⟨e3, tr3, hlook, _, hb3, rfl, rfl⟩
    | none =>
      rw [hg] at hrec
      simp only [] at hrec
      have hnone3 : CPU.GetInstruction
          { r.2 with
            bbHeap := r.2.bbHeap.set r.1
              { bN with bb_name := CPU.CreateLabelName u.location } } ca = none := by
        show mapFind r.2.instructions _ = none
        rw [hi1]
        exact hg
      obtain ⟨f1, f2⟩ := OP_B_record_effect _ s7 r.1 ca _ hnone3 hb3 hrec
      refine ⟨Extends_trans _ _ _ e3 f2, TraceOnly_trans _ _ _ tr3 f1, f2.1 _ _ hlook, ?_⟩
      obtain ⟨b7, hb7, hb7a, hb7t⟩ := f2.2.2.1 _ _ hb3
      exact ⟨b7, hb7, hb7t, hb7a⟩
  obtain ⟨k1, k2, k3, b7, hb7, hb7t, hb7a⟩ := key
  obtain ⟨r1, r2, _⟩ := TraceOnly_fields u s7 k2
  refine ⟨k1, r1, r2, r.1, b7, rfl, k3, hb7, ?_⟩
  intro hn
  have : bN = BasicBlock.new u.location := Option.some.inj (hbN.symm.trans (hnew hn))
  constructor
  · rw [hb7t, this]
    simp only [BasicBlock.new]
  · rw [hb7a, this]
    simp only [BasicBlock.new]

/-- Every completed `OP_B` leaves the CFG data grown, with no block changed in kind. -/
theorem OP_B_Extends (s t : CPU) (h : s.OP_B = Except.ok t) : s.Extends t := by
  unfold CPU.OP_B at h
  simp only [] at h
  have e0 : s.Extends s.OP_B_transfer := by
    rw [OP_B_transfer_eq]
    exact Extends_of_eq _ _ rfl rfl rfl rfl
  split at h
  · rw [← Except.ok.inj h]
    exact e0
  · exact Extends_trans _ _ _ e0 (OP_B_trace_effect _ t _ h).1

/-- A block that `OP_B` creates is a `Branch` block. -/
theorem OP_B_creates_branch (s t : CPU) (h : s.OP_B = Except.ok t)
    (hflag : s.bBranchWorkaround = false)
    (hnew : s.GetBasicBlock s.OP_B_transfer.location = none) :
    t.blockKind s.OP_B_transfer.location = some BBType.BB_TYPE_BRANCH := by
  unfold CPU.OP_B at h
  simp only [] at h
  have hf : s.OP_B_transfer.bBranchWorkaround = false := by
    rw [OP_B_transfer_eq]; exact hflag
  rw [hf] at h
  simp only [Bool.false_eq_true, if_false] at h
  have hnew2 : s.OP_B_transfer.GetBasicBlock s.OP_B_transfer.location = none := by
    have : s.OP_B_transfer.basic_blocks = s.basic_blocks := by
      rw [OP_B_transfer_eq]
    show mapFind s.OP_B_transfer.basic_blocks _ = none
    rw [this]
    exact hnew
  obtain ⟨_, _, _, p, b, _, hp, hb, hkind⟩ := OP_B_trace_effect _ t _ h
  unfold CPU.blockKind
  rw [hp]
  simp only [hb, Option.map_some', (hkind hnew2).1]

/-- Without a current block, at an instruction not yet registered, `OP_B`
stops at its assertion. -/
theorem OP_B_assert (s : CPU) (hwf : s.WF)
    (hnone : s.GetInstruction (s.instructionAddress 4) = none)
    (hcur : s.current_basic_block = none) : s.OP_B = Except.error Fault.assertion := by
  have hflag := WF_flag s hwf
  have hf : s.OP_B_transfer.bBranchWorkaround = false := by
    rw [OP_B_transfer_eq]; exact hflag
  have wf1 : s.OP_B_transfer.WF := by
    have : s.OP_B_transfer = { s with reg_csr := s.OP_B_transfer.reg_csr,
                                      reg_pc := s.OP_B_transfer.reg_pc } := OP_B_transfer_eq s
    rw [this]
    exact WF_congr s _ rfl rfl rfl rfl rfl rfl hwf
  have hnone1 : s.OP_B_transfer.GetInstruction (s.instructionAddress 4) = none := by
    have : s.OP_B_transfer.instructions = s.instructions := by
      rw [OP_B_transfer_eq]
    show mapFind s.OP_B_transfer.instructions _ = none
    rw [this]
    exact hnone
  have hcur1 : s.OP_B_transfer.current_basic_block = none := by
    rw [OP_B_transfer_eq]; exact hcur
  unfold CPU.OP_B
  simp only [hf, Bool.false_eq_true, if_false]
  generalize s.OP_B_transfer = u at *
  have hlook := CreateBasicBlock_lookup u u.location
  have wfr := WF_CreateBasicBlock u wf1 u.location
  obtain ⟨hi1, _⟩ := CreateBasicBlock_instructions u u.location
  have tr1 := TraceOnly_CreateBasicBlock u u.location
  unfold CPU.OP_B_trace
  simp only []
  generalize u.CreateBasicBlock u.location = r at *
  obtain ⟨bN, hbN, _⟩ := WF_bb_lookup r.2 wfr _ _ hlook
  have hpN : r.1 < r.2.bbHeap.length := getElem?_lt _ _ _ hbN
  rw [bind_of_ok _ _ _ (modifyBasicBlock_ok r.2 r.1 _ bN hbN)]
  have hnone3 : CPU.GetInstruction
      { r.2 with
        bbHeap := r.2.bbHeap.set r.1
          { bN with bb_name := CPU.CreateLabelName u.location } }
      (s.instructionAddress 4) = none := by
    show mapFind r.2.instructions _ = none
    rw [hi1]
    exact hnone1
  have hb3 : (
      { r.2 with
        bbHeap := r.2.bbHeap.set r.1 { bN with bb_name := CPU.CreateLabelName u.location } } :
        CPU).bbHeap[r.1]?
      = some { bN with bb_name := CPU.CreateLabelName u.location } :=
    List.getElem?_set_self hpN
  have hcur3 : (
      { r.2 with
        bbHeap := r.2.bbHeap.set r.1 { bN with bb_name := CPU.CreateLabelName u.location } } :
        CPU).current_basic_block = none := by
    have := (TraceOnly_fields u r.2 tr1).2.2.2.2.2.2.2.2.1
    exact this.trans hcur1
  simp only [hnone3]
  rw [OP_B_record_eq _ r.1 _ _ hnone3 hb3, hcur3]
  rfl

/-! ## Kind precedence -/

theorem blockKind_Grows (s t : CPU) (A : Nat) (h : s.Grows t)
    (hk : s.blockKind A = some BBType.BB_TYPE_FUNCTION) :
    t.blockKind A = some BBType.BB_TYPE_FUNCTION := by
  unfold CPU.blockKind at *
  cases hg : s.GetBasicBlock A with
  | none => rw [hg] at hk; cases hk
  | some p =>
    rw [hg] at hk
    simp only [] at hk
    cases hb : s.bbHeap[p]? with
    | none => rw [hb] at hk; cases hk
    | some b =>
      rw [hb] at hk
      have hty : b.type = BBType.BB_TYPE_FUNCTION := by simpa using hk
      obtain ⟨b1, hb1, _, hf⟩ := h.2.2.1 p b hb
      have hg1 : t.GetBasicBlock A = some p := h.1 A p hg
      rw [hg1]
      simp only [hb1, Option.map_some', hf hty]

theorem exec_Grows (h : Handler) (s t : CPU) (ht : h.exec s = Except.ok t) : s.Grows t := by
  cases h with
  | B => exact Extends_Grows _ _ (OP_B_Extends s t ht)
  | BL => exact (OP_BL_effect s t ht).1
  | RT => exact Extends_Grows _ _ (OP_RT_effect s t ht).1

theorem runScript_Grows (script : List (Handler × CPU)) :
    ∀ s t : CPU, runScript s script = Except.ok t → s.Grows t := by
  induction script with
  | nil =>
    intro s t h
    rw [← Except.ok.inj h]
    exact Grows_refl s
  | cons step rest ih =>
    intro s t h
    obtain ⟨hd, regs⟩ := step
    simp only [runScript] at h
    cases hs : hd.exec (regs.withTrace s) with
    | error e => rw [hs] at h; cases h
    | ok s1 =>
      rw [hs] at h
      have g1 : (regs.withTrace s).Grows s1 := exec_Grows hd _ s1 hs
      exact Grows_trans s s1 t g1 (ih s1 t h)

/-- Kinds of blocks under the handlers: a block that `OP_B` creates at `A` has
kind `Branch`; after any completed `OP_BL` whose local `targetAddress` is `A`
the block at `A` has kind `Function`; and once the block at `A` has kind
`Function` it keeps that kind through every scripted run of `OP_B`, `OP_BL`
and `OP_RT`, whatever registers and decoder outputs each handler is entered
with.  The local `targetAddress` is the place the call goes to for the
two-word form and in code segment 0, not for the one-word form elsewhere. -/
theorem kind_precedence (A : Nat) :
    (∀ s t : CPU, s.bBranchWorkaround = false → s.GetBasicBlock A = none →
      s.OP_B_transfer.location = A → s.OP_B = Except.ok t →
      t.blockKind A = some BBType.BB_TYPE_BRANCH) ∧
    (∀ s t : CPU, s.OP_BL_targetAddress = A → s.OP_BL = Except.ok t →
      t.blockKind A = some BBType.BB_TYPE_FUNCTION) ∧
    (∀ (s t : CPU) (script : List (Handler × CPU)),
      s.blockKind A = some BBType.BB_TYPE_FUNCTION → runScript s script = Except.ok t →
      t.blockKind A = some BBType.BB_TYPE_FUNCTION) := by
  refine ⟨?_, ?_, ?_⟩
  · intro s t hflag hnew hA h
    rw [← hA] at hnew ⊢
    exact OP_B_creates_branch s t h hflag hnew
  · intro s t hA h
    obtain ⟨_, _, _, _, _, _, ⟨pA, bA, _, hp, hb, hty, _⟩, _⟩ := OP_BL_effect s t h
    rw [hA] at hp
    unfold CPU.blockKind
    rw [hp]
    simp only [hb, Option.map_some', hty]
  · intro s t script hk h
    exact blockKind_Grows s t A (runScript_Grows script s t h) hk

/-- Kinds on a concrete run: a branch to 0x0200 creates a `Branch` block there, a
call to 0x0200 makes it `Function`, and it is still `Function` after a further
branch to 0x0200 and a return. -/
theorem kind_precedence_example :
    CPU.branchToExample.OP_B = Except.ok CPU.afterBranchExample ∧
    CPU.afterBranchExample.blockKind 0x0200 = some BBType.BB_TYPE_BRANCH ∧
    (CPU.callToExample.withTrace CPU.afterBranchExample).OP_BL
      = Except.ok CPU.afterCallToExample ∧
    CPU.afterCallToExample.blockKind 0x0200 = some BBType.BB_TYPE_FUNCTION ∧
    ∃ s3 : CPU,
      runScript CPU.afterCallToExample
        [(Handler.B, CPU.branchToExample), (Handler.RT, CPU.calleeExample)] = Except.ok s3 ∧
      s3.blockKind 0x0200 = some BBType.BB_TYPE_FUNCTION :=
  ⟨rfl,
    (kind_precedence 0x0200).1 CPU.branchToExample CPU.afterBranchExample rfl rfl
      (by decide) rfl,
    rfl,
    (kind_precedence 0x0200).2.1 (CPU.callToExample.withTrace CPU.afterBranchExample)
      CPU.afterCallToExample (by decide) rfl,
    CPU.outcome (runScript CPU.afterCallToExample
        [(Handler.B, CPU.branchToExample), (Handler.RT, CPU.calleeExample)]),
    rfl,
    (kind_precedence 0x0200).2.2 CPU.afterCallToExample _
      [(Handler.B, CPU.branchToExample), (Handler.RT, CPU.calleeExample)]
      ((kind_precedence 0x0200).2.1 (CPU.callToExample.withTrace CPU.afterBranchExample)
        CPU.afterCallToExample (by decide) rfl) rfl⟩

/-! ## Shadow call stack -/

theorem countHandler_cons (h : Handler) (step : Handler × CPU) (rest : List (Handler × CPU)) :
    countHandler h (step :: rest) = (if step.1 = h then 1 else 0) + countHandler h rest := by
  unfold countHandler
  by_cases hs : step.1 = h
  · simp [List.filter_cons, hs, Nat.add_comm]
  · simp [List.filter_cons, hs]

theorem withTrace_WF (regs s : CPU) (h : s.WF) : (regs.withTrace s).WF :=
  WF_congr s _ rfl rfl rfl rfl rfl rfl h

theorem runScript_calls_returns (script : List (Handler × CPU)) :
    ∀ s : CPU, s.WF → (s.current_basic_block ≠ none ∨ s.stack = []) →
      (∀ step ∈ script, step.1 = Handler.BL ∨ step.1 = Handler.RT) →
      (∀ n, countHandler Handler.RT (script.take n)
        ≤ countHandler Handler.BL (script.take n) + s.stack.length) →
      ∃ t, runScript s script = Except.ok t ∧
        t.stack.length + countHandler Handler.RT script
          = countHandler Handler.BL script + s.stack.length := by
  induction script with
  | nil =>
    intro s _ _ _ _
    exact ⟨s, rfl, by simp [countHandler]⟩
  | cons step rest ih =>
    intro s hwf hinv honly hbal
    obtain ⟨hd, regs⟩ := step
    have wfu := withTrace_WF regs s hwf
    have hrest : ∀ step ∈ rest, step.1 = Handler.BL ∨ step.1 = Handler.RT :=
      fun st hst => honly st (List.mem_cons_of_mem _ hst)
    rcases honly (hd, regs) (List.mem_cons_self _ _) with hbl | hrt
    · -- a call
      have hbl : hd = Handler.BL := hbl
      subst hbl
      obtain ⟨s1, hs1⟩ := OP_BL_ok _ wfu
      obtain ⟨_, hstack, _, _, _, _, ⟨pA, _, hcur, _⟩, hwf1, _⟩ := OP_BL_effect _ s1 hs1
      have hlen : s1.stack.length = s.stack.length + 1 := by
        rw [hstack]
        show (s.stack ++ _).length = _
        simp
      have hbal1 : ∀ n, countHandler Handler.RT (rest.take n)
          ≤ countHandler Handler.BL (rest.take n) + s1.stack.length := by
        intro n
        have := hbal (n + 1)
        simp only [List.take_succ_cons, countHandler_cons] at this
        simp only [reduceCtorEq, if_false, if_true] at this
        omega
      obtain ⟨t, ht, hcount⟩ := ih s1 (hwf1 wfu) (Or.inl (by rw [hcur]; simp)) hrest hbal1
      refine ⟨t, ?_, ?_⟩
      · simp only [runScript]
        show (match CPU.OP_BL (regs.withTrace s) with
          | Except.ok s1 => runScript s1 rest
          | Except.error e => Except.error e) = _
        rw [hs1]
        exact ht
      · simp only [countHandler_cons, reduceCtorEq, if_false, if_true]
        omega
    · -- a return
      have hrt : hd = Handler.RT := hrt
      subst hrt
      have hpos : 1 ≤ s.stack.length := by
        have := hbal 1
        simp only [List.take_succ_cons, List.take_zero, countHandler_cons] at this
        simp only [reduceCtorEq, if_false, if_true, countHandler, List.filter_nil,
          List.length_nil] at this
        omega
      have hne : s.stack ≠ [] := by
        intro h0
        rw [h0] at hpos
        simp at hpos
      have hcur0 : s.current_basic_block ≠ none := by
        rcases hinv with h | h
        · exact h
        · exact absurd h hne
      obtain ⟨s1, hs1⟩ := OP_RT_ok (regs.withTrace s) wfu (Or.inl hcur0)
      obtain ⟨_, hstack, _, _, _, _, _, ⟨p, hcur, _⟩, hwf1, _⟩ := OP_RT_effect _ s1 hs1
      have hlen : s1.stack.length + 1 = s.stack.length := by
        rw [hstack]
        show (if s.stack.isEmpty then s.stack else s.stack.dropLast).length + 1 = _
        have hemp : s.stack.isEmpty = false := by
          cases hst : s.stack with
          | nil => exact absurd hst hne
          | cons a l => rfl
        rw [hemp]
        simp only [Bool.false_eq_true, if_false, List.length_dropLast]
        omega
      have hbal1 : ∀ n, countHandler Handler.RT (rest.take n)
          ≤ countHandler Handler.BL (rest.take n) + s1.stack.length := by
        intro n
        have := hbal (n + 1)
        simp only [List.take_succ_cons, countHandler_cons] at this
        simp only [reduceCtorEq, if_false, if_true] at this
        omega
      obtain ⟨t, ht, hcount⟩ := ih s1 (hwf1 wfu) (Or.inl (by rw [hcur]; simp)) hrest hbal1
      refine ⟨t, ?_, ?_⟩
      · simp only [runScript]
        show (match CPU.OP_RT (regs.withTrace s) with
          | Except.ok s1 => runScript s1 rest
          | Except.error e => Except.error e) = _
        rw [hs1]
        exact ht
      · simp only [countHandler_cons, reduceCtorEq, if_false, if_true]
        omega

/-- C8: a completed `OP_BL` makes the shadow stack one frame longer, a
completed `OP_RT` on a non-empty shadow stack makes it one frame shorter, and
every script of `OP_BL` and `OP_RT` steps in which no prefix holds more returns
than calls, run from a well-formed state with an empty shadow stack, completes
with as many frames as calls minus returns. -/
theorem shadow_stack_depth :
    (∀ s t : CPU, s.OP_BL = Except.ok t → t.stack.length = s.stack.length + 1) ∧
    (∀ s t : CPU, s.OP_RT = Except.ok t → s.stack ≠ [] →
      t.stack.length + 1 = s.stack.length) ∧
    (∀ (s : CPU) (script : List (Handler × CPU)), s.WF → s.stack = [] →
      (∀ step ∈ script, step.1 = Handler.BL ∨ step.1 = Handler.RT) →
      (∀ n, countHandler Handler.RT (script.take n)
        ≤ countHandler Handler.BL (script.take n)) →
      ∃ t, runScript s script = Except.ok t ∧
        t.stack.length + countHandler Handler.RT script
          = countHandler Handler.BL script ∧
        (t.stack.length : Int)
          = (countHandler Handler.BL script : Int) - (countHandler Handler.RT script : Int)) := by
  refine ⟨?_, ?_, ?_⟩
  · intro s t h
    rw [(OP_BL_effect s t h).2.1]
    simp
  · intro s t h hne
    rw [(OP_RT_effect s t h).2.1]
    have hemp : s.stack.isEmpty = false := by
      cases hst : s.stack with
      | nil => exact absurd hst hne
      | cons a l => rfl
    have hpos : 1 ≤ s.stack.length := by
      cases hst : s.stack with
      | nil => exact absurd hst hne
      | cons a l => simp
    rw [hemp]
    simp only [Bool.false_eq_true, if_false, List.length_dropLast]
    omega
  · intro s script hwf hempty honly hbal
    obtain ⟨t, ht, hcount⟩ := runScript_calls_returns script s hwf (Or.inr hempty) honly
      (fun n => by rw [hempty]; simpa using hbal n)
    rw [hempty] at hcount
    simp only [List.length_nil, Nat.add_zero] at hcount
    refine ⟨t, ht, hcount, ?_⟩
    omega

/-- C8 on a concrete script: call, call, return from the fresh state leaves one frame. -/
theorem shadow_stack_depth_example :
    ∃ t, runScript CPU.fresh
        [(Handler.BL, CPU.coldCallExample), (Handler.BL, CPU.callToExample),
          (Handler.RT, CPU.calleeExample)] = Except.ok t ∧
      t.stack.length = 1 := by
  obtain ⟨t, ht, hcount, _⟩ := shadow_stack_depth.2.2 CPU.fresh
    [(Handler.BL, CPU.coldCallExample), (Handler.BL, CPU.callToExample),
      (Handler.RT, CPU.calleeExample)] (by decide) rfl (by decide)
    (by
      intro n
      match n with
      | 0 => decide
      | 1 => decide
      | 2 => decide
      | (k + 3) => (simp only [List.take_succ_cons, List.take_nil]; decide))
  refine ⟨t, ht, ?_⟩
  have h1 : countHandler Handler.RT
      [(Handler.BL, CPU.coldCallExample), (Handler.BL, CPU.callToExample),
        (Handler.RT, CPU.calleeExample)] = 1 := by decide
  have h2 : countHandler Handler.BL
      [(Handler.BL, CPU.coldCallExample), (Handler.BL, CPU.callToExample),
        (Handler.RT, CPU.calleeExample)] = 2 := by decide
  omega

/-! ## A missing current block -/

/-- C6, as the code has it: the two-word `OP_BL` to 0x1234 entered with the
program counter at 0x0100 in code segment 0, with no instruction registered at
the call site, completes; afterwards a `Function` block is registered at
0x1234, an instruction is registered at 0x00FC with text `fun_001234();` and a
line end, the link register holds 0x0100 (the program counter the handler was
entered with), and the program counter holds 0x1234. -/
theorem OP_BL_scenario (s : CPU) (hwf : s.WF) (hcsr : s.reg_csr.raw = 0)
    (hpc : s.reg_pc.raw = 0x0100) (hti : s.impl_hint &&& H_TI ≠ 0)
    (hseg : (s.impl_operands 1).value = 0) (himm : s.impl_long_imm = 0x1234)
    (hnone : s.GetInstruction 0x00FC = none) :
    ∃ t, s.OP_BL = Except.ok t ∧
      t.blockKind 0x1234 = some BBType.BB_TYPE_FUNCTION ∧
      (∃ (p : Nat) (b : BasicBlock), t.GetBasicBlock 0x1234 = some p ∧
        t.bbHeap[p]? = some b ∧ b.address = 0x1234 ∧ b.type = BBType.BB_TYPE_FUNCTION) ∧
      (∃ (q : Nat) (i : Instruction), t.GetInstruction 0x00FC = some q ∧
        t.insHeap[q]? = some i ∧ i.address = 0x00FC ∧ i.code = "fun_001234();\n") ∧
      t.reg_lr.raw = 0x0100 ∧ t.reg_lcsr.raw = 0 ∧ t.reg_pc.raw = 0x1234 := by
  have hsite : s.instructionAddress 4 = 0x00FC := by
    unfold CPU.instructionAddress CPU.segmentedAddress
    rw [hcsr, hpc]
    decide
  have htarget : s.OP_BL_targetAddress = 0x1234 := by
    unfold CPU.OP_BL_targetAddress
    rw [if_pos hti, hseg, himm]
    decide
  have hname : CPU.CreateFunctionName 0x1234 ++ "();\n" = "fun_001234();\n" := by decide
  obtain ⟨t, ht⟩ := OP_BL_ok s hwf
  obtain ⟨_, _, helr, hecsr, hpc1, _, ⟨pA, bA, _, hp, hb, hty, haddr⟩, _, hfirst⟩ :=
    OP_BL_effect s t ht
  rw [hsite, htarget] at hfirst
  rw [htarget] at hp haddr
  obtain ⟨f1, _, ⟨i, hi, hia, hic⟩, _⟩ := hfirst hnone
  refine ⟨t, ht, ?_, ⟨pA, bA, hp, hb, haddr hwf, hty⟩, ⟨_, i, f1, hi, hia, ?_⟩, ?_, ?_, ?_⟩
  · unfold CPU.blockKind
    rw [hp]
    simp only [hb, Option.map_some', hty]
  · rw [hic, hname]
  · unfold CPU.reg_lr
    rw [helr]
    simp only [Function.update_same]
    exact hpc
  · unfold CPU.reg_lcsr
    rw [hecsr]
    simp only [Function.update_same]
    exact hcsr
  · rw [hpc1, (OP_B_transfer_regs s).1, if_pos hti, himm]
    show toUInt 16 ((toUInt 16 ((0x1234 : Nat) : Int) : Nat) : Int) = 0x1234
    decide

/-- C6 at a concrete state: the call entered while a block at 0x00F0 is being filled. -/
theorem OP_BL_scenario_witness :
    CPU.callExample.WF ∧ CPU.callExample.reg_pc.raw = 0x0100 ∧
    CPU.callExample.GetInstruction 0x00FC = none ∧
    ∃ t, CPU.callExample.OP_BL = Except.ok t ∧
      t.blockKind 0x1234 = some BBType.BB_TYPE_FUNCTION ∧ t.reg_lr.raw = 0x0100 :=
  ⟨by decide, rfl, rfl,
    match OP_BL_scenario CPU.callExample (by decide) rfl rfl (by decide) rfl rfl rfl with
    | ⟨t, ht, hk, _, _, hlr, _⟩ => ⟨t, ht, hk, hlr⟩⟩

/-- C6 as stated fails: entered with the program counter at 0x0100 the call
is recorded at 0x00FC but the link register receives 0x0100, not 0x0104; and
entered with the program counter at 0x0104, where the link register does
receive 0x0104, the call is recorded at 0x0100 and nothing at 0x00FC. -/
theorem OP_BL_scenario_link_register :
    CPU.callExample.reg_pc.raw = 0x0100 ∧
    CPU.callExample.OP_BL = Except.ok CPU.afterCallExample ∧
    CPU.afterCallExample.GetInstruction 0x00FC = some 0 ∧
    CPU.afterCallExample.reg_lr.raw = 0x0100 ∧
    CPU.afterCallExample.reg_lr.raw ≠ 0x0104 ∧
    CPU.lateCallExample.reg_pc.raw = 0x0104 ∧
    CPU.lateCallExample.OP_BL = Except.ok (CPU.outcome CPU.lateCallExample.OP_BL) ∧
    (CPU.outcome CPU.lateCallExample.OP_BL).reg_lr.raw = 0x0104 ∧
    (CPU.outcome CPU.lateCallExample.OP_BL).GetInstruction 0x00FC = none ∧
    (CPU.outcome CPU.lateCallExample.OP_BL).GetInstruction 0x0100 = some 0 :=
  ⟨rfl, rfl, by decide, by decide, by decide, rfl, rfl, by decide, by decide, by decide⟩

/-! ## Rendered names and absolute addresses in closed form -/

theorem hexDigitUpper_eq (d : Nat) (h : d < 16) :
    hexDigitUpper d = (Nat.digitChar d).toUpper := by
  interval_cases d <;> rfl

theorem hexDigitsUpper_eq (f : Nat) :
    ∀ (n fuel : Nat) (acc : List Char), n < 16 ^ (f + 1) → n < fuel →
      hexDigitsUpper (f + 1) n (acc.map Char.toUpper)
        = (Nat.toDigitsCore 16 fuel n acc).map Char.toUpper := by
  induction f with
  | zero =>
    intro n fuel acc hn hfuel
    obtain ⟨g, rfl⟩ : ∃ g, fuel = g + 1 := ⟨fuel - 1, by omega⟩
    have h0 : n / 16 = 0 := by omega
    simp only [hexDigitsUpper, Nat.toDigitsCore, h0, if_true, List.map_cons]
    rw [hexDigitUpper_eq _ (Nat.mod_lt _ (by norm_num))]
  | succ f ih =>
    intro n fuel acc hn hfuel
    obtain ⟨g, rfl⟩ : ∃ g, fuel = g + 1 := ⟨fuel - 1, by omega⟩
    by_cases h0 : n / 16 = 0
    · simp only [hexDigitsUpper, Nat.toDigitsCore, h0, if_true, List.map_cons]
      rw [hexDigitUpper_eq _ (Nat.mod_lt _ (by norm_num))]
    · have h1 : hexDigitsUpper (f + 1 + 1) n (acc.map Char.toUpper)
          = hexDigitsUpper (f + 1) (n / 16) (hexDigitUpper (n % 16) :: acc.map Char.toUpper) := by
        rw [hexDigitsUpper, if_neg h0]
      have h2 : Nat.toDigitsCore 16 (g + 1) n acc
          = Nat.toDigitsCore 16 g (n / 16) (Nat.digitChar (n % 16) :: acc) := by
        rw [Nat.toDigitsCore]
        simp only [h0, if_false]
      rw [h1, h2, hexDigitUpper_eq _ (Nat.mod_lt _ (by norm_num)), ← List.map_cons]
      apply ih
      · have : 16 ^ (f + 1 + 1) = 16 * 16 ^ (f + 1) := by ring
        omega
      · omega

/-- The stream output of a `size_t` is the number in upper-case hexadecimal,
padded to six digits. -/
theorem hexUpperWidth6_eq (n : Nat) (h : n < 2 ^ 64) : hexUpperWidth6 n = upperHexPadded6 n := by
  have h1 := hexDigitsUpper_eq 15 n (n + 1) [] (by norm_num at h ⊢; exact h) (by omega)
  unfold hexUpperWidth6 upperHexPadded6 Nat.toDigits List.leftpad
  simp only [List.map_nil] at h1
  simp only []
  rw [h1]

theorem CreateFunctionName_eq (a : Nat) (h : a < 2 ^ 64) :
    CPU.CreateFunctionName a = "fun_" ++ upperHexPadded6 a := by
  unfold CPU.CreateFunctionName
  rw [hexUpperWidth6_eq a h]

theorem CreateLabelName_eq (a : Nat) (h : a < 2 ^ 64) :
    CPU.CreateLabelName a = "label_" ++ upperHexPadded6 a := by
  unfold CPU.CreateLabelName
  rw [hexUpperWidth6_eq a h]

/-- Below segment 0x8000 the `int` expression `csr.raw << 16 | pc.raw` is
`csr * 2 ^ 16 + pc`. -/
theorem segmentedAddress_eq (csr pc : RegisterStub) (hcsr : csr.raw < 2 ^ 15)
    (hpc : pc.raw < 2 ^ 16) :
    CPU.segmentedAddress csr pc = ((csr.raw * 2 ^ 16 + pc.raw : Nat) : Int) := by
  unfold CPU.segmentedAddress
  have h1 : csr.raw <<< 16 = 2 ^ 16 * csr.raw := by
    rw [Nat.shiftLeft_eq, Nat.mul_comm]
  have h2 : toInt32 ((csr.raw <<< 16 : Nat) : Int) = ((2 ^ 16 * csr.raw : Nat) : Int) := by
    rw [h1]
    unfold toInt32
    push_cast
    omega
  rw [h2]
  have h3 : Int.lor ((2 ^ 16 * csr.raw : Nat) : Int) (pc.raw : Int)
      = ((2 ^ 16 * csr.raw ||| pc.raw : Nat) : Int) := rfl
  rw [h3, ← Nat.mul_add_lt_is_or hpc, Nat.mul_comm]

theorem location_eq (s : CPU) (hcsr : s.reg_csr.raw < 2 ^ 15) (hpc : s.reg_pc.raw < 2 ^ 16) :
    s.location = s.reg_csr.raw * 2 ^ 16 + s.reg_pc.raw := by
  unfold CPU.location
  rw [segmentedAddress_eq _ _ hcsr hpc, toUInt_natCast]
  apply Nat.mod_eq_of_lt
  norm_num at hcsr hpc ⊢
  omega

theorem linkAddress_eq (s : CPU) (hcsr : s.reg_lcsr.raw < 2 ^ 15) (hpc : s.reg_lr.raw < 2 ^ 16) :
    s.linkAddress = s.reg_lcsr.raw * 2 ^ 16 + s.reg_lr.raw := by
  unfold CPU.linkAddress
  rw [segmentedAddress_eq _ _ hcsr hpc, toUInt_natCast]
  apply Nat.mod_eq_of_lt
  norm_num at hcsr hpc ⊢
  omega

theorem instructionAddress_eq (s : CPU) (len : Nat) (hcsr : s.reg_csr.raw < 2 ^ 15)
    (hpc : s.reg_pc.raw < 2 ^ 16) (hlen : len ≤ s.reg_pc.raw) :
    s.instructionAddress len = s.reg_csr.raw * 2 ^ 16 + (s.reg_pc.raw - len) := by
  unfold CPU.instructionAddress
  rw [segmentedAddress_eq _ _ hcsr hpc]
  have h : toInt32 (((s.reg_csr.raw * 2 ^ 16 + s.reg_pc.raw : Nat) : Int) - (len : Int))
      = ((s.reg_csr.raw * 2 ^ 16 + (s.reg_pc.raw - len) : Nat) : Int) := by
    unfold toInt32
    norm_num at hcsr hpc ⊢
    omega
  rw [h, toUInt_natCast]
  apply Nat.mod_eq_of_lt
  norm_num at hcsr hpc ⊢
  omega

theorem assign16_raw (r : RegisterStub) (n : Nat) (h : n < 2 ^ 16) :
    (Register.assign 16 r (n : Int)).raw = n := by
  unfold Register.assign
  rw [toUInt_toUInt 16 (le_refl _), toUInt_natCast]
  exact Nat.mod_eq_of_lt h

/-- The target of the two-word `OP_BL` is `segment * 2 ^ 16 + offset`, and it
is the location the transfer leaves the program counter at. -/
theorem OP_BL_targetAddress_eq (s : CPU) (hti : s.impl_hint &&& H_TI ≠ 0)
    (hseg : (s.impl_operands 1).value < 2 ^ 15) (himm : s.impl_long_imm < 2 ^ 16) :
    s.OP_BL_targetAddress = (s.impl_operands 1).value * 2 ^ 16 + s.impl_long_imm ∧
    s.OP_B_transfer.reg_csr.raw = (s.impl_operands 1).value ∧
    s.OP_B_transfer.reg_pc.raw = s.impl_long_imm ∧
    s.OP_B_transfer.location = s.OP_BL_targetAddress := by
  have h1 : s.OP_BL_targetAddress = (s.impl_operands 1).value * 2 ^ 16 + s.impl_long_imm := by
    unfold CPU.OP_BL_targetAddress
    rw [if_pos hti, toUInt_natCast, Nat.shiftLeft_eq]
    have hlt : (s.impl_operands 1).value * 2 ^ 16 < 2 ^ 64 := by
      norm_num at hseg ⊢
      omega
    rw [Nat.mod_eq_of_lt hlt, Nat.mul_comm, ← Nat.mul_add_lt_is_or himm]
  have h2 : s.OP_B_transfer.reg_csr.raw = (s.impl_operands 1).value := by
    rw [(OP_B_transfer_regs s).2, if_pos hti]
    exact assign16_raw _ _ (lt_trans hseg (by norm_num))
  have h3 : s.OP_B_transfer.reg_pc.raw = s.impl_long_imm := by
    rw [(OP_B_transfer_regs s).1, if_pos hti]
    exact assign16_raw _ _ himm
  refine ⟨h1, h2, h3, ?_⟩
  rw [location_eq _ (by rw [h2]; exact hseg) (by rw [h3]; exact himm), h1, h2, h3]

/-! ## Call followed by return -/

/-- Call followed by return, on the CFG data: from a well-formed state with
current block `B0` and no instruction
registered at the call site, `OP_BL` to `A` completes: the call site gets an
instruction with text `fun_<A>();` and a line end, put at the end of `B0`, the block at `A`
becomes current and the link registers receive the program counter and code
segment the handler was entered with. When `OP_RT` is then entered in the
callee with the CFG data and the link registers as `OP_BL` left them, at a
return site with no instruction registered, it completes too: the registry
holds exactly one block at `A`, of kind `Function`; the call record is still
there; the return site gets an instruction with text `return;` and a line end, put at the end
of the block at `A`; the current block is the block registered at the
location that followed the call, and the program counter and code segment are
the ones `OP_BL` was entered with. -/
theorem call_return_trace (s0 : CPU) (B0 : Nat) (hwf : s0.WF)
    (hB0 : s0.current_basic_block = some B0)
    (hcall : s0.GetInstruction (s0.instructionAddress 4) = none) :
    ∃ (s1 : CPU) (pA i : Nat),
      s0.OP_BL = Except.ok s1 ∧
      s1.current_basic_block = some pA ∧
      s1.GetBasicBlock s0.OP_BL_targetAddress = some pA ∧
      s1.GetInstruction (s0.instructionAddress 4) = some i ∧
      (∃ ins : Instruction, s1.insHeap[i]? = some ins ∧
        ins.address = s0.instructionAddress 4 ∧
        ins.code = CPU.CreateFunctionName s0.OP_BL_targetAddress ++ "();\n") ∧
      s0.Appended s1 B0 i ∧
      s1.reg_lr = s0.reg_pc ∧ s1.reg_lcsr = s0.reg_csr ∧
      ∀ regs : CPU, regs.reg_lr = s1.reg_lr → regs.reg_lcsr = s1.reg_lcsr →
        s0.GetInstruction (regs.instructionAddress 2) = none →
        regs.instructionAddress 2 ≠ s0.instructionAddress 4 →
        ∃ (s3 : CPU) (j q : Nat),
          (regs.withTrace s1).OP_RT = Except.ok s3 ∧
          s3.basic_blocks.filter (fun e => decide (e.1 = s0.OP_BL_targetAddress))
            = [(s0.OP_BL_targetAddress, pA)] ∧
          s3.blockKind s0.OP_BL_targetAddress = some BBType.BB_TYPE_FUNCTION ∧
          (∃ bA : BasicBlock, s3.bbHeap[pA]? = some bA ∧
            bA.address = s0.OP_BL_targetAddress ∧ bA.type = BBType.BB_TYPE_FUNCTION) ∧
          s3.GetInstruction (s0.instructionAddress 4) = some i ∧
          (∃ ins : Instruction, s3.insHeap[i]? = some ins ∧
            ins.address = s0.instructionAddress 4 ∧
            ins.code = CPU.CreateFunctionName s0.OP_BL_targetAddress ++ "();\n") ∧
          s3.GetInstruction (regs.instructionAddress 2) = some j ∧
          (∃ ins : Instruction, s3.insHeap[j]? = some ins ∧
            ins.address = regs.instructionAddress 2 ∧ ins.code = "return;\n") ∧
          (regs.withTrace s1).Appended s3 pA j ∧
          s3.current_basic_block = some q ∧ s3.GetBasicBlock s0.location = some q ∧
          (∃ bq : BasicBlock, s3.bbHeap[q]? = some bq ∧ bq.address = s0.location) ∧
          s3.reg_pc = s0.reg_pc ∧ s3.reg_csr = s0.reg_csr ∧ s3.location = s0.location := by
  obtain ⟨s1, h1⟩ := OP_BL_ok s0 hwf
  obtain ⟨_, _, helr, hecsr, _, _, ⟨pA, bA, hc, hp, hb, hty, haddr⟩, hwf1, hfirst⟩ :=
    OP_BL_effect s0 s1 h1
  obtain ⟨f1, f2, ⟨ins, hins, hinsa, hinsc⟩, f4, _⟩ := hfirst hcall
  have hlr1 : s1.reg_lr = s0.reg_pc := by
    unfold CPU.reg_lr
    rw [helr]
    simp only [Function.update_same]
  have hlcsr1 : s1.reg_lcsr = s0.reg_csr := by
    unfold CPU.reg_lcsr
    rw [hecsr]
    simp only [Function.update_same]
  refine ⟨s1, pA, s0.insHeap.length, h1, hc, hp, f1, ⟨ins, hins, hinsa, hinsc⟩,
    f4 B0 hB0 hwf, hlr1, hlcsr1, ?_⟩
  intro regs hlr hlcsr hret hne
  have wfu : (regs.withTrace s1).WF := withTrace_WF regs s1 (hwf1 hwf)
  have hsite : (regs.withTrace s1).instructionAddress 2 = regs.instructionAddress 2 := rfl
  have hretu : (regs.withTrace s1).GetInstruction ((regs.withTrace s1).instructionAddress 2)
      = none := by
    rw [hsite]
    show s1.GetInstruction _ = none
    rw [f2 _ hne]
    exact hret
  have hcu : (regs.withTrace s1).current_basic_block = some pA := hc
  obtain ⟨s3, h3⟩ := OP_RT_ok (regs.withTrace s1) wfu (Or.inl (by rw [hcu]; simp))
  obtain ⟨hext, _, hpc3, hcsr3, _, _, _, ⟨q, hq, hqlook, hqaddr⟩, hwf3, hfirstRT⟩ :=
    OP_RT_effect _ s3 h3
  obtain ⟨g1, _, ⟨insj, hj, hja, hjc⟩, cur, hcur, happ⟩ := hfirstRT hretu
  have hcurA : cur = pA := Option.some.inj (hcur.symm.trans hcu)
  subst hcurA
  have hlink : (regs.withTrace s1).linkAddress = s0.location := by
    show toUInt 64 (CPU.segmentedAddress regs.reg_lcsr regs.reg_lr) = _
    rw [hlr, hlcsr, hlr1, hlcsr1]
    rfl
  rw [hlink] at hqlook hqaddr
  have hpc3b : s3.reg_pc = s0.reg_pc := by
    rw [hpc3]
    show regs.reg_lr = _
    rw [hlr, hlr1]
  have hcsr3b : s3.reg_csr = s0.reg_csr := by
    rw [hcsr3]
    show regs.reg_lcsr = _
    rw [hlcsr, hlcsr1]
  have hp3 : s3.GetBasicBlock s0.OP_BL_targetAddress = some cur := hext.1 _ _ hp
  obtain ⟨b3, hb3, hb3a, hb3t⟩ := hext.2.2.1 cur bA hb
  obtain ⟨i3, hi3, hi3a, hi3c⟩ := hext.2.2.2 _ ins hins
  rw [hsite] at g1 hja
  refine ⟨s3, (regs.withTrace s1).insHeap.length, q, h3, ?_, ?_,
    ⟨b3, hb3, hb3a.trans (haddr hwf), hb3t.trans hty⟩, hext.2.1 _ _ f1,
    ⟨i3, hi3, hi3a.trans hinsa, hi3c.trans hinsc⟩, g1, ⟨insj, hj, hja, hjc⟩, happ, hq, hqlook,
    hqaddr (withTrace_WF regs s1 (hwf1 hwf)), hpc3b, hcsr3b, ?_⟩
  · exact sorted_filter_key _ _ _ (hwf3 wfu).2.2.1 hp3
  · unfold CPU.blockKind
    rw [hp3]
    simp only [hb3, Option.map_some', hb3t, hty]
  · unfold CPU.location
    rw [hpc3b, hcsr3b]

/-- C7: from a well-formed state with current block `B0` and no instruction
registered at the call site, `OP_BL` to `A` completes: the call site gets an
instruction whose text is `fun_`, then `A` as six upper-case hexadecimal
digits, then `();` and a line end, put at the end of `B0`; the block at `A`
becomes current and the link registers receive the program counter and code
segment the handler was entered with.  For the two-word form `A` is
`segment * 2 ^ 16 + offset` and is the location of the program counter after
the call; the call site is `csr * 2 ^ 16 + pc - 4`.  When `OP_RT` is then
entered in the callee with the CFG data and the link registers as `OP_BL` left
them, at a return site with no instruction registered, it completes too: the
registry holds exactly one block at `A`, of kind `Function`; the call record
is still there with the same text; the return site, `csr * 2 ^ 16 + pc - 2`,
gets an instruction with text `return;` and a line end, put at the end of the
block at `A`; the current block is the block registered at the location that
followed the call, `csr * 2 ^ 16 + pc` of the state `OP_BL` was entered with,
and the program counter and code segment are back at that location. -/
theorem call_return_cfg (s0 : CPU) (B0 : Nat) (hwf : s0.WF)
    (hB0 : s0.current_basic_block = some B0)
    (hcall : s0.GetInstruction (s0.instructionAddress 4) = none) :
    ∃ (s1 : CPU) (pA i : Nat),
      s0.OP_BL = Except.ok s1 ∧
      s1.current_basic_block = some pA ∧
      s1.GetBasicBlock s0.OP_BL_targetAddress = some pA ∧
      s1.GetInstruction (s0.instructionAddress 4) = some i ∧
      (∃ ins : Instruction, s1.insHeap[i]? = some ins ∧
        ins.address = s0.instructionAddress 4 ∧
        ins.code = CPU.CreateFunctionName s0.OP_BL_targetAddress ++ "();\n" ∧
        (s0.OP_BL_targetAddress < 2 ^ 64 →
          ins.code = "fun_" ++ upperHexPadded6 s0.OP_BL_targetAddress ++ "();\n")) ∧
      s0.Appended s1 B0 i ∧
      s1.reg_lr = s0.reg_pc ∧ s1.reg_lcsr = s0.reg_csr ∧
      (s0.impl_hint &&& H_TI ≠ 0 → (s0.impl_operands 1).value < 2 ^ 15 →
        s0.impl_long_imm < 2 ^ 16 →
        s0.OP_BL_targetAddress = (s0.impl_operands 1).value * 2 ^ 16 + s0.impl_long_imm ∧
        s1.reg_csr.raw = (s0.impl_operands 1).value ∧ s1.reg_pc.raw = s0.impl_long_imm ∧
        s1.location = s0.OP_BL_targetAddress) ∧
      (s0.reg_csr.raw < 2 ^ 15 → s0.reg_pc.raw < 2 ^ 16 → 4 ≤ s0.reg_pc.raw →
        s0.instructionAddress 4 = s0.reg_csr.raw * 2 ^ 16 + (s0.reg_pc.raw - 4) ∧
        s0.location = s0.reg_csr.raw * 2 ^ 16 + s0.reg_pc.raw) ∧
      ∀ regs : CPU, regs.reg_lr = s1.reg_lr → regs.reg_lcsr = s1.reg_lcsr →
        s0.GetInstruction (regs.instructionAddress 2) = none →
        regs.instructionAddress 2 ≠ s0.instructionAddress 4 →
        ∃ (s3 : CPU) (j q : Nat),
          (regs.withTrace s1).OP_RT = Except.ok s3 ∧
          s3.basic_blocks.filter (fun e => decide (e.1 = s0.OP_BL_targetAddress))
            = [(s0.OP_BL_targetAddress, pA)] ∧
          s3.blockKind s0.OP_BL_targetAddress = some BBType.BB_TYPE_FUNCTION ∧
          (∃ bA : BasicBlock, s3.bbHeap[pA]? = some bA ∧
            bA.address = s0.OP_BL_targetAddress ∧ bA.type = BBType.BB_TYPE_FUNCTION) ∧
          s3.GetInstruction (s0.instructionAddress 4) = some i ∧
          (∃ ins : Instruction, s3.insHeap[i]? = some ins ∧
            ins.address = s0.instructionAddress 4 ∧
            ins.code = CPU.CreateFunctionName s0.OP_BL_targetAddress ++ "();\n" ∧
            (s0.OP_BL_targetAddress < 2 ^ 64 →
              ins.code = "fun_" ++ upperHexPadded6 s0.OP_BL_targetAddress ++ "();\n")) ∧
          s3.GetInstruction (regs.instructionAddress 2) = some j ∧
          (∃ ins : Instruction, s3.insHeap[j]? = some ins ∧
            ins.address = regs.instructionAddress 2 ∧ ins.code = "return;\n") ∧
          (regs.reg_csr.raw < 2 ^ 15 → regs.reg_pc.raw < 2 ^ 16 → 2 ≤ regs.reg_pc.raw →
            regs.instructionAddress 2 = regs.reg_csr.raw * 2 ^ 16 + (regs.reg_pc.raw - 2)) ∧
          (regs.withTrace s1).Appended s3 pA j ∧
          s3.current_basic_block = some q ∧ s3.GetBasicBlock s0.location = some q ∧
          (∃ bq : BasicBlock, s3.bbHeap[q]? = some bq ∧ bq.address = s0.location) ∧
          s3.reg_pc = s0.reg_pc ∧ s3.reg_csr = s0.reg_csr ∧ s3.location = s0.location := by
  obtain ⟨s1, pA, i, h1, hc, hp, hi, ⟨ins, hins, hinsa, hinsc⟩, happ, hlr, hlcsr, hrest⟩ :=
    call_return_trace s0 B0 hwf hB0 hcall
  have htext : ∀ c : String,
      c = CPU.CreateFunctionName s0.OP_BL_targetAddress ++ "();\n" →
      s0.OP_BL_targetAddress < 2 ^ 64 →
      c = "fun_" ++ upperHexPadded6 s0.OP_BL_targetAddress ++ "();\n" := by
    intro c hcode hlt
    rw [hcode, CreateFunctionName_eq _ hlt]
  obtain ⟨_, _, _, _, hpc1, hcsr1, _⟩ := OP_BL_effect s0 s1 h1
  refine ⟨s1, pA, i, h1, hc, hp, hi, ⟨ins, hins, hinsa, hinsc, htext _ hinsc⟩, happ, hlr, hlcsr,
    ?_, ?_, ?_⟩
  · intro hti hseg himm
    obtain ⟨e1, e2, e3, e4⟩ := OP_BL_targetAddress_eq s0 hti hseg himm
    refine ⟨e1, by rw [hcsr1]; exact e2, by rw [hpc1]; exact e3, ?_⟩
    rw [← e4]
    unfold CPU.location
    rw [hpc1, hcsr1]
  · intro hcsr hpc hpc4
    exact ⟨instructionAddress_eq s0 4 hcsr hpc hpc4, location_eq s0 hcsr hpc⟩
  · intro regs hrlr hrlcsr hret hne
    obtain ⟨s3, j, q, h3, g1, g2, g3, g4, ⟨ins3, hins3, hins3a, hins3c⟩, g6, g7, g8, g9, g10,
      g11, g12, g13, g14⟩ := hrest regs hrlr hrlcsr hret hne
    refine ⟨s3, j, q, h3, g1, g2, g3, g4, ⟨ins3, hins3, hins3a, hins3c, htext _ hins3c⟩, g6, g7,
      ?_, g8, g9, g10, g11, g12, g13, g14⟩
    intro hcsr hpc hpc2
    exact instructionAddress_eq regs 2 hcsr hpc hpc2

/-- C7 at a concrete state: the call of `callExample` to 0x1234, entered with
the program counter at 0x0100, followed by the return of `calleeExample` from
0x1240.  The call is recorded at 0x00FC with text `fun_001234();`, the return
at 0x1240 with text `return;`, the block at 0x1234 is a `Function` block, and
the run continues in the block at 0x0100 with the program counter there. -/
theorem call_return_cfg_witness :
    CPU.callExample.WF ∧ CPU.callExample.current_basic_block = some 0 ∧
    CPU.callExample.GetInstruction (CPU.callExample.instructionAddress 4) = none ∧
    CPU.callExample.OP_BL = Except.ok CPU.afterCallExample ∧
    CPU.callExample.OP_BL_targetAddress = 0x1234 ∧
    CPU.callExample.instructionAddress 4 = 0x00FC ∧
    CPU.calleeExample.instructionAddress 2 = 0x1240 ∧
    (CPU.afterCallExample.insHeap[0]?).map Instruction.code = some "fun_001234();\n" ∧
    ∃ s3 : CPU, (CPU.calleeExample.withTrace CPU.afterCallExample).OP_RT = Except.ok s3 ∧
      s3.blockKind 0x1234 = some BBType.BB_TYPE_FUNCTION ∧
      s3.GetInstruction 0x00FC = some 0 ∧
      (s3.insHeap[0]?).map Instruction.code = some "fun_001234();\n" ∧
      s3.GetInstruction 0x1240 = some 1 ∧
      (s3.insHeap[1]?).map Instruction.code = some "return;\n" ∧
      s3.current_basic_block = s3.GetBasicBlock 0x0100 ∧
      s3.current_basic_block ≠ none ∧
      s3.reg_pc.raw = 0x0100 ∧ s3.reg_csr.raw = 0 := by
  refine ⟨by decide, rfl, rfl, rfl, by decide, by decide, by decide, by decide, ?_⟩
  obtain ⟨s1, pA, i, h1, _, _, hi, _, _, hlr, hlcsr, _, _, hrest⟩ :=
    call_return_cfg CPU.callExample 0 (by decide) rfl rfl
  have hs1 : s1 = CPU.afterCallExample := by
    have h2 : CPU.callExample.OP_BL = Except.ok CPU.afterCallExample := rfl
    rw [h2] at h1
    exact (Except.ok.inj h1).symm
  subst hs1
  have hi0 : i = 0 := by
    have h0 : CPU.afterCallExample.GetInstruction (CPU.callExample.instructionAddress 4)
        = some 0 := by decide
    rw [h0] at hi
    exact (Option.some.inj hi).symm
  subst hi0
  obtain ⟨s3, j, q, h3, _, hk, _, hcallrec, ⟨ins, hins, _, _, htext⟩, hj,
      ⟨insj, hinsj, _, hjc⟩, _, _, hq, hqlook, _, hpc, hcsr, _⟩ :=
    hrest CPU.calleeExample (by rw [hlr]; rfl) (by rw [hlcsr]; rfl) rfl (by decide)
  have hj1 : s3.GetInstruction 0x1240 = some j := hj
  have hs3 : s3 = CPU.afterReturnExample := by
    have h4 : (CPU.calleeExample.withTrace CPU.afterCallExample).OP_RT
        = Except.ok CPU.afterReturnExample := rfl
    rw [h4] at h3
    exact (Except.ok.inj h3).symm
  have hj2 : j = 1 := by
    rw [hs3] at hj1
    have h0 : CPU.afterReturnExample.GetInstruction 0x1240 = some 1 := by decide
    rw [h0] at hj1
    exact (Option.some.inj hj1).symm
  subst hj2
  refine ⟨s3, h3, hk, hcallrec, ?_, hj1, ?_, ?_, ?_, ?_, ?_⟩
  · rw [hins, Option.map_some', htext (by decide)]
    decide
  · rw [hinsj, Option.map_some', hjc]
  · rw [hq]
    exact hqlook.symm
  · rw [hq]
    simp
  · rw [hpc]
    rfl
  · rw [hcsr]
    rfl

/-! ## Post-increment of the effective address -/

theorem and_clear_bit0 (x : Nat) (hx : x < 2 ^ 16) : x &&& 65534 = x - x % 2 := by
  apply Nat.eq_of_testBit_eq
  intro i
  have h1 : (65534 : Nat) = 2 ^ 16 - (1 + 1) := by norm_num
  have h2 : x - x % 2 = 2 * (x / 2) := by omega
  rw [Nat.testBit_and, h1, Nat.testBit_two_pow_sub_succ (by norm_num), h2]
  cases i with
  | zero => simp [Nat.testBit_zero]
  | succ j =>
    have h4 : (2 * (x / 2)).testBit (j + 1) = (x / 2).testBit j := by
      rw [Nat.testBit_succ, Nat.mul_div_cancel_left _ (by norm_num : 0 < 2)]
    rw [h4]
    have h3 : (1 : Nat).testBit (j + 1) = false := by
      rw [Nat.testBit_succ]
      simp
    rw [h3]
    by_cases hj : j + 1 < 16
    · simp [hj, Nat.testBit_succ]
    · have hbig : x.testBit (j + 1) = false := by
        apply Nat.testBit_lt_two_pow
        exact lt_of_lt_of_le hx (Nat.pow_le_pow_right (by norm_num) (by omega))
      rw [Nat.testBit_succ] at hbig
      simp [hj, hbig]

theorem toUInt16_not_one : toUInt 16 (Int.not 1) = 65534 := by decide

/-- C14: for every content of `reg_ea` and every access width `n`, `BumpEA`
leaves `reg_ea` at `(e + 1) mod 2 ^ 16` when `n = 1`, and otherwise at
`(e + n) mod 2 ^ 16` with bit 0 cleared, which is even and is the largest even
value not above `(e + n) mod 2 ^ 16`; nothing but `reg_ea` changes. -/
theorem BumpEA_post_increment (s : CPU) (n : Nat) :
    (n = 1 → (s.BumpEA n).reg_ea.raw = (Register.read 16 s.reg_ea + 1) % 2 ^ 16) ∧
    (n ≠ 1 →
      (s.BumpEA n).reg_ea.raw = ((Register.read 16 s.reg_ea + n) % 2 ^ 16) &&& 0xFFFE ∧
      (s.BumpEA n).reg_ea.raw
        = (Register.read 16 s.reg_ea + n) % 2 ^ 16 - (Register.read 16 s.reg_ea + n) % 2 ^ 16 % 2 ∧
      (s.BumpEA n).reg_ea.raw % 2 = 0 ∧
      (s.BumpEA n).reg_ea.raw ≤ (Register.read 16 s.reg_ea + n) % 2 ^ 16 ∧
      ∀ m, m % 2 = 0 → m ≤ (Register.read 16 s.reg_ea + n) % 2 ^ 16 →
        m ≤ (s.BumpEA n).reg_ea.raw) ∧
    Register.read 16 (s.BumpEA n).reg_ea = (s.BumpEA n).reg_ea.raw ∧
    s.BumpEA n = { s with reg_ea := (s.BumpEA n).reg_ea } := by
  have hadd : (Register.addAssign 16 s.reg_ea (n : Int)).raw
      = (Register.read 16 s.reg_ea + n) % 2 ^ 16 := by
    have h1 : (Register.addAssign 16 s.reg_ea (n : Int)).raw
        = Register.read 16 (Register.addAssign 16 s.reg_ea (n : Int)) := by
      rw [Register.read, toUInt_natCast]
      exact (Nat.mod_eq_of_lt (raw_assign_lt 16 (le_refl _) _ _)).symm
    rw [h1, Register.addAssign, read_assign 16 (le_refl _), toUInt_add, Register.read]
    have h2 := toUInt_cast 16 (((toUInt 16 (s.reg_ea.raw : Int) : Nat) : Int) + (n : Int))
    have h3 : (((toUInt 16 (s.reg_ea.raw : Int) : Nat) : Int) + (n : Int)) % 2 ^ 16
        = (((toUInt 16 (s.reg_ea.raw : Int) + n) % 2 ^ 16 : Nat) : Int) := by
      push_cast
      rfl
    rw [h3] at h2
    exact_mod_cast h2
  have hlt : (Register.read 16 s.reg_ea + n) % 2 ^ 16 < 2 ^ 16 := Nat.mod_lt _ (by norm_num)
  have hand : n ≠ 1 → (s.BumpEA n).reg_ea.raw
      = ((Register.read 16 s.reg_ea + n) % 2 ^ 16) &&& 0xFFFE := by
    intro hn
    simp only [CPU.BumpEA, hn, ne_eq, not_false_eq_true, if_true, Register.andAssign,
      Register.assign, toUInt16_not_one, hadd]
    rw [toUInt_toUInt 16 (le_refl _), toUInt_natCast]
    apply Nat.mod_eq_of_lt
    exact lt_of_le_of_lt Nat.and_le_left hlt
  refine ⟨?_, ?_, ?_, ?_⟩
  · intro hn
    subst hn
    simp only [CPU.BumpEA, ne_eq, not_true_eq_false, if_false]
    exact hadd
  · intro hn
    have hraw := hand hn
    have hsub := and_clear_bit0 _ hlt
    refine ⟨hraw, ?_, ?_, ?_, ?_⟩
    · rw [hraw]; exact hsub
    · rw [hraw]
      show (_ &&& 65534) % 2 = 0
      rw [hsub]; omega
    · rw [hraw]
      show (_ &&& 65534) ≤ _
      rw [hsub]; omega
    · intro m hm hle
      rw [hraw]
      show m ≤ (_ &&& 65534)
      rw [hsub]; omega
  · rw [Register.read, toUInt_natCast]
    apply Nat.mod_eq_of_lt
    by_cases hn : n = 1
    · subst hn
      simp only [CPU.BumpEA, ne_eq, not_true_eq_false, if_false]
      rw [hadd]; exact hlt
    · rw [hand hn]
      exact lt_of_le_of_lt Nat.and_le_left hlt
  · unfold CPU.BumpEA
    simp only []
    split <;> rfl

/-! ## Control-register access -/

theorem elevel_val (s : CPU) : s.elevel.val = Register.read 8 s.reg_psw &&& PSW_ELEVEL := rfl

theorem elevel_eq_zero (s : CPU) :
    s.elevel = 0 ↔ Register.read 8 s.reg_psw &&& PSW_ELEVEL = 0 := by
  rw [← elevel_val]
  constructor
  · intro h; rw [h]; rfl
  · intro h; exact Fin.ext h

theorem assign_raw (w : Nat) (hw : w ≤ 16) (r : RegisterStub) (n : Nat) :
    Register.assign w r (n : Int) = Register.setRaw r (n % 2 ^ w) := by
  unfold Register.assign Register.setRaw
  rw [toUInt_toUInt w hw, toUInt_natCast]

theorem OP_CTRL_write_epsw (s : CPU) (h : s.impl_hint >>> 8 = 3) :
    s.OP_CTRL = if s.elevel = 0 then s else
      { s with reg_epsw := Function.update s.reg_epsw s.elevel (Register.setRaw (s.reg_epsw s.elevel) ((s.impl_operands 1).value % 2 ^ 8)) } := by
  unfold CPU.OP_CTRL
  rw [h]
  simp only [ne_eq, ← elevel_eq_zero, ite_not, assign_raw 8 (by decide)]

theorem OP_CTRL_read_epsw (s : CPU) (h : s.impl_hint >>> 8 = 9) :
    s.OP_CTRL = if s.elevel = 0 then s else
      s.setOperand0 (Register.read 8 (s.reg_epsw s.elevel)) := by
  unfold CPU.OP_CTRL
  rw [h]
  simp only [ne_eq, ← elevel_eq_zero, ite_not]

theorem OP_CTRL_write_elr (s : CPU) (h : s.impl_hint >>> 8 = 2) :
    s.OP_CTRL = { s with reg_elr := Function.update s.reg_elr s.elevel (Register.setRaw (s.reg_elr s.elevel) ((s.impl_operands 1).value % 2 ^ 16)) } := by
  unfold CPU.OP_CTRL
  rw [h]
  simp only [assign_raw 16 (le_refl _)]

theorem OP_CTRL_read_elr (s : CPU) (h : s.impl_hint >>> 8 = 4) :
    s.OP_CTRL = s.setOperand0 (Register.read 16 (s.reg_elr s.elevel)) := by
  unfold CPU.OP_CTRL
  rw [h]

theorem OP_CTRL_write_ecsr (s : CPU) (h : s.impl_hint >>> 8 = 1) :
    s.OP_CTRL = { s with reg_ecsr := Function.update s.reg_ecsr s.elevel (Register.setRaw (s.reg_ecsr s.elevel) ((s.impl_operands 1).value % 2 ^ 16)) } := by
  unfold CPU.OP_CTRL
  rw [h]
  simp only [assign_raw 16 (le_refl _)]

theorem OP_CTRL_read_ecsr (s : CPU) (h : s.impl_hint >>> 8 = 8) :
    s.OP_CTRL = s.setOperand0 (Register.read 16 (s.reg_ecsr s.elevel)) := by
  unfold CPU.OP_CTRL
  rw [h]

theorem setOperand0_value (s : CPU) (v : Nat) : ((s.setOperand0 v).impl_operands 0).value = v := by
  simp [CPU.setOperand0]

/-- C17: the control-register sub-operations of `OP_CTRL` are selected by
`impl_hint >> 8` and gated by the exception level `l = reg_psw & 3`.  At level 0
the EPSW write (index 3) and the EPSW read (index 9) change nothing at all; at a
level in 1..3 the write stores the low 8 bits of operand 1 into `reg_epsw[l]`
and changes nothing else (the status word is intact), and the read puts the
value of `reg_epsw[l]` into operand 0.  The ELR (2 and 4) and ECSR (1 and 8)
sub-operations address bank `l` at every level, so a write followed by a read
at the same level yields the written value modulo 2 ^ 16. -/
theorem OP_CTRL_exception_level (s : CPU) :
    (s.impl_hint >>> 8 = 3 → s.elevel = 0 → s.OP_CTRL = s) ∧
    (s.impl_hint >>> 8 = 9 → s.elevel = 0 → s.OP_CTRL = s) ∧
    (s.impl_hint >>> 8 = 3 → s.elevel ≠ 0 →
      s.OP_CTRL = { s with reg_epsw := Function.update s.reg_epsw s.elevel (Register.setRaw (s.reg_epsw s.elevel) ((s.impl_operands 1).value % 2 ^ 8)) } ∧
      s.OP_CTRL.reg_psw = s.reg_psw) ∧
    (s.impl_hint >>> 8 = 9 → s.elevel ≠ 0 →
      s.OP_CTRL = s.setOperand0 ((s.reg_epsw s.elevel).raw % 2 ^ 8) ∧
      (s.OP_CTRL.impl_operands 0).value = (s.reg_epsw s.elevel).raw % 2 ^ 8) ∧
    (s.impl_hint >>> 8 = 2 →
      s.OP_CTRL = { s with reg_elr := Function.update s.reg_elr s.elevel (Register.setRaw (s.reg_elr s.elevel) ((s.impl_operands 1).value % 2 ^ 16)) }) ∧
    (s.impl_hint >>> 8 = 4 →
      s.OP_CTRL = s.setOperand0 ((s.reg_elr s.elevel).raw % 2 ^ 16)) ∧
    (s.impl_hint >>> 8 = 1 →
      s.OP_CTRL = { s with reg_ecsr := Function.update s.reg_ecsr s.elevel (Register.setRaw (s.reg_ecsr s.elevel) ((s.impl_operands 1).value % 2 ^ 16)) }) ∧
    (s.impl_hint >>> 8 = 8 →
      s.OP_CTRL = s.setOperand0 ((s.reg_ecsr s.elevel).raw % 2 ^ 16)) ∧
    (∀ u : CPU, s.impl_hint >>> 8 = 2 → u.impl_hint >>> 8 = 4 →
      u.reg_elr = s.OP_CTRL.reg_elr → u.elevel = s.elevel →
      (u.OP_CTRL.impl_operands 0).value = (s.impl_operands 1).value % 2 ^ 16) ∧
    (∀ u : CPU, s.impl_hint >>> 8 = 1 → u.impl_hint >>> 8 = 8 →
      u.reg_ecsr = s.OP_CTRL.reg_ecsr → u.elevel = s.elevel →
      (u.OP_CTRL.impl_operands 0).value = (s.impl_operands 1).value % 2 ^ 16) := by
  refine ⟨?_, ?_, ?_, ?_, ?_, ?_, ?_, ?_, ?_, ?_⟩
  · intro h hl
    rw [OP_CTRL_write_epsw s h, if_pos hl]
  · intro h hl
    rw [OP_CTRL_read_epsw s h, if_pos hl]
  · intro h hl
    rw [OP_CTRL_write_epsw s h, if_neg hl]
    refine ⟨rfl, ?_⟩
    show Function.update s.reg_epsw s.elevel _ 0 = s.reg_epsw 0
    exact Function.update_noteq (Ne.symm hl) _ _
  · intro h hl
    rw [OP_CTRL_read_epsw s h, if_neg hl]
    have hr : Register.read 8 (s.reg_epsw s.elevel) = (s.reg_epsw s.elevel).raw % 2 ^ 8 :=
      toUInt_natCast 8 _
    rw [hr]
    exact ⟨rfl, setOperand0_value _ _⟩
  · intro h
    exact OP_CTRL_write_elr s h
  · intro h
    rw [OP_CTRL_read_elr s h]
    have hr : Register.read 16 (s.reg_elr s.elevel) = (s.reg_elr s.elevel).raw % 2 ^ 16 :=
      toUInt_natCast 16 _
    rw [hr]
  · intro h
    exact OP_CTRL_write_ecsr s h
  · intro h
    rw [OP_CTRL_read_ecsr s h]
    have hr : Register.read 16 (s.reg_ecsr s.elevel) = (s.reg_ecsr s.elevel).raw % 2 ^ 16 :=
      toUInt_natCast 16 _
    rw [hr]
  · intro u h2 h4 hreg hl
    rw [OP_CTRL_read_elr u h4, setOperand0_value, hreg, hl, OP_CTRL_write_elr s h2]
    show Register.read 16 (Function.update s.reg_elr s.elevel _ s.elevel) = _
    rw [Function.update_same]
    show toUInt 16 (((s.impl_operands 1).value % 2 ^ 16 : Nat) : Int) = _
    rw [toUInt_natCast, Nat.mod_mod]
  · intro u h1 h8 hreg hl
    rw [OP_CTRL_read_ecsr u h8, setOperand0_value, hreg, hl, OP_CTRL_write_ecsr s h1]
    show Register.read 16 (Function.update s.reg_ecsr s.elevel _ s.elevel) = _
    rw [Function.update_same]
    show toUInt 16 (((s.impl_operands 1).value % 2 ^ 16 : Nat) : Int) = _
    rw [toUInt_natCast, Nat.mod_mod]

/-- C17 at a concrete state: at exception level 2 the EPSW write stores 0xAB,
the low byte of 0x01AB, into `reg_epsw[2]` and leaves the status word alone. -/
theorem OP_CTRL_exception_level_example :
    CPU.controlExample.impl_hint >>> 8 = 3 ∧ CPU.controlExample.elevel = 2 ∧
    (CPU.controlExample.OP_CTRL.reg_epsw 2).raw = 0xAB ∧
    CPU.controlExample.OP_CTRL.reg_psw = CPU.controlExample.reg_psw :=
  ⟨by decide, by decide, by decide,
    ((OP_CTRL_exception_level CPU.controlExample).2.2.1 (by decide) (by decide)).2⟩

/-! ## Return with an empty shadow stack -/

/-- C11: from every well-formed state whose shadow stack is empty and whose
current basic block exists, `OP_RT` completes, leaves the shadow stack empty,
copies `reg_lr` into `reg_pc` and `reg_lcsr` into `reg_csr`, and makes the block
registered at `(lcsr << 16) | lr` the current block; below segment 0x8000
that address is `lcsr * 2 ^ 16 + lr`. -/
theorem OP_RT_empty_stack (s : CPU) (hwf : s.WF) (hstack : s.stack = [])
    (hcur : s.current_basic_block ≠ none) :
    ∃ t, s.OP_RT = Except.ok t ∧ t.stack = [] ∧
      t.reg_pc = s.reg_lr ∧ t.reg_csr = s.reg_lcsr ∧ t.location = s.linkAddress ∧
      ∃ (p : Nat) (b : BasicBlock), t.current_basic_block = some p ∧
        t.GetBasicBlock s.linkAddress = some p ∧ t.bbHeap[p]? = some b ∧
        b.address = s.linkAddress ∧
        (s.reg_lcsr.raw < 2 ^ 15 → s.reg_lr.raw < 2 ^ 16 →
          s.linkAddress = s.reg_lcsr.raw * 2 ^ 16 + s.reg_lr.raw) := by
  obtain ⟨t, ht⟩ := OP_RT_ok s hwf (Or.inl hcur)
  obtain ⟨_, hst, hpc, hcsr, _, _, _, ⟨p, hp, hg, hb⟩, _, _⟩ := OP_RT_effect s t ht
  obtain ⟨b, hb1, hb2⟩ := hb hwf
  refine ⟨t, ht, ?_, hpc, hcsr, ?_, p, b, hp, hg, hb1, hb2, linkAddress_eq s⟩
  · rw [hst, hstack]
    rfl
  · unfold CPU.location CPU.linkAddress
    rw [hpc, hcsr]

/-- C11 at a concrete state: the return of `returnExample`, entered with an
empty shadow stack, completes and continues at 0x0100. -/
theorem OP_RT_empty_stack_witness :
    CPU.returnExample.WF ∧ CPU.returnExample.stack = [] ∧
    CPU.returnExample.current_basic_block ≠ none ∧
    ∃ t, CPU.returnExample.OP_RT = Except.ok t ∧ t.stack = [] ∧
      t.reg_pc.raw = 0x0100 ∧ t.location = 0x0100 :=
  ⟨by decide, rfl, by decide,
    match OP_RT_empty_stack CPU.returnExample (by decide) rfl (by decide) with
    | ⟨t, ht, hst, hpc, _, hloc, _⟩ =>
      ⟨t, ht, hst, by rw [hpc]; rfl, by rw [hloc]; decide⟩⟩

/-! ## Linking a successor block -/

theorem isChain_nil (heap : List Instruction) (first : Option Nat) :
    isChain heap first [] = true ↔ first = none := by
  cases first <;> simp [isChain]

theorem isChain_cons (heap : List Instruction) (first : Option Nat) (p : Nat) (rest : List Nat) :
    isChain heap first (p :: rest) = true ↔
      first = some p ∧ ∃ i, heap[p]? = some i ∧ isChain heap i.next_instruction rest = true := by
  have h0 : isChain heap first (p :: rest)
      = (decide (first = some p) &&
          match heap[p]? with
          | some i => isChain heap i.next_instruction rest
          | none => false) := rfl
  rw [h0]
  cases h : heap[p]? with
  | none => simp
  | some i => simp

/-- The last node of a chain has no next instruction. -/
theorem isChain_last (heap : List Instruction) (l : Nat) :
    ∀ (L : List Nat) (first : Option Nat), isChain heap first L = true → L.getLast? = some l →
      ∃ nl, heap[l]? = some nl ∧ nl.next_instruction = none := by
  intro L
  induction L with
  | nil =>
    intro first _ hl
    simp at hl
  | cons p rest ih =>
    intro first hc hl
    obtain ⟨_, np, hnp, hrest⟩ := (isChain_cons heap first p rest).mp hc
    cases rest with
    | nil =>
      simp only [List.getLast?_singleton, Option.some.injEq] at hl
      subst hl
      exact ⟨np, hnp, (isChain_nil heap _).mp hrest⟩
    | cons q rest2 =>
      rw [List.getLast?_cons_cons] at hl
      exact ih _ hrest hl

/-- Linking a fresh node behind the last node of a chain extends the chain. -/
theorem isChain_append (heap : List Instruction) (l i : Nat) (li ni : Instruction)
    (hl : heap[l]? = some li) (hi : heap[i]? = some ni) (hni : ni.next_instruction = none) :
    ∀ (L : List Nat) (first : Option Nat), isChain heap first L = true → L.getLast? = some l →
      i ∉ L →
      isChain (heap.set l { li with next_instruction := some i }) first (L ++ [i]) = true := by
  have hllt : l < heap.length := getElem?_lt _ _ _ hl
  intro L
  induction L with
  | nil =>
    intro first _ hlast
    simp at hlast
  | cons p rest ih =>
    intro first hc hlast hnot
    obtain ⟨hfirst, np, hnp, hrest⟩ := (isChain_cons heap first p rest).mp hc
    have hip : i ≠ p := fun e => hnot (by rw [e]; exact List.mem_cons_self _ _)
    have hirest : i ∉ rest := fun e => hnot (List.mem_cons_of_mem _ e)
    cases rest with
    | nil =>
      simp only [List.getLast?_singleton, Option.some.injEq] at hlast
      subst hlast
      rw [hl] at hnp
      have e := Option.some.inj hnp
      subst e
      show isChain _ first [p, i] = true
      rw [isChain_cons]
      refine ⟨hfirst, _, List.getElem?_set_self hllt, ?_⟩
      rw [isChain_cons]
      refine ⟨rfl, ni, ?_, ?_⟩
      · rw [List.getElem?_set_ne (fun e => hip e.symm)]
        exact hi
      · rw [isChain_nil]
        exact hni
    | cons q rest2 =>
      have hlast2 : (q :: rest2).getLast? = some l := by
        rw [List.getLast?_cons_cons] at hlast
        exact hlast
      have hpl : l ≠ p := by
        intro e
        subst e
        obtain ⟨nl, hnl, hnone⟩ := isChain_last heap l _ _ hc hlast
        rw [hnp] at hnl
        have e2 := Option.some.inj hnl
        subst e2
        obtain ⟨hq, _⟩ := (isChain_cons heap _ q rest2).mp hrest
        rw [hnone] at hq
        cases hq
      show isChain _ first (p :: ((q :: rest2) ++ [i])) = true
      rw [isChain_cons]
      refine ⟨hfirst, np, ?_, ih _ hrest hlast2 hirest⟩
      rw [List.getElem?_set_ne hpl]
      exact hnp

/-- C18: for every block whose instruction chain (the walk from
`first_instruction` through `next_instruction`) is the list `L`, with
`last_instruction` the final element of `L` (both pointers null when `L` is
empty), and every instruction node `i` outside `L` that has no next
instruction, `BasicBlockAddInstruction` completes, makes the chain of the block
`L` followed by `i` and makes `last_instruction` point at `i`; when `L` is empty
`i` becomes the first and the last instruction. -/
theorem BasicBlockAddInstruction_order (s : CPU) (bb i : Nat) (b : BasicBlock)
    (ni : Instruction) (L : List Nat)
    (hb : s.bbHeap[bb]? = some b)
    (hchain : isChain s.insHeap b.first_instruction L = true)
    (hlast : b.last_instruction = L.getLast?)
    (hi : s.insHeap[i]? = some ni) (hnext : ni.next_instruction = none) (hnot : i ∉ L) :
    ∃ (t : CPU) (b1 : BasicBlock), s.BasicBlockAddInstruction bb i = Except.ok t ∧
      t.bbHeap[bb]? = some b1 ∧
      isChain t.insHeap b1.first_instruction (L ++ [i]) = true ∧
      b1.last_instruction = some i ∧
      (L = [] → b1.first_instruction = some i) := by
  have hbb : bb < s.bbHeap.length := getElem?_lt _ _ _ hb
  cases L with
  | nil =>
    have hf : b.first_instruction = none := (isChain_nil _ _).mp hchain
    refine ⟨_, _, BasicBlockAddInstruction_empty s bb i b hb hf,
      List.getElem?_set_self hbb, ?_, rfl, fun _ => rfl⟩
    show isChain s.insHeap (some i) [i] = true
    rw [isChain_cons]
    refine ⟨rfl, ni, hi, ?_⟩
    rw [isChain_nil]
    exact hnext
  | cons p rest =>
    obtain ⟨hf, _, _, _⟩ := (isChain_cons _ _ p rest).mp hchain
    cases hl : (p :: rest).getLast? with
    | none => simp at hl
    | some l =>
      rw [hl] at hlast
      obtain ⟨li, hli, _⟩ := isChain_last s.insHeap l _ _ hchain hl
      refine ⟨_, _, BasicBlockAddInstruction_nonempty s bb i b p l li hb hf hlast hli,
        List.getElem?_set_self hbb, ?_, rfl, fun e => by cases e⟩
      exact isChain_append s.insHeap l i li ni hli hi hnext _ _ hchain hl hnot

/-- C18 at a concrete state: the block of `chainExample` holds the
instructions 0 and 1; adding instruction 2 makes its chain 0, 1, 2. -/
theorem BasicBlockAddInstruction_order_witness :
    isChain CPU.chainExample.insHeap (some 0) [0, 1] = true ∧
    ∃ (t : CPU) (b1 : BasicBlock), CPU.chainExample.BasicBlockAddInstruction 0 2 = Except.ok t ∧
      t.bbHeap[0]? = some b1 ∧
      isChain t.insHeap b1.first_instruction [0, 1, 2] = true ∧
      b1.last_instruction = some 2 :=
  ⟨by decide,
    match BasicBlockAddInstruction_order CPU.chainExample 0 2
      { BasicBlock.new 0x0100 with first_instruction := some 0, last_instruction := some 1 }
      (Instruction.new 0x0104) [0, 1] rfl (by decide) rfl rfl rfl (by decide) with
    | ⟨t, b1, ht, hb1, hc, hl, _⟩ => ⟨t, b1, ht, hb1, hc, hl⟩⟩

/-! ## Coprocessor data transfer -/

theorem OP_CR_EA_load_overrun (readData : Nat → Nat) (op0_index : Nat) :
    ∀ (count ix : Nat) (s : CPU), op0_index + ix ≤ 16 → 16 < op0_index + ix + count →
      CPU.OP_CR_EA_load readData op0_index count ix s = Except.error Fault.badPointer := by
  intro count
  induction count with
  | zero =>
    intro ix s h1 h2
    omega
  | succ n ih =>
    intro ix s h1 h2
    unfold CPU.OP_CR_EA_load
    by_cases h : op0_index + ix < 16
    · rw [dif_pos h]
      exact ih (ix + 1) _ (by omega) (by omega)
    · rw [dif_neg h]

theorem OP_CR_EA_store_overrun (s : CPU) (op0_index count : Nat) (log : List (Nat × Nat))
    (h : 16 < count) :
    s.OP_CR_EA_store op0_index count log = Except.error Fault.badPointer := by
  obtain ⟨k, rfl⟩ : ∃ k, count = k + 1 := ⟨count - 1, by omega⟩
  unfold CPU.OP_CR_EA_store
  rw [dif_neg (by omega)]

/-- C20 fails on the code: `OP_CR_EA` takes its byte count from
`impl_opcode >> 8`, not from `impl_operands[0].register_size`.  Whenever the
high byte of the opcode word is 17 or more, whatever operand 0 says, the load
loop runs past `cr[15]` and the store loop starts past it.  For the opcode word
0xF23D with operand 0 of register size 2 the count is 242.  For the opcode word
0x043D with operand 0 of register size 2 the handler completes, overwrites the
four registers `cr[4]` to `cr[7]` and advances `reg_ea` by 4. -/
theorem OP_CR_EA_width_from_opcode :
    (∀ (s : CPU) (readData : Nat → Nat), 17 ≤ s.impl_opcode >>> 8 →
      s.OP_CR_EA readData = Except.error Fault.badPointer) ∧
    (CPU.coprocessorLoadExample.impl_operands 0).register_size = 2 ∧
    CPU.coprocessorLoadExample.impl_opcode >>> 8 = 242 ∧
    (CPU.coprocessorLoadExample.impl_opcode >>> 8) &&& 0x000F = 2 ∧
    (∀ readData, CPU.coprocessorLoadExample.OP_CR_EA readData
      = Except.error Fault.badPointer) ∧
    (∀ readData, CPU.coprocessorStoreExample.OP_CR_EA readData
      = Except.error Fault.badPointer) ∧
    (CPU.coprocessorLowExample.impl_operands 0).register_size = 2 ∧
    CPU.coprocessorLowExample.OP_CR_EA (fun _ => 0xAA)
      = Except.ok (CPU.afterCoprocessorLowExample, []) ∧
    (CPU.afterCoprocessorLowExample.reg_cr 4).raw = 0xAA ∧
    (CPU.afterCoprocessorLowExample.reg_cr 5).raw = 0xAA ∧
    (CPU.afterCoprocessorLowExample.reg_cr 6).raw = 0xAA ∧
    (CPU.afterCoprocessorLowExample.reg_cr 7).raw = 0xAA ∧
    (CPU.coprocessorLowExample.reg_cr 6).raw = 0 ∧
    (CPU.coprocessorLowExample.reg_cr 7).raw = 0 ∧
    CPU.coprocessorLowExample.reg_ea.raw = 0x1000 ∧
    CPU.afterCoprocessorLowExample.reg_ea.raw = 0x1004 := by
  refine ⟨?_, rfl, by decide, by decide, fun _ => rfl, fun _ => rfl, rfl, rfl,
    by decide, by decide, by decide, by decide, by decide, by decide, by decide, by decide⟩
  intro s readData h
  unfold CPU.OP_CR_EA
  simp only []
  by_cases hst : s.impl_hint &&& H_ST ≠ 0
  · rw [if_pos hst, OP_CR_EA_store_overrun s _ _ _ (by omega)]
    rfl
  · rw [if_neg hst, OP_CR_EA_load_overrun readData _ _ 0 s ?_ ?_]
    · rfl
    · have : (s.impl_opcode >>> 8) &&& 0x000F ≤ 15 := Nat.and_le_right
      omega
    · omega

/-! ## Address of the recorded branch instruction -/

/-- C12 fails on the code for the one-word form: `OP_B` and `OP_BL` always key
the instruction node at the program counter minus 4.  Entered after a one-word
branch that starts at 0x0100 (program counter 0x0102, no long-immediate hint)
they create the node at 0x00FE and nothing at 0x0100; entered after the
two-word branch of `branchToExample` (program counter 0x0104) `OP_B` creates
the node at 0x0100 with the text "goto label_000200;\n". -/
theorem OP_B_one_word_key :
    CPU.registerBranchExample.impl_hint &&& H_TI = 0 ∧
    CPU.registerBranchExample.reg_pc.raw = 0x0100 + 2 ∧
    CPU.registerBranchExample.reg_csr.raw = 0 ∧
    CPU.registerBranchExample.GetInstruction 0x00FE = none ∧
    CPU.registerBranchExample.OP_B
      = Except.ok (CPU.outcome CPU.registerBranchExample.OP_B) ∧
    (CPU.outcome CPU.registerBranchExample.OP_B).GetInstruction 0x0100 = none ∧
    (CPU.outcome CPU.registerBranchExample.OP_B).GetInstruction 0x00FE = some 0 ∧
    ((CPU.outcome CPU.registerBranchExample.OP_B).insHeap[0]?).map Instruction.address
      = some 0x00FE ∧
    ((CPU.outcome CPU.registerBranchExample.OP_B).insHeap[0]?).map Instruction.code
      = some "goto label_000200;\n" ∧
    (CPU.outcome CPU.registerBranchExample.OP_B).insHeap.length = 1 ∧
    CPU.registerBranchExample.OP_BL
      = Except.ok (CPU.outcome CPU.registerBranchExample.OP_BL) ∧
    (CPU.outcome CPU.registerBranchExample.OP_BL).GetInstruction 0x0100 = none ∧
    (CPU.outcome CPU.registerBranchExample.OP_BL).GetInstruction 0x00FE = some 0 ∧
    ((CPU.outcome CPU.registerBranchExample.OP_BL).insHeap[0]?).map Instruction.address
      = some 0x00FE ∧
    (CPU.outcome CPU.registerBranchExample.OP_BL).insHeap.length = 1 ∧
    CPU.branchToExample.impl_hint &&& H_TI ≠ 0 ∧
    CPU.branchToExample.reg_pc.raw = 0x0100 + 4 ∧
    CPU.branchToExample.OP_B = Except.ok CPU.afterBranchExample ∧
    CPU.afterBranchExample.GetInstruction 0x0100 = some 0 ∧
    (CPU.afterBranchExample.insHeap[0]?).map Instruction.address = some 0x0100 ∧
    (CPU.afterBranchExample.insHeap[0]?).map Instruction.code
      = some "goto label_000200;\n" :=
  ⟨by decide, by decide, rfl, rfl, rfl, by decide, by decide, by decide, by decide, by decide,
    rfl, by decide, by decide, by decide, by decide,
    by decide, by decide, rfl, by decide, by decide, by decide⟩

/-! ## The current block after a control transfer -/

/-- C15 fails on the code for the one-word form of `OP_BL` outside code
segment 0: the target block is created at the operand value alone, without the
code segment.  From `segmentCallExample` (code segment 1, target offset 0x2000)
the call completes with the program counter at 0x012000, but the current block
is the block created at 0x002000 and no block is registered at 0x012000; the
one-word `OP_B` from the same state does register its current block at
0x012000. -/
theorem OP_BL_one_word_segment :
    CPU.segmentCallExample.WF ∧
    CPU.segmentCallExample.impl_hint &&& H_TI = 0 ∧
    CPU.segmentCallExample.reg_csr.raw = 1 ∧
    CPU.segmentCallExample.OP_BL
      = Except.ok (CPU.outcome CPU.segmentCallExample.OP_BL) ∧
    (CPU.outcome CPU.segmentCallExample.OP_BL).reg_csr.raw = 1 ∧
    (CPU.outcome CPU.segmentCallExample.OP_BL).reg_pc.raw = 0x2000 ∧
    (CPU.outcome CPU.segmentCallExample.OP_BL).location = 0x012000 ∧
    (CPU.outcome CPU.segmentCallExample.OP_BL).GetBasicBlock 0x012000 = none ∧
    (∀ b ∈ (CPU.outcome CPU.segmentCallExample.OP_BL).bbHeap, b.address ≠ 0x012000) ∧
    (CPU.outcome CPU.segmentCallExample.OP_BL).current_basic_block = some 1 ∧
    (CPU.outcome CPU.segmentCallExample.OP_BL).GetBasicBlock 0x002000 = some 1 ∧
    ((CPU.outcome CPU.segmentCallExample.OP_BL).bbHeap[1]?).map BasicBlock.address
      = some 0x002000 ∧
    CPU.segmentCallExample.OP_B
      = Except.ok (CPU.outcome CPU.segmentCallExample.OP_B) ∧
    (CPU.outcome CPU.segmentCallExample.OP_B).location = 0x012000 ∧
    (CPU.outcome CPU.segmentCallExample.OP_B).current_basic_block = some 1 ∧
    (CPU.outcome CPU.segmentCallExample.OP_B).GetBasicBlock 0x012000 = some 1 ∧
    ((CPU.outcome CPU.segmentCallExample.OP_B).bbHeap[1]?).map BasicBlock.address
      = some 0x012000 :=
  ⟨by decide, by decide, rfl, rfl, by decide, by decide, by decide, by decide, by decide,
    by decide, by decide, by decide, rfl, by decide, by decide, by decide, by decide⟩

/-! ## Kind of a block reached by a one-word call -/

/-- C5 fails on the code for the one-word form of `OP_BL` outside code segment
0.  In code segment 1 a branch to 0x012000 creates a `Branch` block there.  A
one-word call whose register operand holds the offset 0x2000 then goes to
0x012000 (code segment 1, program counter 0x2000), but the handler makes a
`Function` block at its local `targetAddress` 0x002000, which leaves out the
segment: the block at 0x012000, the target of the call, still has kind
`Branch`.  The two-word call to 0x012000 from the same state does make the
block at 0x012000 a `Function` block. -/
theorem OP_BL_one_word_keeps_branch_kind :
    CPU.segmentBranchExample.WF ∧
    CPU.segmentBranchExample.OP_B = Except.ok CPU.afterSegmentBranchExample ∧
    CPU.afterSegmentBranchExample.location = 0x012000 ∧
    CPU.afterSegmentBranchExample.blockKind 0x012000 = some BBType.BB_TYPE_BRANCH ∧
    (CPU.segmentRegisterCallExample.withTrace CPU.afterSegmentBranchExample).WF ∧
    CPU.segmentRegisterCallExample.impl_hint &&& H_TI = 0 ∧
    CPU.segmentRegisterCallExample.reg_csr.raw = 1 ∧
    (CPU.segmentRegisterCallExample.impl_operands 1).value = 0x2000 ∧
    (CPU.segmentRegisterCallExample.withTrace CPU.afterSegmentBranchExample).OP_BL
      = Except.ok CPU.afterSegmentRegisterCallExample ∧
    CPU.afterSegmentRegisterCallExample.reg_csr.raw = 1 ∧
    CPU.afterSegmentRegisterCallExample.reg_pc.raw = 0x2000 ∧
    CPU.afterSegmentRegisterCallExample.location = 0x012000 ∧
    CPU.afterSegmentRegisterCallExample.blockKind 0x012000 = some BBType.BB_TYPE_BRANCH ∧
    CPU.afterSegmentRegisterCallExample.blockKind 0x002000 = some BBType.BB_TYPE_FUNCTION ∧
    CPU.afterSegmentRegisterCallExample.current_basic_block
      = CPU.afterSegmentRegisterCallExample.GetBasicBlock 0x002000 ∧
    CPU.afterSegmentRegisterCallExample.current_basic_block
      ≠ CPU.afterSegmentRegisterCallExample.GetBasicBlock 0x012000 ∧
    CPU.segmentLongCallExample.impl_hint &&& H_TI ≠ 0 ∧
    (CPU.segmentLongCallExample.withTrace CPU.afterSegmentBranchExample).OP_BL
      = Except.ok CPU.afterSegmentLongCallExample ∧
    CPU.afterSegmentLongCallExample.location = 0x012000 ∧
    CPU.afterSegmentLongCallExample.blockKind 0x012000 = some BBType.BB_TYPE_FUNCTION :=
  ⟨by decide, rfl, by decide, by decide, by decide, by decide, rfl, rfl, rfl, by decide,
    by decide, by decide, by decide, by decide, by decide, by decide, by decide, rfl,
    by decide, by decide⟩

/-! ## Registers do not depend on the CFG data -/

theorem registerFile_of_TraceOnly (s u : CPU) (h : s.TraceOnly u) :
    u.registerFile = s.registerFile := by
  unfold CPU.TraceOnly at h
  rw [h]
  rfl

theorem OP_B_trace_TraceOnly (u t : CPU) (ca : Nat) (h : u.OP_B_trace ca = Except.ok t) :
    ∃ s7, u.TraceOnly s7 ∧ t = { s7 with current_basic_block := t.current_basic_block } := by
  obtain ⟨bN, s7, hbN, hrec, rfl⟩ := OP_B_trace_decompose u t ca h
  refine ⟨s7, ?_, rfl⟩
  have tr1 := TraceOnly_CreateBasicBlock u u.location
  obtain ⟨hi1, _⟩ := CreateBasicBlock_instructions u u.location
  generalize u.CreateBasicBlock u.location = r at *
  have hpN : r.1 < r.2.bbHeap.length := getElem?_lt _ _ _ hbN
  have tr3 : u.TraceOnly
      { r.2 with
        bbHeap := r.2.bbHeap.set r.1 { bN with bb_name := CPU.CreateLabelName u.location } } :=
    TraceOnly_trans u r.2 _ tr1 rfl
  have hb3 : (
      { r.2 with
        bbHeap := r.2.bbHeap.set r.1 { bN with bb_name := CPU.CreateLabelName u.location } } :
        CPU).bbHeap[r.1]?
      = some { bN with bb_name := CPU.CreateLabelName u.location } :=
    List.getElem?_set_self hpN
  cases hg : u.GetInstruction ca with
  | some q =>
    rw [hg] at hrec
    simp only [] at hrec
    subst hrec
    exact tr3
  | none =>
    rw [hg] at hrec
    simp only [] at hrec
    have hnone3 : CPU.GetInstruction
        { r.2 with
          bbHeap := r.2.bbHeap.set r.1
            { bN with bb_name := CPU.CreateLabelName u.location } } ca = none := by
      show mapFind r.2.instructions _ = none
      rw [hi1]
      exact hg
    obtain ⟨f1, _⟩ := OP_B_record_effect _ s7 r.1 ca _ hnone3 hb3 hrec
    exact TraceOnly_trans _ _ _ tr3 f1

theorem OP_BL_TraceOnly (s t : CPU) (h : s.OP_BL = Except.ok t) :
    ∃ s5 p, s.TraceOnly s5 ∧ s5.OP_BL_link p = Except.ok t := by
  obtain ⟨bA, s5, hbA, hrec, hlink⟩ := OP_BL_decompose s t h
  refine ⟨s5, _, ?_, hlink⟩
  have tr1 := TraceOnly_CreateBasicBlock s s.OP_BL_targetAddress
  obtain ⟨hi1, _⟩ := CreateBasicBlock_instructions s s.OP_BL_targetAddress
  generalize s.CreateBasicBlock s.OP_BL_targetAddress = r at *
  have hpA : r.1 < r.2.bbHeap.length := getElem?_lt _ _ _ hbA
  have tr2 : s.TraceOnly
      { r.2 with
        bbHeap := r.2.bbHeap.set r.1 { bA with type := BBType.BB_TYPE_FUNCTION } } :=
    TraceOnly_trans s r.2 _ tr1 rfl
  have hb2 : (
      { r.2 with
        bbHeap := r.2.bbHeap.set r.1 { bA with type := BBType.BB_TYPE_FUNCTION } } : CPU).bbHeap[r.1]?
      = some { bA with type := BBType.BB_TYPE_FUNCTION } := List.getElem?_set_self hpA
  cases hg : s.GetInstruction (s.instructionAddress 4) with
  | some q =>
    rw [hg] at hrec
    simp only [] at hrec
    subst hrec
    exact tr2
  | none =>
    rw [hg] at hrec
    simp only [] at hrec
    have hnone2 : CPU.GetInstruction
        { r.2 with
          bbHeap := r.2.bbHeap.set r.1 { bA with type := BBType.BB_TYPE_FUNCTION } }
        (s.instructionAddress 4) = none := by
      show mapFind r.2.instructions _ = none
      rw [hi1]
      exact hg
    obtain ⟨f1, _⟩ := OP_BL_record_effect _ s5 r.1 _ _ _ hnone2 hb2 hrec
    exact TraceOnly_trans _ _ _ tr2 f1

theorem OP_RT_TraceOnly (s t : CPU) (h : s.OP_RT = Except.ok t) :
    ∃ s3, s.TraceOnly s3 ∧ t = s3.OP_RT_return := by
  obtain ⟨s3, rfl, hm⟩ := OP_RT_decompose s t h
  refine ⟨s3, ?_, rfl⟩
  cases hg : s.GetInstruction (s.instructionAddress 2) with
  | some q =>
    rw [hg] at hm
    simp only [] at hm
    subst hm
    exact TraceOnly_refl _
  | none =>
    rw [hg] at hm
    simp only [] at hm
    exact (OP_RT_record_effect s s3 _ hg hm).1

theorem OP_B_transfer_registerFile (s : CPU) :
    s.OP_B_transfer.registerFile = s.registerFile.OP_B_transfer.registerFile := by
  have h1 := OP_B_transfer_regs s
  have h2 := OP_B_transfer_regs s.registerFile
  rw [OP_B_transfer_eq s, OP_B_transfer_eq s.registerFile]
  show CPU.registerFile { s with reg_csr := _, reg_pc := _ }
    = CPU.registerFile { s.registerFile with reg_csr := _, reg_pc := _ }
  rw [h1.1, h1.2, h2.1, h2.2]
  rfl

/-- The registers `OP_B` leaves are those of its transfer step. -/
theorem OP_B_registerFile (s t : CPU) (h : s.OP_B = Except.ok t) :
    t.registerFile = s.registerFile.OP_B_transfer.registerFile := by
  rw [← OP_B_transfer_registerFile]
  unfold CPU.OP_B at h
  simp only [] at h
  split at h
  · rw [← Except.ok.inj h]
  · obtain ⟨s7, htr, ht⟩ := OP_B_trace_TraceOnly _ t _ h
    rw [ht]
    exact registerFile_of_TraceOnly _ s7 htr

/-- The registers `OP_BL` leaves. -/
theorem OP_BL_registerFile (s t : CPU) (h : s.OP_BL = Except.ok t) :
    t.registerFile = s.registerFile.callRegisters.registerFile := by
  obtain ⟨s5, p, htr, hlink⟩ := OP_BL_TraceOnly s t h
  rw [OP_BL_link_eq] at hlink
  have ht := (Except.ok.inj hlink).symm
  obtain ⟨r1, r2, r3, r4, _⟩ := TraceOnly_fields s s5 htr
  obtain ⟨q1, q2⟩ := OP_B_transfer_TraceOnly s s5 htr
  have h1 := OP_B_transfer_regs s
  have h2 := OP_B_transfer_regs s.registerFile
  rw [ht]
  show CPU.registerFile
      { s5 with
        reg_elr := Function.update s5.reg_elr 0 s5.reg_pc
        reg_ecsr := Function.update s5.reg_ecsr 0 s5.reg_csr
        reg_csr := s5.OP_B_transfer.reg_csr
        reg_pc := s5.OP_B_transfer.reg_pc }
    = CPU.registerFile
      { s.registerFile with
        reg_elr := Function.update s.reg_elr 0 s.reg_pc
        reg_ecsr := Function.update s.reg_ecsr 0 s.reg_csr
        reg_csr := s.registerFile.OP_B_transfer.reg_csr
        reg_pc := s.registerFile.OP_B_transfer.reg_pc }
  rw [q1, q2, r1, r2, r3, r4, h1.1, h1.2, h2.1, h2.2]
  unfold CPU.TraceOnly at htr
  rw [htr]
  rfl

/-- The registers `OP_RT` leaves. -/
theorem OP_RT_registerFile (s t : CPU) (h : s.OP_RT = Except.ok t) :
    t.registerFile = s.registerFile.returnRegisters.registerFile := by
  obtain ⟨s3, htr, rfl⟩ := OP_RT_TraceOnly s t h
  rw [OP_RT_return_eq]
  have tr2 := TraceOnly_trans _ _ _ htr (TraceOnly_CreateBasicBlock s3 s3.linkAddress)
  obtain ⟨_, _, r3, r4, _⟩ := TraceOnly_fields s s3 htr
  generalize (s3.CreateBasicBlock s3.linkAddress).2 = v at *
  show CPU.registerFile { v with reg_csr := s3.reg_ecsr 0, reg_pc := s3.reg_elr 0 }
    = CPU.registerFile { s.registerFile with reg_csr := s.reg_ecsr 0, reg_pc := s.reg_elr 0 }
  rw [r3, r4]
  unfold CPU.TraceOnly at tr2
  rw [tr2]
  rfl

/-- The registers a completed handler leaves are a function of the registers
it was entered with. -/
theorem exec_registerFile (h : Handler) (s t : CPU) (ht : h.exec s = Except.ok t) :
    t.registerFile = (h.registers s.registerFile).registerFile := by
  cases h with
  | B => exact OP_B_registerFile s t ht
  | BL => exact OP_BL_registerFile s t ht
  | RT => exact OP_RT_registerFile s t ht

/-- C16 (amended): for `OP_B`, `OP_BL` and `OP_RT` and any two pre-states that
hold the same registers and decoder outputs and differ at will in their CFG
data, two executions that both complete leave the same registers and decoder
outputs.  Completion itself depends on the CFG data: `OP_BL` completes from
every well-formed state, but `OP_B` and `OP_RT` stop at their assertion
whenever the instruction is not yet registered and no current block exists,
whatever the registers hold. -/
theorem registers_independent_of_trace :
    (∀ (h : Handler) (s1 s2 t1 t2 : CPU), s1.registerFile = s2.registerFile →
      h.exec s1 = Except.ok t1 → h.exec s2 = Except.ok t2 →
      t1.registerFile = t2.registerFile) ∧
    (∀ s1 s2 : CPU, s1.registerFile = s2.registerFile → s1.WF → s2.WF →
      ∃ t1 t2, s1.OP_BL = Except.ok t1 ∧ s2.OP_BL = Except.ok t2 ∧
        t1.registerFile = t2.registerFile) ∧
    (∀ s : CPU, s.WF → s.GetInstruction (s.instructionAddress 4) = none →
      s.current_basic_block = none → s.OP_B = Except.error Fault.assertion) ∧
    (∀ s : CPU, s.GetInstruction (s.instructionAddress 2) = none →
      s.current_basic_block = none → s.OP_RT = Except.error Fault.assertion) := by
  have main : ∀ (h : Handler) (s1 s2 t1 t2 : CPU), s1.registerFile = s2.registerFile →
      h.exec s1 = Except.ok t1 → h.exec s2 = Except.ok t2 →
      t1.registerFile = t2.registerFile := by
    intro h s1 s2 t1 t2 hregs h1 h2
    rw [exec_registerFile h s1 t1 h1, exec_registerFile h s2 t2 h2, hregs]
  refine ⟨main, ?_, OP_B_assert, OP_RT_assert⟩
  intro s1 s2 hregs w1 w2
  obtain ⟨t1, h1⟩ := OP_BL_ok s1 w1
  obtain ⟨t2, h2⟩ := OP_BL_ok s2 w2
  exact ⟨t1, t2, h1, h2, main Handler.BL s1 s2 t1 t2 hregs h1 h2⟩

/-- C16 (amended) at concrete states: `callExample` and `coldCallExample`
hold the same registers and differ in their CFG data; the call completes from
both and leaves the same registers. -/
theorem registers_independent_of_trace_example :
    CPU.callExample.registerFile = CPU.coldCallExample.registerFile ∧
    CPU.callExample.basic_blocks ≠ CPU.coldCallExample.basic_blocks ∧
    ∃ t1 t2, CPU.callExample.OP_BL = Except.ok t1 ∧ CPU.coldCallExample.OP_BL = Except.ok t2 ∧
      t1.registerFile = t2.registerFile :=
  ⟨rfl, by decide,
    registers_independent_of_trace.2.1 CPU.callExample CPU.coldCallExample rfl
      (by decide) (by decide)⟩

/-- C16 as stated fails: `branchToExample` and the state with the same
registers and decoder outputs but empty CFG data agree on every register, yet
`OP_B` completes from the first and stops at its assertion from the second;
the same holds of `OP_RT` from `returnExample`. -/
theorem OP_B_completion_depends_on_trace :
    (CPU.branchToExample.withTrace CPU.fresh).registerFile = CPU.branchToExample.registerFile ∧
    CPU.branchToExample.OP_B = Except.ok CPU.afterBranchExample ∧
    (CPU.branchToExample.withTrace CPU.fresh).OP_B = Except.error Fault.assertion ∧
    (CPU.returnExample.withTrace CPU.fresh).registerFile = CPU.returnExample.registerFile ∧
    CPU.returnExample.OP_RT = Except.ok (CPU.outcome CPU.returnExample.OP_RT) ∧
    (CPU.returnExample.withTrace CPU.fresh).OP_RT = Except.error Fault.assertion :=
  ⟨rfl, rfl, rfl, rfl, rfl, rfl⟩

/-! ## Re-visited instructions -/

set_option maxRecDepth 100000

end casioemu
